import Mathlib

/-! Pull-based execution core of the AQL engine.

Shallow embedding of

* `arangod/Aql/BlockFetcher.cpp` (`BlockFetcher::fetchBlock`,
  `BlockFetcher::fetchBlockOfDependency`),
* `arangod/Aql/MultiDependencySingleRowFetcher.h` (`fetchRowForDependency`),
* `arangod/Aql/ExecutionBlockImpl.cpp` (`getSomeWithoutTrace`, `requestWrappedBlock`,
  `skipSome`, `initializeCursor`, the destructor),
* `arangod/Aql/CountCollectExecutor.h` (`CountCollectExecutor`).

Batches are immutable values, every mutable C++ object becomes an explicit
state that is passed in and handed back.
-/

namespace arangodb.aql

/-! ## Data model -/

/-- Modelled from the spec: the three-valued signal of every pull operation
(§3); the sources use its values DONE, HASMORE and WAITING. -/
inductive ExecutionState where
  | DONE
  | HASMORE
  | WAITING
  deriving DecidableEq, Repr

/-- A cell of a batch: `none` is a cell that was never written. -/
abbrev AqlValue := Option Int

abbrev RegisterId := Nat

/-- Modelled from the spec: a batch (§3), a table of rows times registers; the
class `AqlItemBlock` is defined in none of the embedded sources. -/
structure AqlItemBlock where
  nrRegs : Nat
  rows : List (List AqlValue)
  deriving DecidableEq, Repr

/-- Number of rows of the batch (`AqlItemBlock::size`). -/
def AqlItemBlock.size (b : AqlItemBlock) : Nat := b.rows.length

def AqlItemBlock.getNrRegs (b : AqlItemBlock) : Nat := b.nrRegs

/-- Modelled from the spec: the shell that `fetchBlock` wraps around a batch
(§4.2), the batch together with the input registers declared by its reader. -/
structure InputAqlItemBlockShell where
  block : AqlItemBlock
  inputRegisters : List RegisterId
  deriving DecidableEq, Repr

/-- Modelled from the spec: the input row view (§3), whose class
`InputAqlItemRow` is used by the embedded sources and defined in none of them.
It is a batch reference with a row offset; the null row references no batch. -/
structure InputAqlItemRow where
  blockShell : Option InputAqlItemBlockShell
  baseIndex : Nat
  deriving DecidableEq, Repr

/-- The null row (`InputAqlItemRow{CreateInvalidInputRowHint{}}`). -/
def InputAqlItemRow.invalid : InputAqlItemRow := ⟨none, 0⟩

/-- Whether the row is not the null row (`operator bool`). -/
def InputAqlItemRow.isInitialized (r : InputAqlItemRow) : Bool := r.blockShell.isSome

/-- The register values the view points at, if it points inside its batch. -/
def InputAqlItemRow.values (r : InputAqlItemRow) : Option (List AqlValue) :=
  r.blockShell.bind (fun sh => sh.block.rows[r.baseIndex]?)

def InputAqlItemRow.getNrRegisters (r : InputAqlItemRow) : Option Nat :=
  r.blockShell.map (fun sh => sh.block.getNrRegs)

def InputAqlItemRow.getValue (r : InputAqlItemRow) (reg : RegisterId) : AqlValue :=
  ((r.values.bind (fun vs => vs[reg]?)).getD none)

/-! ## Upstream blocks and the low-level fetcher -/

/-- What one `getSome` call on an upstream block answers. -/
abbrev UpstreamAnswer := ExecutionState × Option AqlItemBlock

/-- Modelled from the spec: an upstream execution block is an external
collaborator reached only through `getSome`; it is observed through the
answers it still has to give, in order. -/
abbrev Dependency := List UpstreamAnswer

/-- Modelled from the spec: `getSome` on an upstream block.  It gives its next
answer; once it has none left it reports DONE without a batch. -/
def Dependency.getSome (d : Dependency) : UpstreamAnswer × Dependency :=
  match d with
  | [] => ((ExecutionState.DONE, none), [])
  | a :: rest => (a, rest)

/-- The low-level fetcher.  `numFetchBlockCalls` counts the calls of
`fetchBlockOfDependency` (the counter the tests read); it is an observation
and influences nothing. -/
structure BlockFetcher where
  _dependencies : List Dependency
  _inputRegisters : List RegisterId
  numFetchBlockCalls : Nat
  deriving DecidableEq, Repr

/-- `BlockFetcher::fetchBlockOfDependency`.  The result is `none` when the
index is out of range, where the C++ code asserts and then indexes out of
bounds. -/
def BlockFetcher.fetchBlockOfDependency (bf : BlockFetcher) (dependencyIndex : Nat) :
    Option ((ExecutionState × Option InputAqlItemBlockShell) × BlockFetcher) :=
  if h : dependencyIndex < bf._dependencies.length then
    let res := Dependency.getSome (bf._dependencies[dependencyIndex])
    let state := res.1.1
    let block := res.1.2
    let bf' : BlockFetcher :=
      { bf with _dependencies := bf._dependencies.set dependencyIndex res.2
                numFetchBlockCalls := bf.numFetchBlockCalls + 1 }
    match block with
    | some b => some ((state, some ⟨b, bf._inputRegisters⟩), bf')
    | none => some ((state, none), bf')
  else
    none

/-! ## The fan-in row fetcher -/

/-- Modelled from the spec: the cursor kept for one dependency (§4.3, §4.4),
an entry of `_upstream`: the batch being read, the offset of the next row to
hand out, and the state upstream reported with that batch. -/
structure SingleRowFetcher where
  _currentBlock : Option InputAqlItemBlockShell
  _rowIndex : Nat
  _upstreamState : ExecutionState
  deriving DecidableEq, Repr

/-- Modelled from the spec: a cursor that has not fetched anything yet. -/
def SingleRowFetcher.init : SingleRowFetcher := ⟨none, 0, ExecutionState.HASMORE⟩

/-- Modelled from the spec: whether the current batch still has an unread
row. -/
def SingleRowFetcher.indexIsValid (c : SingleRowFetcher) : Bool :=
  match c._currentBlock with
  | none => false
  | some sh => decide (c._rowIndex < sh.block.size)

/-- Modelled from the spec: whether the next row to hand out is the last one of
the current batch. -/
def SingleRowFetcher.isLastRowInBlock (c : SingleRowFetcher) : Bool :=
  match c._currentBlock with
  | none => false
  | some sh => decide (c._rowIndex + 1 = sh.block.size)

/-- Modelled from the spec: the part of `fetchRow` that hands out the row under
the cursor (§4.3).  Without a batch the answer is DONE with the null row; the
last row of a batch that came with DONE is tagged DONE, every other row
HASMORE. -/
def SingleRowFetcher.returnRow (c : SingleRowFetcher) :
    (ExecutionState × InputAqlItemRow) × SingleRowFetcher :=
  match c._currentBlock with
  | none => ((ExecutionState.DONE, InputAqlItemRow.invalid), c)
  | some sh =>
    let rowState :=
      if c.isLastRowInBlock && decide (c._upstreamState = ExecutionState.DONE)
      then ExecutionState.DONE else ExecutionState.HASMORE
    ((rowState, ⟨some sh, c._rowIndex⟩), { c with _rowIndex := c._rowIndex + 1 })

structure MultiDependencySingleRowFetcher where
  _blockFetcher : BlockFetcher
  _upstream : List SingleRowFetcher
  deriving DecidableEq, Repr

/-- Modelled from the spec: the constructor, which gives every dependency of
the block fetcher its own fresh cursor (§4.4). -/
def MultiDependencySingleRowFetcher.create (bf : BlockFetcher) :
    MultiDependencySingleRowFetcher :=
  ⟨bf, List.replicate bf._dependencies.length SingleRowFetcher.init⟩

def MultiDependencySingleRowFetcher._nrDependencies
    (f : MultiDependencySingleRowFetcher) : Nat := f._upstream.length

/-- Modelled from the spec: `MultiDependencySingleRowFetcher::fetchRowForDependency`,
which `MultiDependencySingleRowFetcher.h` declares without a body (§4.3,
§4.4).  The cursor of the dependency advances through its
current batch row by row; when that batch is used up the low-level fetcher is
asked once for the next batch of this dependency; on WAITING the cursor stays
as it is.  `none` is the programming error of an index out of range. -/
def MultiDependencySingleRowFetcher.fetchRowForDependency
    (f : MultiDependencySingleRowFetcher) (depIndex : Nat) :
    Option ((ExecutionState × InputAqlItemRow) × MultiDependencySingleRowFetcher) :=
  match f._upstream[depIndex]? with
  | none => none
  | some c =>
    if c.indexIsValid then
      let r := c.returnRow
      some (r.1, { f with _upstream := f._upstream.set depIndex r.2 })
    else
      match f._blockFetcher.fetchBlockOfDependency depIndex with
      | none => none
      | some ((state, newBlock), bf') =>
        if state = ExecutionState.WAITING then
          some ((ExecutionState.WAITING, InputAqlItemRow.invalid),
                { f with _blockFetcher := bf' })
        else
          let r := SingleRowFetcher.returnRow ⟨newBlock, 0, state⟩
          some (r.1, { _blockFetcher := bf', _upstream := f._upstream.set depIndex r.2 })

/-- Successive `fetchRowForDependency` calls, one per entry of `calls`; the
results are paired with the dependency they were asked for. -/
def MultiDependencySingleRowFetcher.fetchMany :
    MultiDependencySingleRowFetcher → List Nat →
    Option (List (Nat × (ExecutionState × InputAqlItemRow)) × MultiDependencySingleRowFetcher)
  | f, [] => some ([], f)
  | f, d :: calls =>
    match f.fetchRowForDependency d with
    | none => none
    | some (r, f') =>
      match MultiDependencySingleRowFetcher.fetchMany f' calls with
      | none => none
      | some (rs, f'') => some ((d, r) :: rs, f'')

/-! ### One dependency seen alone

`fetchRowForDependency` touches only the cursor and the upstream of the
dependency it is asked for; `SingleRowFetcher.fetchRow` is that call written
on these two alone, with the number of low-level fetches it makes. -/

abbrev RowResult := ExecutionState × InputAqlItemRow

def SingleRowFetcher.fetchRow (regs : List RegisterId) (c : SingleRowFetcher)
    (dep : Dependency) : RowResult × SingleRowFetcher × Dependency × Nat :=
  if c.indexIsValid then
    (c.returnRow.1, c.returnRow.2, dep, 0)
  else
    let res := Dependency.getSome dep
    if res.1.1 = ExecutionState.WAITING then
      ((ExecutionState.WAITING, InputAqlItemRow.invalid), c, res.2, 1)
    else
      let r := SingleRowFetcher.returnRow
        ⟨res.1.2.map (fun b => ⟨b, regs⟩), 0, res.1.1⟩
      (r.1, r.2, res.2, 1)

/-- `n` successive calls on one dependency: the results, the cursor and the
upstream left over, and the number of low-level fetches made. -/
def SingleRowFetcher.fetchRows (regs : List RegisterId) :
    Nat → SingleRowFetcher → Dependency →
    List RowResult × SingleRowFetcher × Dependency × Nat
  | 0, c, dep => ([], c, dep, 0)
  | n + 1, c, dep =>
    let s := SingleRowFetcher.fetchRow regs c dep
    let t := SingleRowFetcher.fetchRows regs n s.2.1 s.2.2.1
    (s.1 :: t.1, t.2.1, t.2.2.1, s.2.2.2 + t.2.2.2)

/-! ### What a script is expected to yield -/

/-- The input row view on row `i` of batch `b`. -/
def rowOf (regs : List RegisterId) (b : AqlItemBlock) (i : Nat) : InputAqlItemRow :=
  ⟨some ⟨b, regs⟩, i⟩

/-- The rows of a batch as row views with their tags, from row `i` on: DONE on
the last row when the batch came with DONE, HASMORE otherwise. -/
def taggedRowsFrom (regs : List RegisterId) (st : ExecutionState) (b : AqlItemBlock)
    (i : Nat) : Nat → List RowResult
  | 0 => []
  | k + 1 =>
    ((if i + 1 = b.size ∧ st = ExecutionState.DONE
        then ExecutionState.DONE else ExecutionState.HASMORE), rowOf regs b i)
      :: taggedRowsFrom regs st b (i + 1) k

/-- The results one upstream answer gives rise to. -/
def expectedOf (regs : List RegisterId) (a : UpstreamAnswer) : List RowResult :=
  if a.1 = ExecutionState.WAITING then [(ExecutionState.WAITING, InputAqlItemRow.invalid)]
  else match a.2 with
    | none => [(ExecutionState.DONE, InputAqlItemRow.invalid)]
    | some b => taggedRowsFrom regs a.1 b 0 b.size

/-- The results a whole script gives rise to, answer after answer. -/
def expectedResults (regs : List RegisterId) (script : Dependency) : List RowResult :=
  script.flatMap (expectedOf regs)

/-- The number of calls that use up a script: one per row of a delivered
batch, one per answer without a batch, one per WAITING. -/
def callsToConsume (script : Dependency) : Nat :=
  (script.map (fun a =>
    if a.1 = ExecutionState.WAITING then 1
    else match a.2 with
      | none => 1
      | some b => b.size)).sum

/-- The batches of a script that are delivered: those not answered with
WAITING. -/
def deliveredBatches (script : Dependency) : List AqlItemBlock :=
  script.filterMap (fun a => if a.1 = ExecutionState.WAITING then none else a.2)

/-- Every batch of the script has at least one row. -/
def batchesNonEmpty (script : Dependency) : Bool :=
  script.all (fun a => match a.2 with
    | none => true
    | some b => decide (0 < b.size))

/-- The results that carry a row which is not the null row. -/
def validResults (rs : List RowResult) : List RowResult :=
  rs.filter (fun r => r.2.isInitialized)

/-- A one-register batch holding the given integers, one per row. -/
def buildBlock (vals : List Int) : AqlItemBlock :=
  ⟨1, vals.map (fun v => [some v])⟩

open ExecutionState

/-- Every dependency has its cursor. -/
def MultiDependencySingleRowFetcher.wellFormed (f : MultiDependencySingleRowFetcher) : Prop :=
  f._upstream.length = f._blockFetcher._dependencies.length

/-- The rows of a batch with their tags. -/
def taggedRows (regs : List RegisterId) (st : ExecutionState) (b : AqlItemBlock) :
    List RowResult :=
  (List.range b.size).map (fun i =>
    ((if i + 1 = b.size ∧ st = ExecutionState.DONE
        then ExecutionState.DONE else ExecutionState.HASMORE), rowOf regs b i))

/-- The valid rows a script is expected to yield, with their tags. -/
def expectedValid (regs : List RegisterId) (script : Dependency) : List RowResult :=
  script.flatMap (fun a =>
    if a.1 = ExecutionState.WAITING then []
    else match a.2 with
      | none => []
      | some b => taggedRows regs a.1 b)

/-- The block fetcher of the test scenario without waiting: one dependency
that delivers the batches {1,2,3}, {4,5} and, with DONE, {6}. -/
def scenarioNoWait : BlockFetcher :=
  ⟨[[(HASMORE, some (buildBlock [1, 2, 3])), (HASMORE, some (buildBlock [4, 5])),
      (DONE, some (buildBlock [6]))]], [0], 0⟩

/-- The block fetcher of the test scenario with waiting: a WAITING before each
of the three batches. -/
def scenarioWait : BlockFetcher :=
  ⟨[[(WAITING, none), (HASMORE, some (buildBlock [1, 2, 3])), (WAITING, none),
      (HASMORE, some (buildBlock [4, 5])), (WAITING, none),
      (DONE, some (buildBlock [6]))]], [0], 0⟩

/-- The block fetcher of the test scenario in which DONE comes late: a WAITING
before each of the three batches, all delivered with HASMORE, then DONE without
a batch. -/
def scenarioLateDone : BlockFetcher :=
  ⟨[[(WAITING, none), (HASMORE, some (buildBlock [1, 2, 3])), (WAITING, none),
      (HASMORE, some (buildBlock [4, 5])), (WAITING, none),
      (HASMORE, some (buildBlock [6])), (DONE, none)]], [0], 0⟩

/-- The results that are not WAITING. -/
def nonWaiting (rs : List RowResult) : List RowResult :=
  rs.filter (fun r => decide (r.1 ≠ ExecutionState.WAITING))

/-- The number of WAITING results. -/
def countWaiting (rs : List RowResult) : Nat :=
  (rs.filter (fun r => decide (r.1 = ExecutionState.WAITING))).length

/-- The script with its WAITING answers removed. -/
def withoutWaiting (script : Dependency) : Dependency :=
  script.filter (fun a => decide (a.1 ≠ ExecutionState.WAITING))

/-- A fetcher over two dependencies: the first delivers {1,2} and, with DONE,
{3}; the second waits, then delivers {7} with DONE. -/
def scenarioTwoDeps : BlockFetcher :=
  ⟨[[(HASMORE, some (buildBlock [1, 2])), (DONE, some (buildBlock [3]))],
    [(WAITING, none), (DONE, some (buildBlock [7]))]], [0], 0⟩

/-! ## The execution-block driver -/

/-- How a call can fail instead of returning. -/
inductive Error where
  /-- `TRI_ERROR_DEBUG`, thrown at an active failure point. -/
  | debug
  /-- A `TRI_ASSERT` that does not hold, in a build that checks assertions. -/
  | assertion
  /-- The batch manager exceeds its memory budget. -/
  | outOfMemory
  /-- The C++ code goes on after an unchecked assertion into undefined
  behaviour (`front()` of an empty queue, a null shell). -/
  | undefinedBehaviour
  deriving DecidableEq, Repr

/-- The build and debugging switches the code depends on: whether `TRI_ASSERT`
is checked, and which `TRI_IF_FAILURE` points are active. -/
structure Build where
  maintainerMode : Bool
  failurePoints : List String
  deriving DecidableEq, Repr

/-- Modelled from the spec: the macro `TRI_ASSERT(cond)`, a runtime check that
aborts when it fails (§7) and is left out of builds that do not check
assertions. -/
def triAssert (cfg : Build) (cond : Bool) : Except Error Unit :=
  if cfg.maintainerMode && !cond then Except.error Error.assertion else Except.ok ()

/-- Modelled from the spec: the macro `TRI_IF_FAILURE(name)`, the debug
fault-injection hook (§6): whether the failure point is active. -/
def triIfFailure (cfg : Build) (name : String) : Bool :=
  cfg.failurePoints.contains name

/-- Modelled from the spec: the batch manager (§4.1), whose class
`AqlItemBlockManager` is defined in none of the embedded sources.  A request
charges the budget with the cells of the batch and fails when the budget would
be exceeded; a return gives the cells back. -/
structure AqlItemBlockManager where
  memoryLimit : Option Nat
  memoryUsed : Nat
  returned : List AqlItemBlock
  deriving DecidableEq, Repr

/-- Modelled from the spec: `requestBlock(nrItems, nrRegs)` (§4.1).  The new
batch has `nrItems` rows of `nrRegs` cells that were never written. -/
def AqlItemBlockManager.requestBlock (m : AqlItemBlockManager) (nrItems nrRegs : Nat) :
    Except Error (AqlItemBlock × AqlItemBlockManager) :=
  let cost := nrItems * nrRegs
  match m.memoryLimit with
  | some limit =>
    if limit < m.memoryUsed + cost then Except.error Error.outOfMemory
    else Except.ok (⟨nrRegs, List.replicate nrItems (List.replicate nrRegs none)⟩,
      { m with memoryUsed := m.memoryUsed + cost })
  | none =>
    Except.ok (⟨nrRegs, List.replicate nrItems (List.replicate nrRegs none)⟩,
      { m with memoryUsed := m.memoryUsed + cost })

/-- Modelled from the spec: `returnBlock(block)` (§4.1). -/
def AqlItemBlockManager.returnBlock (m : AqlItemBlockManager) (b : AqlItemBlock) :
    AqlItemBlockManager :=
  { m with memoryUsed := m.memoryUsed - b.size * b.nrRegs
           returned := m.returned ++ [b] }

/-- Modelled from the spec: the output row view (§3), whose class
`OutputAqlItemRow` is only used by `ExecutionBlockImpl.cpp`.  It is a write
cursor bound to one batch; it knows how many rows were committed
(`_baseIndex`) and whether the row under the cursor has been written and
waits to be committed (`_produced`). -/
structure OutputAqlItemRow where
  block : AqlItemBlock
  _baseIndex : Nat
  _produced : Bool
  deriving DecidableEq, Repr

/-- Modelled from the spec: the write cursor over a batch that was just
opened. -/
def OutputAqlItemRow.create (b : AqlItemBlock) : OutputAqlItemRow := ⟨b, 0, false⟩

/-- Modelled from the spec: whether the row under the cursor has been written. -/
def OutputAqlItemRow.produced (o : OutputAqlItemRow) : Bool := o._produced

/-- Modelled from the spec: the rows fully written, that is the committed ones
and the one under the cursor when it has been written. -/
def OutputAqlItemRow.numRowsWritten (o : OutputAqlItemRow) : Nat :=
  if o._produced then o._baseIndex + 1 else o._baseIndex

/-- Modelled from the spec: the batch is full when as many rows are written as
it holds. -/
def OutputAqlItemRow.isFull (o : OutputAqlItemRow) : Bool :=
  decide (o.block.size ≤ o.numRowsWritten)

/-- Modelled from the spec: commit the row under the cursor and move to the
next one. -/
def OutputAqlItemRow.advanceRow (o : OutputAqlItemRow) : OutputAqlItemRow :=
  { o with _baseIndex := o._baseIndex + 1, _produced := false }

/-- Modelled from the spec: the executor writes the row under the cursor. -/
def OutputAqlItemRow.write (o : OutputAqlItemRow) (row : List AqlValue) : OutputAqlItemRow :=
  { o with block := { o.block with rows := o.block.rows.set o._baseIndex row }
           _produced := true }

/-- Modelled from the spec: `stealBlock` finalizes the batch (§4.6): a batch
without a written row is discarded and null is handed out, otherwise the batch
is cut to the rows written. -/
def OutputAqlItemRow.stealBlock (o : OutputAqlItemRow) : Option AqlItemBlock :=
  if o.numRowsWritten = 0 then none
  else some { o.block with rows := o.block.rows.take o.numRowsWritten }

/-- The rows committed to the open batch. -/
def OutputAqlItemRow.committedRows (o : OutputAqlItemRow) : List (List AqlValue) :=
  o.block.rows.take o._baseIndex

/-- Modelled from the spec: what one `produceRow` call gives back (§4.5): the
state, the statistics record, the one row it wrote into the output cursor if
it wrote one, and the executor after the call. -/
structure ProduceResult (σ : Type) where
  state : ExecutionState
  stats : Nat
  written : Option (List AqlValue)
  executor : σ

/-- Modelled from the spec: an executor kind (§4.5), the template parameter of
`ExecutionBlockImpl`, together with the fetchers and the upstream it reads
from; `σ` is the state of all of these.  `produceRow` is
`Executor::produceRow`; `upstreamGetSome` is the pull of the low-level fetcher
from the upstream block, after which the fetcher holds the batch for the row
fetcher. -/
structure Executor (σ : Type) where
  allowsBlockPassthrough : Bool
  numberOfOutputRegisters : Nat
  produceRow : σ → OutputAqlItemRow → ProduceResult σ
  upstreamGetSome : σ → UpstreamAnswer × σ

/-- What the block did, in order; an observation that influences nothing. -/
inductive Event where
  | requestBlock (nrItems nrRegs : Nat)
  | prefetchBlock (state : ExecutionState)
  | produceRow (state : ExecutionState) (stats : Nat) (written : Option (List AqlValue))
  | returnBlock (block : AqlItemBlock)
  deriving DecidableEq, Repr

/-- The state of an `ExecutionBlockImpl<Executor>`: the executor with its
fetchers, the open output cursor if there is one, the pass-through queue, and
of the engine the statistics and the batch manager. -/
structure ExecutionBlockImpl (σ : Type) where
  _executor : σ
  _outputItemRow : Option OutputAqlItemRow
  _passThroughBlocks : List AqlItemBlock
  _stats : Nat
  itemBlockManager : AqlItemBlockManager
  trace : List Event

/-- The block as the constructor leaves it: no output cursor, an empty
pass-through queue. -/
def ExecutionBlockImpl.create {σ : Type} (executor : σ) (m : AqlItemBlockManager) :
    ExecutionBlockImpl σ :=
  ⟨executor, none, [], 0, m, []⟩

/-- Modelled from the spec: `BlockFetcher::prefetchBlock` (§4.2), which
`BlockFetcher.cpp` does not define.  It pulls from upstream; a batch
that comes is put into the pass-through queue (the callback of
`createPassThroughCallback`) and HASMORE is reported, whatever state came with
it; without a batch the upstream state is reported. -/
def prefetchBlock {σ : Type} (ex : Executor σ) (s : ExecutionBlockImpl σ) :
    ExecutionState × ExecutionBlockImpl σ :=
  let r := ex.upstreamGetSome s._executor
  if r.1.1 = ExecutionState.WAITING then
    (ExecutionState.WAITING,
      { s with _executor := r.2
               trace := s.trace ++ [Event.prefetchBlock ExecutionState.WAITING] })
  else match r.1.2 with
    | none =>
      (r.1.1, { s with _executor := r.2, trace := s.trace ++ [Event.prefetchBlock r.1.1] })
    | some b =>
      (ExecutionState.HASMORE,
        { s with _executor := r.2
                 _passThroughBlocks := s._passThroughBlocks ++ [b]
                 trace := s.trace ++ [Event.prefetchBlock ExecutionState.HASMORE] })

/-- `ExecutionBlockImpl::requestWrappedBlock`. -/
def requestWrappedBlock {σ : Type} (cfg : Build) (ex : Executor σ) (nrItems nrRegs : Nat)
    (s : ExecutionBlockImpl σ) :
    Except Error (ExecutionState × Option AqlItemBlock) × ExecutionBlockImpl σ :=
  match s.itemBlockManager.requestBlock nrItems nrRegs with
  | Except.error e => (Except.error e, s)
  | Except.ok (block, m) =>
    let s1 := { s with itemBlockManager := m
                       trace := s.trace ++ [Event.requestBlock nrItems nrRegs] }
    if ex.allowsBlockPassthrough then
      let p : ExecutionState × ExecutionBlockImpl σ :=
        if s1._passThroughBlocks.isEmpty then prefetchBlock ex s1
        else (ExecutionState.HASMORE, s1)
      let s2 := p.2
      if p.1 = ExecutionState.WAITING ∨ p.1 = ExecutionState.DONE then
        (Except.ok (p.1, none), s2)
      else
        match s2._passThroughBlocks with
        | [] =>
          ((if cfg.maintainerMode then Except.error Error.assertion
            else Except.error Error.undefinedBehaviour), s2)
        | blockShell :: rest =>
          match triAssert cfg (decide (s2._passThroughBlocks.length = 1)) with
          | Except.error e => (Except.error e, s2)
          | Except.ok _ =>
            let s3 := { s2 with _passThroughBlocks := rest }
            match triAssert cfg (decide (blockShell.getNrRegs = nrRegs)) with
            | Except.error e => (Except.error e, s3)
            | Except.ok _ => (Except.ok (ExecutionState.HASMORE, some blockShell), s3)
    else
      (Except.ok (ExecutionState.HASMORE, some block), s1)

/-- The `while (!_outputItemRow->isFull())` loop of `getSomeWithoutTrace` with
what follows it, on the open output cursor `o`; `state` is the local variable
of that name.  Each round of the loop and the code after it take one unit of
fuel; `none` says that the fuel did not suffice. -/
def produceLoop {σ : Type} (cfg : Build) (ex : Executor σ) (atMost : Nat) :
    Nat → ExecutionBlockImpl σ → OutputAqlItemRow → ExecutionState →
    Option (Except Error (ExecutionState × Option AqlItemBlock) × ExecutionBlockImpl σ)
  | 0, _, _, _ => none
  | fuel + 1, s, o, state =>
    if o.isFull then
      match triAssert cfg (decide (state = ExecutionState.HASMORE)) with
      | Except.error e => some (Except.error e, { s with _outputItemRow := some o })
      | Except.ok _ =>
        match triAssert cfg (decide (o.numRowsWritten = atMost)) with
        | Except.error e => some (Except.error e, { s with _outputItemRow := some o })
        | Except.ok _ =>
          some (Except.ok (state, o.stealBlock), { s with _outputItemRow := none })
    else
      let r := ex.produceRow s._executor o
      let o1 := match r.written with
        | some row => o.write row
        | none => o
      let s1 := { s with _executor := r.executor
                         _stats := s._stats + r.stats
                         trace := s.trace ++ [Event.produceRow r.state r.stats r.written] }
      let o2 := if o1.produced then o1.advanceRow else o1
      if r.state = ExecutionState.WAITING then
        some (Except.ok (ExecutionState.WAITING, none), { s1 with _outputItemRow := some o2 })
      else if r.state = ExecutionState.DONE then
        some (Except.ok (ExecutionState.DONE, o2.stealBlock), { s1 with _outputItemRow := none })
      else
        produceLoop cfg ex atMost fuel s1 o2 r.state

/-- `ExecutionBlockImpl::getSomeWithoutTrace`. -/
def getSomeWithoutTrace {σ : Type} (cfg : Build) (ex : Executor σ) (fuel atMost : Nat)
    (s : ExecutionBlockImpl σ) :
    Option (Except Error (ExecutionState × Option AqlItemBlock) × ExecutionBlockImpl σ) :=
  if triIfFailure cfg "ExecutionBlock::getOrSkipSome1" then some (Except.error Error.debug, s)
  else if triIfFailure cfg "ExecutionBlock::getOrSkipSome2" then
    some (Except.error Error.debug, s)
  else if triIfFailure cfg "ExecutionBlock::getOrSkipSome3" then
    some (Except.error Error.debug, s)
  else
    match s._outputItemRow with
    | some o =>
      match triAssert cfg (decide (0 < atMost)) with
      | Except.error e => some (Except.error e, s)
      | Except.ok _ => produceLoop cfg ex atMost fuel s o ExecutionState.HASMORE
    | none =>
      match requestWrappedBlock cfg ex atMost ex.numberOfOutputRegisters s with
      | (Except.error e, s1) => some (Except.error e, s1)
      | (Except.ok (state, newBlock), s1) =>
        if state ≠ ExecutionState.HASMORE then
          match triAssert cfg newBlock.isNone with
          | Except.error e => some (Except.error e, s1)
          | Except.ok _ => some (Except.ok (state, none), s1)
        else
          match newBlock with
          | none =>
            some ((if cfg.maintainerMode then Except.error Error.assertion
              else Except.error Error.undefinedBehaviour), s1)
          | some b =>
            let o := OutputAqlItemRow.create b
            match triAssert cfg (decide (0 < atMost)) with
            | Except.error e => some (Except.error e, { s1 with _outputItemRow := some o })
            | Except.ok _ => produceLoop cfg ex atMost fuel s1 o ExecutionState.HASMORE

/-- `ExecutionBlockImpl::getSome`: `getSomeWithoutTrace` between the two
tracing calls, which only report. -/
def getSome {σ : Type} (cfg : Build) (ex : Executor σ) (fuel atMost : Nat)
    (s : ExecutionBlockImpl σ) :
    Option (Except Error (ExecutionState × Option AqlItemBlock) × ExecutionBlockImpl σ) :=
  getSomeWithoutTrace cfg ex fuel atMost s

/-- Successive `getSome` calls; each entry of `calls` is the fuel and the
`atMost` of one call.  The run goes on after a call that failed; it is `none`
only when the fuel of a call did not suffice. -/
def getSomeMany {σ : Type} (cfg : Build) (ex : Executor σ) :
    List (Nat × Nat) → ExecutionBlockImpl σ →
    Option (List (Except Error (ExecutionState × Option AqlItemBlock)) × ExecutionBlockImpl σ)
  | [], s => some ([], s)
  | (fuel, atMost) :: calls, s =>
    match getSome cfg ex fuel atMost s with
    | none => none
    | some (r, s1) =>
      match getSomeMany cfg ex calls s1 with
      | none => none
      | some (rs, s2) => some (r :: rs, s2)

/-- The rows the executor wrote, as the trace records them. -/
def writtenRows (evs : List Event) : List (List AqlValue) :=
  evs.filterMap (fun e => match e with
    | Event.produceRow _ _ w => w
    | _ => none)

/-- The invariant of the open output cursor between two calls: the row under
the cursor is not written, and no more rows are committed than the batch
holds. -/
def OutputAqlItemRow.wellFormed (o : OutputAqlItemRow) : Prop :=
  o._produced = false ∧ o._baseIndex ≤ o.block.size

/-- The invariant of the block between two calls. -/
def ExecutionBlockImpl.wellFormed {σ : Type} (s : ExecutionBlockImpl σ) : Prop :=
  ∀ o, s._outputItemRow = some o → o.wellFormed

/-- The events a call may append that are `produceRow` calls only. -/
def onlyProduceRow (evs : List Event) : Prop :=
  ∀ e ∈ evs, ∃ st k w, e = Event.produceRow st k w

/-- The rows committed to the output batch that is open in `s`, none when no
batch is open. -/
def ExecutionBlockImpl.openCommitted {σ : Type} (s : ExecutionBlockImpl σ) :
    List (List AqlValue) :=
  match s._outputItemRow with
  | some o => o.committedRows
  | none => []

/-- What a `getSomeWithoutTrace` call from `s` that ends in `s'` with `out` has
done: the invariant holds again; a batch that is returned comes with DONE or
HASMORE, is not empty, holds the rows that were committed to the open batch
followed by the rows written in this call, and the cursor is closed; WAITING
comes without a batch, and when it came from `produceRow` the cursor stays
open, on the same batch, with the rows written so far; and when a batch was
open at the start, the call only called `produceRow`. -/
def GetSomePost {σ : Type} (s s' : ExecutionBlockImpl σ)
    (out : Except Error (ExecutionState × Option AqlItemBlock)) : Prop :=
  s'.wellFormed ∧
  ∃ evs, s'.trace = s.trace ++ evs ∧
    (∀ st b, out = Except.ok (st, some b) →
      st ≠ ExecutionState.WAITING ∧ 0 < b.size ∧ s'._outputItemRow = none ∧
      b.rows = s.openCommitted ++ writtenRows evs) ∧
    (∀ b, out = Except.ok (ExecutionState.WAITING, b) →
      b = none ∧
      ((∃ k w, evs.getLast? = some (Event.produceRow ExecutionState.WAITING k w)) →
        ∃ o', s'._outputItemRow = some o' ∧
          o'.committedRows = s.openCommitted ++ writtenRows evs ∧
          (∀ o, s._outputItemRow = some o →
            o'.block.size = o.block.size ∧ o'.block.nrRegs = o.block.nrRegs))) ∧
    (∀ o, s._outputItemRow = some o →
      s'.itemBlockManager = s.itemBlockManager ∧
      s'._passThroughBlocks = s._passThroughBlocks ∧ onlyProduceRow evs)

/-- An executor for worked examples: `produceRow` plays a script of results
(state and row written), then reports DONE without a row; the upstream it
prefetches from is a scripted `Dependency`. -/
def scriptedExecutor (passthrough : Bool) (nrRegs : Nat) :
    Executor (List (ExecutionState × Option (List AqlValue)) × Dependency) where
  allowsBlockPassthrough := passthrough
  numberOfOutputRegisters := nrRegs
  produceRow := fun st _ =>
    match st.1 with
    | [] => ⟨ExecutionState.DONE, 0, none, st⟩
    | (state, w) :: rest => ⟨state, 1, w, (rest, st.2)⟩
  upstreamGetSome := fun st =>
    ((Dependency.getSome st.2).1, (st.1, (Dependency.getSome st.2).2))

/-- A build without assertions and without failure points. -/
def releaseBuild : Build := ⟨false, []⟩

/-- A build that checks assertions, without failure points. -/
def maintainerBuild : Build := ⟨true, []⟩

/-- A batch manager without budget limit that has handed out nothing. -/
def freshManager : AqlItemBlockManager := ⟨none, 0, []⟩

/-- No failure point of `getSomeWithoutTrace` is active. -/
def noFailurePoint (cfg : Build) : Prop :=
  triIfFailure cfg "ExecutionBlock::getOrSkipSome1" = false ∧
  triIfFailure cfg "ExecutionBlock::getOrSkipSome2" = false ∧
  triIfFailure cfg "ExecutionBlock::getOrSkipSome3" = false

/-- The state of the scripted executor in the suspension example: a row, a
suspension, a row, and a last row together with DONE. -/
def suspendingScript : List (ExecutionState × Option (List AqlValue)) × Dependency :=
  ([(HASMORE, some [some 1]), (WAITING, none), (HASMORE, some [some 2]),
    (DONE, some [some 3])], [])

/-- The state of the scripted pass-through executor in the prefetch example:
the upstream first answers WAITING. -/
def waitingUpstream : List (ExecutionState × Option (List AqlValue)) × Dependency :=
  ([(HASMORE, some [some 7])], [(WAITING, none), (DONE, some (buildBlock [7]))])

/-! ## Further operations of the low-level fetcher and of the driver -/

/-- `BlockFetcher::fetchBlock`.  The upstream block it pulls from is
`upstreamBlock()`, the single declared upstream (§4.2), here the first
dependency; `none` is the programming error of a fetcher without
dependency. -/
def BlockFetcher.fetchBlock (bf : BlockFetcher) :
    Option ((ExecutionState × Option InputAqlItemBlockShell) × BlockFetcher) :=
  match bf._dependencies with
  | [] => none
  | dep :: rest =>
    let res := Dependency.getSome dep
    let state := res.1.1
    let block := res.1.2
    let bf' : BlockFetcher :=
      { bf with _dependencies := res.2 :: rest
                numFetchBlockCalls := bf.numFetchBlockCalls + 1 }
    match block with
    | some b => some ((state, some ⟨b, bf._inputRegisters⟩), bf')
    | none => some ((state, none), bf')

/-- `ExecutionBlockImpl::skipSome`: a `getSomeWithoutTrace` whose batch, when
there is one, is counted and handed back to the batch manager
(`returnBlock`). -/
def skipSome {σ : Type} (cfg : Build) (ex : Executor σ) (fuel atMost : Nat)
    (s : ExecutionBlockImpl σ) :
    Option (Except Error (ExecutionState × Nat) × ExecutionBlockImpl σ) :=
  match getSomeWithoutTrace cfg ex fuel atMost s with
  | none => none
  | some (Except.error e, s1) => some (Except.error e, s1)
  | some (Except.ok (state, none), s1) => some (Except.ok (state, 0), s1)
  | some (Except.ok (state, some b), s1) =>
    some (Except.ok (state, b.size),
      { s1 with itemBlockManager := s1.itemBlockManager.returnBlock b
                trace := s1.trace ++ [Event.returnBlock b] })

/-- The error number of a `Result`; `0` is `TRI_ERROR_NO_ERROR`. -/
abbrev Result := Nat

/-- Modelled from the spec: what `initializeCursor` needs of an executor kind
(§4.6 item 3): how its block fetcher, its row fetcher and its executor are
constructed anew, how a batch is injected into the row fetcher, what
`ExecutionBlock::initializeCursor` of the base class does with the
dependencies, and the registers the executor keeps and reads. -/
structure Rebuild (σ : Type) where
  recreateBlockFetcher : σ → σ
  recreateFetcher : σ → σ
  recreateExecutor : σ → σ
  injectBlock : σ → InputAqlItemBlockShell → σ
  baseInitializeCursor : σ → Option AqlItemBlock → Nat → (ExecutionState × Result) × σ
  registersToKeep : List RegisterId
  inputRegisters : List RegisterId

/-- `ExecutionBlockImpl<Executor>::initializeCursor`, the general template. -/
def initializeCursor {σ : Type} (rb : Rebuild σ) (items : Option AqlItemBlock) (pos : Nat)
    (s : ExecutionBlockImpl σ) : (ExecutionState × Result) × ExecutionBlockImpl σ :=
  let e1 := rb.recreateBlockFetcher s._executor
  let e2 := rb.recreateFetcher e1
  let e3 := rb.recreateExecutor e2
  let r := rb.baseInitializeCursor e3 items pos
  (r.1, { s with _executor := r.2 })

/-- Modelled from the spec: `AqlItemBlock::slice(row, registers)`, a batch of
one row that holds the given registers of row `row` and nothing in the other
registers. -/
def AqlItemBlock.slice (b : AqlItemBlock) (row : Nat) (registers : List RegisterId) :
    AqlItemBlock :=
  ⟨b.nrRegs, [(List.range b.nrRegs).map (fun col =>
    if col ∈ registers then ((b.rows[row]?).bind (fun vs => vs[col]?)).getD none
    else none)]⟩

/-- `ExecutionBlockImpl<IdExecutor>::initializeCursor`, the specialisation for
the identity executor. -/
def initializeCursorId {σ : Type} (ex : Executor σ) (rb : Rebuild σ)
    (items : Option AqlItemBlock) (pos : Nat) (s : ExecutionBlockImpl σ) :
    Except Error (ExecutionState × Result) × ExecutionBlockImpl σ :=
  let e1 := rb.recreateBlockFetcher s._executor
  let e2 := rb.recreateFetcher e1
  let requested : Except Error (AqlItemBlock × ExecutionBlockImpl σ) :=
    match items with
    | some b => Except.ok (b.slice pos rb.registersToKeep, { s with _executor := e2 })
    | none =>
      match s.itemBlockManager.requestBlock 1 ex.numberOfOutputRegisters with
      | Except.error e => Except.error e
      | Except.ok (b, m) =>
        Except.ok (b, { s with _executor := e2
                               itemBlockManager := m
                               trace := s.trace ++
                                 [Event.requestBlock 1 ex.numberOfOutputRegisters] })
  match requested with
  | Except.error e => (Except.error e, { s with _executor := e2 })
  | Except.ok (block, s1) =>
    let e3 := rb.injectBlock s1._executor ⟨block, rb.inputRegisters⟩
    let e4 := rb.recreateExecutor e3
    let r := rb.baseInitializeCursor e4 items pos
    (Except.ok r.1, { s1 with _executor := r.2 })

/-- The statistics records of the `produceRow` calls in a piece of trace,
summed up. -/
def statsOf (evs : List Event) : Nat :=
  (evs.map (fun e => match e with
    | Event.produceRow _ k _ => k
    | _ => 0)).sum

/-- The value of register `r` in row `i` of a table of rows, if there is
one. -/
def cellOf (rows : List (List AqlValue)) (i : Nat) (r : RegisterId) : Option AqlValue :=
  (rows[i]?).bind (fun vs => vs[r]?)

/-- Two tables of rows have the same number of rows and hold the same values
in the registers `keep`, row for row. -/
def agreeOn (keep : List RegisterId) (rows1 rows2 : List (List AqlValue)) : Prop :=
  rows1.length = rows2.length ∧ ∀ i r, r ∈ keep → cellOf rows1 i r = cellOf rows2 i r

/-- An executor that writes one output row per input row and copies the
registers `keep`: every `produceRow` call writes a row that holds, in these
registers, what the row under the output cursor holds (under pass-through that
row is the input row); it never suspends, and it reports DONE only with the
last row of the batch. -/
def Executor.passesRowsThrough {σ : Type} (ex : Executor σ) (keep : List RegisterId) : Prop :=
  ∀ (st : σ) (o : OutputAqlItemRow),
    (∃ row, (ex.produceRow st o).written = some row ∧
      ∀ r, r ∈ keep → row[r]? = cellOf o.block.rows o._baseIndex r) ∧
    (ex.produceRow st o).state ≠ ExecutionState.WAITING ∧
    ((ex.produceRow st o).state = ExecutionState.DONE → o._baseIndex + 1 = o.block.size)

/-- An executor for worked examples, after the identity executor: it hands on
the row under the output cursor unchanged; its state is the upstream script
and the state the last prefetched batch came with, and it reports DONE with
the last row of a batch that came with DONE. -/
def identityExecutor (nrRegs : Nat) : Executor (Dependency × ExecutionState) where
  allowsBlockPassthrough := true
  numberOfOutputRegisters := nrRegs
  produceRow := fun st o =>
    ⟨(if o._baseIndex + 1 = o.block.size ∧ st.2 = ExecutionState.DONE
        then ExecutionState.DONE else ExecutionState.HASMORE),
      0, some ((o.block.rows[o._baseIndex]?).getD []), st⟩
  upstreamGetSome := fun st =>
    ((Dependency.getSome st.1).1, ((Dependency.getSome st.1).2, (Dependency.getSome st.1).1.1))

/-- An example of `Rebuild` for the scripted executor: the executor starts the
script `script` anew, the fetchers keep the upstream, and the base class
reports DONE without error. -/
def scriptedRebuild (script : List (ExecutionState × Option (List AqlValue))) :
    Rebuild (List (ExecutionState × Option (List AqlValue)) × Dependency) where
  recreateBlockFetcher := fun st => st
  recreateFetcher := fun st => st
  recreateExecutor := fun st => (script, st.2)
  injectBlock := fun st sh => (st.1, (ExecutionState.DONE, some sh.block) :: st.2)
  baseInitializeCursor := fun st _ _ => ((ExecutionState.DONE, 0), st)
  registersToKeep := []
  inputRegisters := []

/-- The events of opening an output batch: batch requests and prefetches. -/
def onlyRequestOrPrefetch (evs : List Event) : Prop :=
  ∀ e ∈ evs, (∃ n r, e = Event.requestBlock n r) ∨ (∃ st, e = Event.prefetchBlock st)

/-- What a `getSomeWithoutTrace` call from `s` that ends in `s'` with `out` has
appended to the trace: first the events `evs0` of opening an output batch,
none if one was open, then the `produceRow` calls `evs` of the loop, each
counted once in the statistics and all but the last with the result HASMORE;
and when the call returns DONE no output cursor is open. -/
def GetSomeTracePost {σ : Type} (s s' : ExecutionBlockImpl σ)
    (out : Except Error (ExecutionState × Option AqlItemBlock)) : Prop :=
  ∃ evs0 evs, s'.trace = s.trace ++ (evs0 ++ evs) ∧
    onlyRequestOrPrefetch evs0 ∧ onlyProduceRow evs ∧
    s'._stats = s._stats + statsOf evs ∧
    (∀ e ∈ evs.dropLast, ∃ k w, e = Event.produceRow ExecutionState.HASMORE k w) ∧
    (∀ b, out = Except.ok (ExecutionState.DONE, b) → s'._outputItemRow = none) ∧
    (s._outputItemRow ≠ none → evs0 = [])

/-- The pass-through example: a block over the identity executor whose
upstream delivers the batch {7,8,9} with HASMORE and then {10} with DONE. -/
def passThroughExample : ExecutionBlockImpl (Dependency × ExecutionState) :=
  ExecutionBlockImpl.create
    ([(HASMORE, some (buildBlock [7, 8, 9])), (DONE, some (buildBlock [10]))], HASMORE)
    freshManager

/-! ## Index check, teardown, recorded rebuilding, hooks left out -/

/-- `BlockFetcher::fetchBlockOfDependency` in a given build, with its
`TRI_ASSERT(dependencyIndex < _dependencies.size())` written out: a build that
checks assertions aborts on an index out of range; a build that does not goes
on to index `_dependencies` out of bounds, which is undefined behaviour. -/
def BlockFetcher.fetchBlockOfDependencyChecked (cfg : Build) (bf : BlockFetcher)
    (dependencyIndex : Nat) :
    Except Error ((ExecutionState × Option InputAqlItemBlockShell) × BlockFetcher) :=
  match triAssert cfg (decide (dependencyIndex < bf._dependencies.length)) with
  | Except.error e => Except.error e
  | Except.ok _ =>
    match bf.fetchBlockOfDependency dependencyIndex with
    | some r => Except.ok r
    | none => Except.error Error.undefinedBehaviour

/-- A step of rebuilding the fetchers and the executor in `initializeCursor`. -/
inductive RebuildOp where
  | blockFetcher
  | fetcher
  | injectBlock (shell : InputAqlItemBlockShell)
  | executor
  | baseInitializeCursor (items : Option AqlItemBlock) (pos : Nat)
  deriving DecidableEq, Repr

/-- The `Rebuild` that only records, in order, the steps taken; the base class
reports DONE without error. -/
def recordingRebuild (registersToKeep inputRegisters : List RegisterId) :
    Rebuild (List RebuildOp) where
  recreateBlockFetcher := fun log => log ++ [RebuildOp.blockFetcher]
  recreateFetcher := fun log => log ++ [RebuildOp.fetcher]
  recreateExecutor := fun log => log ++ [RebuildOp.executor]
  injectBlock := fun log sh => log ++ [RebuildOp.injectBlock sh]
  baseInitializeCursor := fun log items pos =>
    ((ExecutionState.DONE, 0), log ++ [RebuildOp.baseInitializeCursor items pos])
  registersToKeep := registersToKeep
  inputRegisters := inputRegisters

/-- An executor over the recorded steps, for `initializeCursor` on the
recording `Rebuild`: `initializeCursor` reads only its number of output
registers; it produces nothing and has nothing upstream. -/
def recordingExecutor (nrRegs : Nat) : Executor (List RebuildOp) where
  allowsBlockPassthrough := true
  numberOfOutputRegisters := nrRegs
  produceRow := fun log _ => ⟨ExecutionState.DONE, 0, none, log⟩
  upstreamGetSome := fun log => ((ExecutionState.DONE, none), log)

/-- The recorded steps that inject a batch. -/
def injectedShells (log : List RebuildOp) : List InputAqlItemBlockShell :=
  log.filterMap (fun op => match op with
    | RebuildOp.injectBlock sh => some sh
    | _ => none)

/-- `getSomeWithoutTrace` with the three `TRI_IF_FAILURE` blocks left out,
the code a build without failure points compiles. -/
def getSomeWithoutHooks {σ : Type} (cfg : Build) (ex : Executor σ) (fuel atMost : Nat)
    (s : ExecutionBlockImpl σ) :
    Option (Except Error (ExecutionState × Option AqlItemBlock) × ExecutionBlockImpl σ) :=
  match s._outputItemRow with
  | some o =>
    match triAssert cfg (decide (0 < atMost)) with
    | Except.error e => some (Except.error e, s)
    | Except.ok _ => produceLoop cfg ex atMost fuel s o ExecutionState.HASMORE
  | none =>
    match requestWrappedBlock cfg ex atMost ex.numberOfOutputRegisters s with
    | (Except.error e, s1) => some (Except.error e, s1)
    | (Except.ok (state, newBlock), s1) =>
      if state ≠ ExecutionState.HASMORE then
        match triAssert cfg newBlock.isNone with
        | Except.error e => some (Except.error e, s1)
        | Except.ok _ => some (Except.ok (state, none), s1)
      else
        match newBlock with
        | none =>
          some ((if cfg.maintainerMode then Except.error Error.assertion
            else Except.error Error.undefinedBehaviour), s1)
        | some b =>
          let o := OutputAqlItemRow.create b
          match triAssert cfg (decide (0 < atMost)) with
          | Except.error e => some (Except.error e, { s1 with _outputItemRow := some o })
          | Except.ok _ => produceLoop cfg ex atMost fuel s1 o ExecutionState.HASMORE

/-- The states of a block between two calls: the state the constructor
leaves, and every state a `getSome`, a `skipSome` or an `initializeCursor`
(of either kind) leaves when called in such a state, whatever the call
returns. -/
inductive Reachable {σ : Type} (cfg : Build) (ex : Executor σ) (rb : Rebuild σ) :
    ExecutionBlockImpl σ → Prop where
  | constructed (e : σ) (m : AqlItemBlockManager) :
    Reachable cfg ex rb (ExecutionBlockImpl.create e m)
  | afterGetSome (s s1 : ExecutionBlockImpl σ) (fuel atMost : Nat)
      (out : Except Error (ExecutionState × Option AqlItemBlock)) :
    Reachable cfg ex rb s → getSome cfg ex fuel atMost s = some (out, s1) →
    Reachable cfg ex rb s1
  | afterSkipSome (s s1 : ExecutionBlockImpl σ) (fuel atMost : Nat)
      (out : Except Error (ExecutionState × Nat)) :
    Reachable cfg ex rb s → skipSome cfg ex fuel atMost s = some (out, s1) →
    Reachable cfg ex rb s1
  | afterInitializeCursor (s : ExecutionBlockImpl σ) (items : Option AqlItemBlock) (pos : Nat) :
    Reachable cfg ex rb s → Reachable cfg ex rb (initializeCursor rb items pos s).2
  | afterInitializeCursorId (s : ExecutionBlockImpl σ) (items : Option AqlItemBlock)
      (pos : Nat) :
    Reachable cfg ex rb s → Reachable cfg ex rb (initializeCursorId ex rb items pos s).2

/-! ## The counting executor -/

/-- `CountCollectExecutorInfos`, with what it inherits of `ExecutorInfos`: the
number of output registers and the input registers. -/
structure CountCollectExecutorInfos where
  _collectRegister : RegisterId
  numberOfOutputRegisters : Nat
  inputRegisters : List RegisterId
  deriving DecidableEq, Repr

def CountCollectExecutorInfos.getOutputRegisterId (infos : CountCollectExecutorInfos) :
    RegisterId := infos._collectRegister

/-- `CountCollectExecutor`: its counter `_count`, a `size_t` and so a number
below 2^64, and its row fetcher (`SingleRowFetcher<false>`) as the cursor of
the fetcher together with the upstream block the fetcher pulls from. -/
structure CountCollectExecutor where
  _fetcher : SingleRowFetcher
  upstream : Dependency
  _count : Nat
  deriving DecidableEq, Repr

/-- `incrCount`: `_count++` on a `size_t`, which wraps around at 2^64. -/
def CountCollectExecutor.incrCount (e : CountCollectExecutor) : CountCollectExecutor :=
  { e with _count := (e._count + 1) % 2 ^ 64 }

def CountCollectExecutor.getCount (e : CountCollectExecutor) : Nat := e._count

/-- The executor as its constructor leaves it, over the upstream `dep`. -/
def CountCollectExecutor.create (dep : Dependency) : CountCollectExecutor :=
  ⟨SingleRowFetcher.init, dep, 0⟩

/-- The output row that holds `count` in the collect register and nothing in
the other registers. -/
def CountCollectExecutorInfos.countRow (infos : CountCollectExecutorInfos) (count : Nat) :
    List AqlValue :=
  (List.replicate infos.numberOfOutputRegisters none).set infos.getOutputRegisterId
    (some (count : Int))

/-- Modelled from the spec: `CountCollectExecutor::produceRow`, which
`CountCollectExecutor.h` declares without a body (§4.5, reference operator
counting).  It fetches row after row and counts each one; when the fetcher
suspends it returns WAITING without writing; when the fetcher reports DONE,
with a last row or with none, it writes the one row that holds the count and
returns DONE.  Each round of the loop takes one unit of fuel; `none` says that
the fuel did not suffice. -/
def CountCollectExecutor.produceRow (infos : CountCollectExecutorInfos) :
    Nat → CountCollectExecutor → Option (ProduceResult CountCollectExecutor)
  | 0, _ => none
  | fuel + 1, e =>
    let f := SingleRowFetcher.fetchRow infos.inputRegisters e._fetcher e.upstream
    let e1 : CountCollectExecutor := { e with _fetcher := f.2.1, upstream := f.2.2.1 }
    if f.1.1 = ExecutionState.WAITING then
      some ⟨ExecutionState.WAITING, 0, none, e1⟩
    else if f.1.2.isInitialized = false then
      some ⟨ExecutionState.DONE, 0, some (infos.countRow e1.getCount), e1⟩
    else
      let e2 := e1.incrCount
      if f.1.1 = ExecutionState.DONE then
        some ⟨ExecutionState.DONE, 0, some (infos.countRow e2.getCount), e2⟩
      else
        CountCollectExecutor.produceRow infos fuel e2

/-- The rows of the current batch that the cursor has not handed out. -/
def SingleRowFetcher.rowsLeft (c : SingleRowFetcher) : Nat :=
  match c._currentBlock with
  | none => 0
  | some sh => sh.block.size - c._rowIndex

/-- A bound on the rounds of the loop of `produceRow`: each round hands out a
row of the current batch or takes an answer from upstream. -/
def CountCollectExecutor.roundsLeft (e : CountCollectExecutor) : Nat :=
  e._fetcher.rowsLeft + callsToConsume e.upstream + e.upstream.length + 1

/-- The failure points of `getSomeWithoutTrace`. -/
def getSomeFailurePoints : List String :=
  ["ExecutionBlock::getOrSkipSome1", "ExecutionBlock::getOrSkipSome2",
    "ExecutionBlock::getOrSkipSome3"]

/-! ## Theorems -/

theorem set_getElem?_self {α : Type} (l : List α) (i : Nat) (a : α) (h : l[i]? = some a) :
    l.set i a = l := by
  induction l generalizing i with
  | nil => simp
  | cons x xs ih =>
    cases i with
    | zero => simp at h; simp [h]
    | succ j => simp at h; simp [ih j h]

theorem fetchBlockOfDependency_eq (bf : BlockFetcher) (d : Nat) (dep : Dependency)
    (hd : bf._dependencies[d]? = some dep) :
    bf.fetchBlockOfDependency d =
      some (((Dependency.getSome dep).1.1,
              (Dependency.getSome dep).1.2.map (fun b => ⟨b, bf._inputRegisters⟩)),
            { bf with _dependencies := bf._dependencies.set d (Dependency.getSome dep).2
                      numFetchBlockCalls := bf.numFetchBlockCalls + 1 }) := by
  have hlt : d < bf._dependencies.length := by
    rcases Nat.lt_or_ge d bf._dependencies.length with h | h
    · exact h
    · rw [List.getElem?_eq_none h] at hd; cases hd
  have hget : bf._dependencies[d] = dep := by
    rw [List.getElem?_eq_getElem hlt] at hd; exact Option.some.inj hd
  unfold BlockFetcher.fetchBlockOfDependency
  rw [dif_pos hlt, hget]
  cases h2 : (Dependency.getSome dep).1.2 <;> simp [h2]

theorem fetchRowForDependency_eq (f : MultiDependencySingleRowFetcher) (d : Nat)
    (c : SingleRowFetcher) (dep : Dependency)
    (hc : f._upstream[d]? = some c) (hd : f._blockFetcher._dependencies[d]? = some dep) :
    f.fetchRowForDependency d =
      some ((c.fetchRow f._blockFetcher._inputRegisters dep).1,
        { _blockFetcher :=
            { f._blockFetcher with
              _dependencies := f._blockFetcher._dependencies.set d
                (c.fetchRow f._blockFetcher._inputRegisters dep).2.2.1
              numFetchBlockCalls := f._blockFetcher.numFetchBlockCalls +
                (c.fetchRow f._blockFetcher._inputRegisters dep).2.2.2 }
          _upstream := f._upstream.set d
            (c.fetchRow f._blockFetcher._inputRegisters dep).2.1 }) := by
  unfold MultiDependencySingleRowFetcher.fetchRowForDependency SingleRowFetcher.fetchRow
  rw [hc]
  by_cases hv : c.indexIsValid = true
  · simp [hv, set_getElem?_self _ _ _ hd]
  · simp only [hv]
    rw [fetchBlockOfDependency_eq _ _ _ hd]
    by_cases hw : (Dependency.getSome dep).1.1 = WAITING
    · simp [hw, set_getElem?_self _ _ _ hc]
    · simp [hw]

theorem fetchRows_add (regs : List RegisterId) (m n : Nat) (c : SingleRowFetcher)
    (dep : Dependency) :
    SingleRowFetcher.fetchRows regs (m + n) c dep =
      ((SingleRowFetcher.fetchRows regs m c dep).1 ++
          (SingleRowFetcher.fetchRows regs n (SingleRowFetcher.fetchRows regs m c dep).2.1
            (SingleRowFetcher.fetchRows regs m c dep).2.2.1).1,
        (SingleRowFetcher.fetchRows regs n (SingleRowFetcher.fetchRows regs m c dep).2.1
            (SingleRowFetcher.fetchRows regs m c dep).2.2.1).2.1,
        (SingleRowFetcher.fetchRows regs n (SingleRowFetcher.fetchRows regs m c dep).2.1
            (SingleRowFetcher.fetchRows regs m c dep).2.2.1).2.2.1,
        (SingleRowFetcher.fetchRows regs m c dep).2.2.2 +
          (SingleRowFetcher.fetchRows regs n (SingleRowFetcher.fetchRows regs m c dep).2.1
            (SingleRowFetcher.fetchRows regs m c dep).2.2.1).2.2.2) := by
  induction m generalizing c dep with
  | zero => simp [SingleRowFetcher.fetchRows]
  | succ m ih =>
    rw [Nat.add_right_comm]
    simp only [SingleRowFetcher.fetchRows, ih, List.cons_append, Nat.add_assoc]

/-- Reading on inside a batch: `k` calls hand out the next `k` rows and fetch
nothing. -/
theorem fetchRows_within (regs : List RegisterId) (st : ExecutionState) (b : AqlItemBlock)
    (dep : Dependency) (k i : Nat) (h : i + k ≤ b.size) :
    SingleRowFetcher.fetchRows regs k ⟨some ⟨b, regs⟩, i, st⟩ dep =
      (taggedRowsFrom regs st b i k, ⟨some ⟨b, regs⟩, i + k, st⟩, dep, 0) := by
  induction k generalizing i with
  | zero => simp [SingleRowFetcher.fetchRows, taggedRowsFrom]
  | succ k ih =>
    have hv : (SingleRowFetcher.mk (some ⟨b, regs⟩) i st).indexIsValid = true := by
      simp [SingleRowFetcher.indexIsValid]; omega
    have hstep : SingleRowFetcher.fetchRow regs ⟨some ⟨b, regs⟩, i, st⟩ dep =
        (((if i + 1 = b.size ∧ st = DONE then DONE else HASMORE), rowOf regs b i),
          ⟨some ⟨b, regs⟩, i + 1, st⟩, dep, 0) := by
      simp [SingleRowFetcher.fetchRow, hv, SingleRowFetcher.returnRow,
        SingleRowFetcher.isLastRowInBlock, rowOf]
    simp only [SingleRowFetcher.fetchRows, hstep, taggedRowsFrom]
    rw [ih (i + 1) (by omega)]
    simp [Nat.add_assoc, Nat.add_comm 1 k]

/-- Calls on a used-up cursor whose upstream has no answer left. -/
theorem fetchRows_exhausted (regs : List RegisterId) (n : Nat) (c : SingleRowFetcher)
    (hc : c.indexIsValid = false) :
    (SingleRowFetcher.fetchRows regs n c []).1 = List.replicate n (DONE, InputAqlItemRow.invalid)
    ∧ (SingleRowFetcher.fetchRows regs n c []).2.2.1 = []
    ∧ (SingleRowFetcher.fetchRows regs n c []).2.2.2 = n := by
  induction n generalizing c with
  | zero => simp [SingleRowFetcher.fetchRows]
  | succ n ih =>
    have hstep : SingleRowFetcher.fetchRow regs c [] =
        ((DONE, InputAqlItemRow.invalid), ⟨none, 0, DONE⟩, [], 1) := by
      simp [SingleRowFetcher.fetchRow, hc, Dependency.getSome, SingleRowFetcher.returnRow]
    have h0 : (SingleRowFetcher.mk none 0 DONE).indexIsValid = false := rfl
    obtain ⟨h1, h2, h3⟩ := ih ⟨none, 0, DONE⟩ h0
    simp only [SingleRowFetcher.fetchRows, hstep, h1, h2, h3, List.replicate_succ]
    simp [Nat.add_comm]

theorem batchesNonEmpty_spec (script : Dependency) (h : batchesNonEmpty script = true) :
    ∀ a ∈ script, ∀ b, a.2 = some b → 0 < b.size := by
  intro a ha b hb
  have := List.all_eq_true.mp h a ha
  simpa [hb] using this

theorem callsToConsume_cons (a : UpstreamAnswer) (script : Dependency) :
    callsToConsume (a :: script) =
      (if a.1 = ExecutionState.WAITING then 1
        else match a.2 with
          | none => 1
          | some b => b.size) + callsToConsume script := by
  simp [callsToConsume]

theorem expectedResults_cons (regs : List RegisterId) (a : UpstreamAnswer)
    (script : Dependency) :
    expectedResults regs (a :: script) = expectedOf regs a ++ expectedResults regs script := by
  simp [expectedResults]

/-- Using up the front part of a script from a cursor that has no unread row:
the results are the expected ones, the rest of the script is left upstream,
and there was one low-level fetch per answer. -/
theorem fetchRows_consume (regs : List RegisterId) (script tail : Dependency)
    (hne : ∀ a ∈ script, ∀ b, a.2 = some b → 0 < b.size) (c : SingleRowFetcher) (hc : c.indexIsValid = false) :
    (SingleRowFetcher.fetchRows regs (callsToConsume script) c (script ++ tail)).1
        = expectedResults regs script
    ∧ (SingleRowFetcher.fetchRows regs (callsToConsume script) c
        (script ++ tail)).2.1.indexIsValid = false
    ∧ (SingleRowFetcher.fetchRows regs (callsToConsume script) c (script ++ tail)).2.2.1 = tail
    ∧ (SingleRowFetcher.fetchRows regs (callsToConsume script) c (script ++ tail)).2.2.2
        = script.length := by
  induction script generalizing c with
  | nil => simp [callsToConsume, SingleRowFetcher.fetchRows, expectedResults, hc]
  | cons a rest ih =>
    have hne' : ∀ a ∈ rest, ∀ b, a.2 = some b → 0 < b.size := fun x hx b hb => hne x (List.mem_cons_of_mem _ hx) b hb
    obtain ⟨st, blk⟩ := a
    rw [callsToConsume_cons, expectedResults_cons, fetchRows_add, List.cons_append]
    by_cases hw : st = WAITING
    · subst hw
      have hstep : SingleRowFetcher.fetchRows regs 1 c ((WAITING, blk) :: (rest ++ tail)) =
          ([(WAITING, InputAqlItemRow.invalid)], c, rest ++ tail, 1) := by
        simp [SingleRowFetcher.fetchRows, SingleRowFetcher.fetchRow, hc, Dependency.getSome]
      obtain ⟨h1, h2, h3, h4⟩ := ih hne' c hc
      simp only [if_true, hstep, h1, h2, h3, h4, expectedOf]
      simp [Nat.add_comm]
    · cases blk with
      | none =>
        have hstep : SingleRowFetcher.fetchRows regs 1 c ((st, none) :: (rest ++ tail)) =
            ([(DONE, InputAqlItemRow.invalid)], ⟨none, 0, st⟩, rest ++ tail, 1) := by
          simp [SingleRowFetcher.fetchRows, SingleRowFetcher.fetchRow, hc, Dependency.getSome,
            hw, SingleRowFetcher.returnRow]
        have h0 : (SingleRowFetcher.mk none 0 st).indexIsValid = false := rfl
        obtain ⟨h1, h2, h3, h4⟩ := ih hne' ⟨none, 0, st⟩ h0
        simp only [if_neg hw, hstep, h1, h2, h3, h4, expectedOf]
        simp [Nat.add_comm]
      | some b =>
        have hb : 0 < b.size := hne (st, some b) (List.mem_cons_self _ _) b rfl
        obtain ⟨k, hk⟩ : ∃ k, b.size = k + 1 := ⟨b.size - 1, by omega⟩
        have hfirst : SingleRowFetcher.fetchRow regs c ((st, some b) :: (rest ++ tail)) =
            (((if 0 + 1 = b.size ∧ st = DONE then DONE else HASMORE), rowOf regs b 0),
              ⟨some ⟨b, regs⟩, 1, st⟩, rest ++ tail, 1) := by
          simp [SingleRowFetcher.fetchRow, hc, Dependency.getSome, hw,
            SingleRowFetcher.returnRow, SingleRowFetcher.isLastRowInBlock, rowOf]
        have hstep : SingleRowFetcher.fetchRows regs b.size c ((st, some b) :: (rest ++ tail)) =
            (taggedRowsFrom regs st b 0 b.size, ⟨some ⟨b, regs⟩, b.size, st⟩,
              rest ++ tail, 1) := by
          rw [hk]
          simp only [SingleRowFetcher.fetchRows, hfirst, taggedRowsFrom]
          rw [fetchRows_within regs st b (rest ++ tail) k 1 (by omega)]
          simp [Nat.add_comm 1 k, hk]
        have h0 : (SingleRowFetcher.mk (some ⟨b, regs⟩) b.size st).indexIsValid = false := by
          simp [SingleRowFetcher.indexIsValid]
        obtain ⟨h1, h2, h3, h4⟩ := ih hne' ⟨some ⟨b, regs⟩, b.size, st⟩ h0
        simp only [if_neg hw, hstep, h1, h2, h3, h4, expectedOf]
        simp [Nat.add_comm]

theorem wellFormed_create (bf : BlockFetcher) :
    (MultiDependencySingleRowFetcher.create bf).wellFormed := by
  simp [MultiDependencySingleRowFetcher.wellFormed, MultiDependencySingleRowFetcher.create]

/-- A call in range succeeds, and what it does is `SingleRowFetcher.fetchRow`
on the cursor and the upstream of that dependency. -/
theorem fetchRowForDependency_inRange (f : MultiDependencySingleRowFetcher) (d : Nat)
    (hwf : f.wellFormed) (hd : d < f._upstream.length) :
    ∃ c dep, f._upstream[d]? = some c ∧ f._blockFetcher._dependencies[d]? = some dep ∧
      f.fetchRowForDependency d =
        some ((c.fetchRow f._blockFetcher._inputRegisters dep).1,
          { _blockFetcher :=
              { f._blockFetcher with
                _dependencies := f._blockFetcher._dependencies.set d
                  (c.fetchRow f._blockFetcher._inputRegisters dep).2.2.1
                numFetchBlockCalls := f._blockFetcher.numFetchBlockCalls +
                  (c.fetchRow f._blockFetcher._inputRegisters dep).2.2.2 }
            _upstream := f._upstream.set d
              (c.fetchRow f._blockFetcher._inputRegisters dep).2.1 }) := by
  have hd2 : d < f._blockFetcher._dependencies.length := hwf ▸ hd
  refine ⟨f._upstream[d], f._blockFetcher._dependencies[d],
    List.getElem?_eq_getElem hd, List.getElem?_eq_getElem hd2, ?_⟩
  exact fetchRowForDependency_eq f d _ _ (List.getElem?_eq_getElem hd)
    (List.getElem?_eq_getElem hd2)

/-- A call for one dependency leaves the cursor and the upstream of every
other dependency as they are. -/
theorem fetchRowForDependency_frame (f f' : MultiDependencySingleRowFetcher) (A B : Nat)
    (r : RowResult) (hAB : B ≠ A) (h : f.fetchRowForDependency B = some (r, f')) :
    f'._upstream[A]? = f._upstream[A]? ∧
    f'._blockFetcher._dependencies[A]? = f._blockFetcher._dependencies[A]? ∧
    f'._blockFetcher._inputRegisters = f._blockFetcher._inputRegisters ∧
    f'._upstream.length = f._upstream.length ∧
    f'._blockFetcher._dependencies.length = f._blockFetcher._dependencies.length := by
  unfold MultiDependencySingleRowFetcher.fetchRowForDependency at h
  cases hc : f._upstream[B]? with
  | none => rw [hc] at h; cases h
  | some c =>
    rw [hc] at h
    by_cases hv : c.indexIsValid = true
    · simp only [hv, if_true, Option.some.injEq, Prod.mk.injEq] at h
      obtain ⟨_, rfl⟩ := h
      simp [List.getElem?_set_ne hAB]
    · simp only [hv] at h
      unfold BlockFetcher.fetchBlockOfDependency at h
      by_cases hlt : B < f._blockFetcher._dependencies.length
      · rw [dif_pos hlt] at h
        cases hb : (Dependency.getSome (f._blockFetcher._dependencies[B])).1.2 <;>
          simp only [hb] at h <;>
          by_cases hw : (Dependency.getSome (f._blockFetcher._dependencies[B])).1.1 = WAITING <;>
          simp only [hw, if_true, if_false, Option.some.injEq, Prod.mk.injEq] at h <;>
          obtain ⟨_, rfl⟩ := h <;>
          simp [List.getElem?_set_ne hAB]
      · rw [dif_neg hlt] at h; cases h

theorem fetchMany_replicate (n : Nat) (f : MultiDependencySingleRowFetcher) (d : Nat)
    (c : SingleRowFetcher) (dep : Dependency)
    (hc : f._upstream[d]? = some c) (hd : f._blockFetcher._dependencies[d]? = some dep) :
    f.fetchMany (List.replicate n d) =
      some ((SingleRowFetcher.fetchRows f._blockFetcher._inputRegisters n c dep).1.map
              (fun r => (d, r)),
        { _blockFetcher :=
            { f._blockFetcher with
              _dependencies := f._blockFetcher._dependencies.set d
                (SingleRowFetcher.fetchRows f._blockFetcher._inputRegisters n c dep).2.2.1
              numFetchBlockCalls := f._blockFetcher.numFetchBlockCalls +
                (SingleRowFetcher.fetchRows f._blockFetcher._inputRegisters n c dep).2.2.2 }
          _upstream := f._upstream.set d
            (SingleRowFetcher.fetchRows f._blockFetcher._inputRegisters n c dep).2.1 }) := by
  induction n generalizing f c dep with
  | zero =>
    simp [MultiDependencySingleRowFetcher.fetchMany, SingleRowFetcher.fetchRows,
      set_getElem?_self _ _ _ hc, set_getElem?_self _ _ _ hd]
  | succ n ih =>
    have hlt1 : d < f._upstream.length := (List.getElem?_eq_some.mp hc).1
    have hlt2 : d < f._blockFetcher._dependencies.length := (List.getElem?_eq_some.mp hd).1
    simp only [List.replicate_succ, MultiDependencySingleRowFetcher.fetchMany]
    rw [fetchRowForDependency_eq f d c dep hc hd]
    simp only []
    rw [ih _ _ _ (List.getElem?_set_self hlt1) (List.getElem?_set_self hlt2)]
    simp [SingleRowFetcher.fetchRows, List.set_set, Nat.add_assoc]

/-- The run of `n` calls on one dependency, by what it leaves behind. -/
theorem fetchMany_replicate_spec (n : Nat) (f : MultiDependencySingleRowFetcher) (d : Nat)
    (c : SingleRowFetcher) (dep : Dependency)
    (hc : f._upstream[d]? = some c) (hd : f._blockFetcher._dependencies[d]? = some dep) :
    ∃ f', f.fetchMany (List.replicate n d) =
        some ((SingleRowFetcher.fetchRows f._blockFetcher._inputRegisters n c dep).1.map
                (fun r => (d, r)), f') ∧
      f'._upstream[d]? =
        some (SingleRowFetcher.fetchRows f._blockFetcher._inputRegisters n c dep).2.1 ∧
      f'._blockFetcher._dependencies[d]? =
        some (SingleRowFetcher.fetchRows f._blockFetcher._inputRegisters n c dep).2.2.1 ∧
      f'._blockFetcher.numFetchBlockCalls = f._blockFetcher.numFetchBlockCalls +
        (SingleRowFetcher.fetchRows f._blockFetcher._inputRegisters n c dep).2.2.2 ∧
      f'._blockFetcher._inputRegisters = f._blockFetcher._inputRegisters := by
  have hlt1 : d < f._upstream.length := (List.getElem?_eq_some.mp hc).1
  have hlt2 : d < f._blockFetcher._dependencies.length := (List.getElem?_eq_some.mp hd).1
  exact ⟨_, fetchMany_replicate n f d c dep hc hd, List.getElem?_set_self hlt1,
    List.getElem?_set_self hlt2, rfl, rfl⟩

theorem taggedRowsFrom_eq_map (regs : List RegisterId) (st : ExecutionState) (b : AqlItemBlock)
    (i k : Nat) :
    taggedRowsFrom regs st b i k = (List.range k).map (fun j =>
      ((if i + j + 1 = b.size ∧ st = ExecutionState.DONE
          then ExecutionState.DONE else ExecutionState.HASMORE), rowOf regs b (i + j))) := by
  induction k generalizing i with
  | zero => simp [taggedRowsFrom]
  | succ k ih =>
    rw [taggedRowsFrom, ih, List.range_succ_eq_map]
    simp [Function.comp_def, Nat.add_assoc, Nat.add_comm 1]

theorem taggedRowsFrom_zero (regs : List RegisterId) (st : ExecutionState) (b : AqlItemBlock) :
    taggedRowsFrom regs st b 0 b.size = taggedRows regs st b := by
  rw [taggedRowsFrom_eq_map]; simp [taggedRows]

theorem validResults_append (xs ys : List RowResult) :
    validResults (xs ++ ys) = validResults xs ++ validResults ys := by
  simp [validResults]

theorem validResults_taggedRows (regs : List RegisterId) (st : ExecutionState)
    (b : AqlItemBlock) : validResults (taggedRows regs st b) = taggedRows regs st b := by
  simp [validResults, taggedRows, rowOf, InputAqlItemRow.isInitialized]

theorem validResults_expectedResults (regs : List RegisterId) (script : Dependency) :
    validResults (expectedResults regs script) = expectedValid regs script := by
  induction script with
  | nil => simp [expectedResults, expectedValid, validResults]
  | cons a rest ih =>
    rw [expectedResults_cons, validResults_append, ih]
    obtain ⟨st, blk⟩ := a
    by_cases hw : st = WAITING
    · simp [expectedValid, expectedOf, hw, validResults, InputAqlItemRow.invalid,
        InputAqlItemRow.isInitialized]
    · cases blk with
      | none =>
        simp [expectedValid, expectedOf, hw, validResults, InputAqlItemRow.invalid,
          InputAqlItemRow.isInitialized]
      | some b =>
        simp [expectedValid, expectedOf, hw, taggedRowsFrom_zero, validResults_taggedRows]

theorem validResults_replicate_done (m : Nat) :
    validResults (List.replicate m (DONE, InputAqlItemRow.invalid)) = [] := by
  simp [validResults, InputAqlItemRow.invalid, InputAqlItemRow.isInitialized]

theorem values_taggedRows (regs : List RegisterId) (st : ExecutionState) (b : AqlItemBlock) :
    (taggedRows regs st b).map (fun r => r.2.values) = b.rows.map some := by
  apply List.ext_getElem
  · simp [taggedRows, AqlItemBlock.size]
  · intro n h1 h2
    simp [taggedRows, rowOf, InputAqlItemRow.values] at h1 ⊢

theorem values_expectedValid (regs : List RegisterId) (script : Dependency) :
    (expectedValid regs script).map (fun r => r.2.values) =
      ((deliveredBatches script).flatMap (fun b => b.rows)).map some := by
  induction script with
  | nil => simp [expectedValid, deliveredBatches]
  | cons a rest ih =>
    obtain ⟨st, blk⟩ := a
    have hcons : expectedValid regs ((st, blk) :: rest) =
        (if st = ExecutionState.WAITING then []
          else match blk with
            | none => []
            | some b => taggedRows regs st b) ++ expectedValid regs rest := by
      simp [expectedValid]
    rw [hcons, List.map_append, ih]
    by_cases hw : st = WAITING
    · simp [hw, deliveredBatches]
    · cases blk with
      | none => simp [hw, deliveredBatches]
      | some b => simp [hw, deliveredBatches, values_taggedRows]

/-- The run of `n` calls on dependency `d` of a fresh fetcher, when `n` calls
are enough to use up the script of `d`. -/
theorem fetchMany_create_consume (bf : BlockFetcher) (d : Nat) (script : Dependency)
    (hd : bf._dependencies[d]? = some script) (hne : batchesNonEmpty script = true)
    (n : Nat) (hn : callsToConsume script ≤ n) :
    ∃ res f', (MultiDependencySingleRowFetcher.create bf).fetchMany (List.replicate n d)
        = some (res, f') ∧
      res.map Prod.snd = expectedResults bf._inputRegisters script ++
        List.replicate (n - callsToConsume script) (DONE, InputAqlItemRow.invalid) ∧
      f'._blockFetcher.numFetchBlockCalls =
        bf.numFetchBlockCalls + script.length + (n - callsToConsume script) := by
  have hlt : d < bf._dependencies.length := (List.getElem?_eq_some.mp hd).1
  have hc : (MultiDependencySingleRowFetcher.create bf)._upstream[d]? =
      some SingleRowFetcher.init := by
    simp [MultiDependencySingleRowFetcher.create, hlt]
  have hrun := fetchMany_replicate n (MultiDependencySingleRowFetcher.create bf) d
    SingleRowFetcher.init script hc hd
  obtain ⟨m, rfl⟩ : ∃ m, n = callsToConsume script + m := ⟨n - callsToConsume script, by omega⟩
  obtain ⟨h1, h2, h3, h4⟩ := fetchRows_consume bf._inputRegisters script []
    (batchesNonEmpty_spec script hne)
    SingleRowFetcher.init rfl
  rw [List.append_nil] at h1 h2 h3 h4
  obtain ⟨e1, e2, e3⟩ := fetchRows_exhausted bf._inputRegisters m _ h2
  refine ⟨_, _, hrun, ?_, ?_⟩
  · simp only [MultiDependencySingleRowFetcher.create, List.map_map]
    rw [fetchRows_add]
    simp only [h1, h3, e1]
    simp [Function.comp_def]
  · simp only [MultiDependencySingleRowFetcher.create]
    rw [fetchRows_add]
    simp only [h3, h4, e3]
    omega

/-- C2 (order-preserving delivery): for every dependency `d` whose upstream
delivers non-empty batches, enough successive `fetchRowForDependency d` calls
on a fresh fetcher return, as their valid rows, exactly the rows of the
delivered batches, in batch order and in row order, each once. -/
theorem C2_order_preserving_delivery (bf : BlockFetcher) (d : Nat) (script : Dependency)
    (hd : bf._dependencies[d]? = some script) (hne : batchesNonEmpty script = true)
    (n : Nat) (hn : callsToConsume script ≤ n) :
    ∃ res f', (MultiDependencySingleRowFetcher.create bf).fetchMany (List.replicate n d)
        = some (res, f') ∧
      (validResults (res.map Prod.snd)).map (fun r => r.2.values) =
        ((deliveredBatches script).flatMap (fun b => b.rows)).map some := by
  obtain ⟨res, f', hrun, hres, _⟩ := fetchMany_create_consume bf d script hd hne n hn
  refine ⟨res, f', hrun, ?_⟩
  rw [hres, validResults_append, validResults_replicate_done, List.append_nil,
    validResults_expectedResults, values_expectedValid]

/-- Order-preserving delivery on the test scenario: the batches {1,2,3}, {4,5},
{6} yield the rows 1 to 6 in order. -/
theorem C2_order_preserving_delivery_witness :
    ∃ res f', (MultiDependencySingleRowFetcher.create scenarioNoWait).fetchMany
        (List.replicate 6 0) = some (res, f') ∧
      (validResults (res.map Prod.snd)).map (fun r => r.2.values) =
        [some [some 1], some [some 2], some [some 3], some [some 4], some [some 5],
          some [some 6]] :=
  C2_order_preserving_delivery scenarioNoWait 0
    [(HASMORE, some (buildBlock [1, 2, 3])), (HASMORE, some (buildBlock [4, 5])),
      (DONE, some (buildBlock [6]))] rfl (by decide) 6 (by decide)

/-- C3 (terminal-state tagging): the valid rows obtained for a dependency come
with these tags: the last row of a batch that upstream delivered with DONE is
tagged DONE, in the very result that carries the row; every other row of every
delivered batch is tagged HASMORE. -/
theorem C3_terminal_state_tagging (bf : BlockFetcher) (d : Nat) (script : Dependency)
    (hd : bf._dependencies[d]? = some script) (hne : batchesNonEmpty script = true)
    (n : Nat) (hn : callsToConsume script ≤ n) :
    ∃ res f', (MultiDependencySingleRowFetcher.create bf).fetchMany (List.replicate n d)
        = some (res, f') ∧
      validResults (res.map Prod.snd) =
        script.flatMap (fun a =>
          if a.1 = WAITING then []
          else match a.2 with
            | none => []
            | some b => (List.range b.size).map (fun i =>
                ((if i + 1 = b.size ∧ a.1 = DONE then DONE else HASMORE),
                  (⟨some ⟨b, bf._inputRegisters⟩, i⟩ : InputAqlItemRow)))) := by
  obtain ⟨res, f', hrun, hres, _⟩ := fetchMany_create_consume bf d script hd hne n hn
  refine ⟨res, f', hrun, ?_⟩
  rw [hres, validResults_append, validResults_replicate_done, List.append_nil,
    validResults_expectedResults]
  rfl

/-- Terminal-state tagging on the test scenario: five rows tagged HASMORE, the
sixth tagged DONE. -/
theorem C3_terminal_state_tagging_witness :
    ∃ res f', (MultiDependencySingleRowFetcher.create scenarioNoWait).fetchMany
        (List.replicate 7 0) = some (res, f') ∧
      (validResults (res.map Prod.snd)).map Prod.fst =
        [HASMORE, HASMORE, HASMORE, HASMORE, HASMORE, DONE] := by
  obtain ⟨res, f', h1, h2⟩ := C3_terminal_state_tagging scenarioNoWait 0
    [(HASMORE, some (buildBlock [1, 2, 3])), (HASMORE, some (buildBlock [4, 5])),
      (DONE, some (buildBlock [6]))] rfl (by decide) 7 (by decide)
  exact ⟨res, f', h1, by rw [h2]; decide⟩

theorem returnRow_state_ne_waiting (c : SingleRowFetcher) : c.returnRow.1.1 ≠ WAITING := by
  unfold SingleRowFetcher.returnRow
  cases c._currentBlock with
  | none => simp
  | some sh =>
    simp only []
    split <;> simp

theorem returnRow_hasmore_valid (c : SingleRowFetcher) (h : c.returnRow.1.1 = HASMORE) :
    c.returnRow.1.2.isInitialized = true := by
  unfold SingleRowFetcher.returnRow at h ⊢
  cases hb : c._currentBlock with
  | none => rw [hb] at h; simp at h
  | some sh => simp [InputAqlItemRow.isInitialized]

/-- A cursor without unread row whose upstream answers DONE without a batch:
the call returns DONE with the null row. -/
theorem fetchRowForDependency_done_null (f : MultiDependencySingleRowFetcher) (d : Nat)
    (c : SingleRowFetcher) (rest : Dependency) (hc : f._upstream[d]? = some c)
    (hv : c.indexIsValid = false)
    (hd : f._blockFetcher._dependencies[d]? = some ((DONE, none) :: rest)) :
    ∃ f2, f.fetchRowForDependency d = some ((DONE, InputAqlItemRow.invalid), f2) := by
  have hstep : (SingleRowFetcher.fetchRow f._blockFetcher._inputRegisters c
      ((DONE, none) :: rest)).1 = (DONE, InputAqlItemRow.invalid) := by
    simp [SingleRowFetcher.fetchRow, hv, Dependency.getSome, SingleRowFetcher.returnRow]
  rw [fetchRowForDependency_eq f d c _ hc hd, hstep]
  exact ⟨_, rfl⟩

/-- C5 (exhaustion without data): when the upstream of dependency `d` answers
DONE without a batch, as its first answer or after any earlier answers
(WAITING, delivered batches) have been used up, the next
`fetchRowForDependency d` returns DONE with the null row. -/
theorem C5_exhaustion_without_data (bf : BlockFetcher) (d : Nat) (pre rest : Dependency)
    (hd : bf._dependencies[d]? = some (pre ++ (DONE, none) :: rest))
    (hne : batchesNonEmpty pre = true) :
    ∃ res f1 f2, (MultiDependencySingleRowFetcher.create bf).fetchMany
        (List.replicate (callsToConsume pre) d) = some (res, f1) ∧
      res.map Prod.snd = expectedResults bf._inputRegisters pre ∧
      f1.fetchRowForDependency d = some ((DONE, InputAqlItemRow.invalid), f2) := by
  have hlt : d < bf._dependencies.length := (List.getElem?_eq_some.mp hd).1
  have hc : (MultiDependencySingleRowFetcher.create bf)._upstream[d]? =
      some SingleRowFetcher.init := by
    simp [MultiDependencySingleRowFetcher.create, hlt]
  obtain ⟨f1, hrun, hu, hdep, _, hregs⟩ := fetchMany_replicate_spec (callsToConsume pre)
    (MultiDependencySingleRowFetcher.create bf) d SingleRowFetcher.init _ hc hd
  obtain ⟨h1, h2, h3, h4⟩ := fetchRows_consume bf._inputRegisters pre ((DONE, none) :: rest)
    (batchesNonEmpty_spec pre hne) SingleRowFetcher.init rfl
  simp only [MultiDependencySingleRowFetcher.create] at hrun hu hdep
  rw [h3] at hdep
  obtain ⟨f2, hf2⟩ := fetchRowForDependency_done_null f1 d _ rest hu h2 hdep
  refine ⟨_, f1, f2, hrun, ?_, hf2⟩
  rw [List.map_map, ← h1]; simp [Function.comp_def]

/-- Exhaustion without data on the test scenario in which DONE comes late: after
the nine calls that use up the batches, the next call returns DONE with the
null row. -/
theorem C5_exhaustion_without_data_witness :
    ∃ res f1 f2, (MultiDependencySingleRowFetcher.create scenarioLateDone).fetchMany
        (List.replicate 9 0) = some (res, f1) ∧
      res.map Prod.snd = expectedResults [0]
        [(WAITING, none), (HASMORE, some (buildBlock [1, 2, 3])), (WAITING, none),
          (HASMORE, some (buildBlock [4, 5])), (WAITING, none),
          (HASMORE, some (buildBlock [6]))] ∧
      f1.fetchRowForDependency 0 = some ((DONE, InputAqlItemRow.invalid), f2) :=
  C5_exhaustion_without_data scenarioLateDone 0
    [(WAITING, none), (HASMORE, some (buildBlock [1, 2, 3])), (WAITING, none),
      (HASMORE, some (buildBlock [4, 5])), (WAITING, none),
      (HASMORE, some (buildBlock [6]))] [] rfl (by decide)

/-- C7: whenever `fetchRowForDependency` returns HASMORE, the row it returns is
not the null row; this holds in every state of the fetcher, hence for every
upstream script. -/
theorem C7_hasmore_row_valid (f f' : MultiDependencySingleRowFetcher) (d : Nat)
    (r : RowResult) (h : f.fetchRowForDependency d = some (r, f'))
    (hs : r.1 = HASMORE) : r.2.isInitialized = true := by
  unfold MultiDependencySingleRowFetcher.fetchRowForDependency at h
  cases hc : f._upstream[d]? with
  | none => rw [hc] at h; cases h
  | some c =>
    rw [hc] at h
    by_cases hv : c.indexIsValid = true
    · simp only [hv, if_true, Option.some.injEq, Prod.mk.injEq] at h
      obtain ⟨rfl, _⟩ := h
      exact returnRow_hasmore_valid c hs
    · simp only [hv] at h
      cases hf : f._blockFetcher.fetchBlockOfDependency d with
      | none => rw [hf] at h; cases h
      | some x =>
        obtain ⟨⟨state, newBlock⟩, bf'⟩ := x
        rw [hf] at h
        by_cases hw : state = WAITING
        · simp only [hw, if_true, Option.some.injEq, Prod.mk.injEq] at h
          obtain ⟨rfl, _⟩ := h
          simp at hs
        · simp only [hw, if_false, Option.some.injEq, Prod.mk.injEq] at h
          obtain ⟨rfl, _⟩ := h
          exact returnRow_hasmore_valid _ hs

/-- The first call of the test scenario returns HASMORE with row 0 of the first
batch, which is not the null row. -/
theorem C7_hasmore_row_valid_witness :
    (MultiDependencySingleRowFetcher.create scenarioNoWait).fetchRowForDependency 0 =
        some ((HASMORE, ⟨some ⟨buildBlock [1, 2, 3], [0]⟩, 0⟩),
          ⟨⟨[[(HASMORE, some (buildBlock [4, 5])), (DONE, some (buildBlock [6]))]], [0], 1⟩,
            [⟨some ⟨buildBlock [1, 2, 3], [0]⟩, 1, HASMORE⟩]⟩) ∧
      (⟨some ⟨buildBlock [1, 2, 3], [0]⟩, 0⟩ : InputAqlItemRow).isInitialized = true :=
  ⟨by decide,
    C7_hasmore_row_valid (MultiDependencySingleRowFetcher.create scenarioNoWait)
      ⟨⟨[[(HASMORE, some (buildBlock [4, 5])), (DONE, some (buildBlock [6]))]], [0], 1⟩,
        [⟨some ⟨buildBlock [1, 2, 3], [0]⟩, 1, HASMORE⟩]⟩ 0
      (HASMORE, ⟨some ⟨buildBlock [1, 2, 3], [0]⟩, 0⟩) (by decide) rfl⟩

theorem fetchRowForDependency_spec (f : MultiDependencySingleRowFetcher) (d : Nat)
    (c : SingleRowFetcher) (dep : Dependency)
    (hc : f._upstream[d]? = some c) (hd : f._blockFetcher._dependencies[d]? = some dep) :
    ∃ f', f.fetchRowForDependency d =
        some ((c.fetchRow f._blockFetcher._inputRegisters dep).1, f') ∧
      f'._upstream[d]? = some (c.fetchRow f._blockFetcher._inputRegisters dep).2.1 ∧
      f'._blockFetcher._dependencies[d]? =
        some (c.fetchRow f._blockFetcher._inputRegisters dep).2.2.1 ∧
      f'._blockFetcher._inputRegisters = f._blockFetcher._inputRegisters ∧
      f'._upstream.length = f._upstream.length ∧
      f'._blockFetcher._dependencies.length = f._blockFetcher._dependencies.length := by
  have hlt1 : d < f._upstream.length := (List.getElem?_eq_some.mp hc).1
  have hlt2 : d < f._blockFetcher._dependencies.length := (List.getElem?_eq_some.mp hd).1
  exact ⟨_, fetchRowForDependency_eq f d c dep hc hd, List.getElem?_set_self hlt1,
    List.getElem?_set_self hlt2, rfl, by simp, by simp⟩

theorem fetchRows_length (regs : List RegisterId) (n : Nat) (c : SingleRowFetcher)
    (dep : Dependency) : (SingleRowFetcher.fetchRows regs n c dep).1.length = n := by
  induction n generalizing c dep with
  | zero => simp [SingleRowFetcher.fetchRows]
  | succ n ih => simp [SingleRowFetcher.fetchRows, ih]

theorem countWaiting_le_length (rs : List RowResult) : countWaiting rs ≤ rs.length := by
  unfold countWaiting; exact List.length_filter_le _ _

/-- Retrying after WAITING: the results other than WAITING of `n` calls are the
results of the calls that did not wait, made on the script without its WAITING
answers. -/
theorem fetchRows_retry (regs : List RegisterId) (n : Nat) (c : SingleRowFetcher)
    (dep : Dependency) :
    nonWaiting (SingleRowFetcher.fetchRows regs n c dep).1 =
      (SingleRowFetcher.fetchRows regs
        (n - countWaiting (SingleRowFetcher.fetchRows regs n c dep).1) c
        (withoutWaiting dep)).1 := by
  induction n generalizing c dep with
  | zero => simp [SingleRowFetcher.fetchRows, nonWaiting]
  | succ n ih =>
    by_cases hv : c.indexIsValid = true
    · have hs : ∀ dep', SingleRowFetcher.fetchRow regs c dep' =
          (c.returnRow.1, c.returnRow.2, dep', 0) := by
        intro dep'; simp [SingleRowFetcher.fetchRow, hv]
      have hnw := returnRow_state_ne_waiting c
      have hle := countWaiting_le_length (SingleRowFetcher.fetchRows regs n c.returnRow.2 dep).1
      rw [fetchRows_length] at hle
      have hcw : countWaiting (SingleRowFetcher.fetchRows regs (n + 1) c dep).1 =
          countWaiting (SingleRowFetcher.fetchRows regs n c.returnRow.2 dep).1 := by
        simp [SingleRowFetcher.fetchRows, hs, countWaiting, hnw]
      rw [hcw, Nat.sub_add_comm hle]
      simp only [SingleRowFetcher.fetchRows, hs, nonWaiting]
      rw [List.filter_cons_of_pos (by simpa using hnw)]
      exact congrArg _ (ih c.returnRow.2 dep)
    · cases dep with
      | nil =>
        have hs : SingleRowFetcher.fetchRow regs c [] =
            ((DONE, InputAqlItemRow.invalid), ⟨none, 0, DONE⟩, [], 1) := by
          simp [SingleRowFetcher.fetchRow, hv, Dependency.getSome, SingleRowFetcher.returnRow]
        have hle := countWaiting_le_length (SingleRowFetcher.fetchRows regs n ⟨none, 0, DONE⟩ []).1
        rw [fetchRows_length] at hle
        have hcw : countWaiting (SingleRowFetcher.fetchRows regs (n + 1) c []).1 =
            countWaiting (SingleRowFetcher.fetchRows regs n ⟨none, 0, DONE⟩ []).1 := by
          simp [SingleRowFetcher.fetchRows, hs, countWaiting]
        have hwn : withoutWaiting ([] : Dependency) = [] := rfl
        rw [hcw, Nat.sub_add_comm hle, hwn]
        simp only [SingleRowFetcher.fetchRows, hs, nonWaiting]
        rw [List.filter_cons_of_pos (by simp)]
        have := ih ⟨none, 0, DONE⟩ []
        rw [hwn] at this
        exact congrArg _ this
      | cons a rest =>
        obtain ⟨st, blk⟩ := a
        by_cases hw : st = WAITING
        · subst hw
          have hs : SingleRowFetcher.fetchRow regs c ((WAITING, blk) :: rest) =
              ((WAITING, InputAqlItemRow.invalid), c, rest, 1) := by
            simp [SingleRowFetcher.fetchRow, hv, Dependency.getSome]
          have hcw : countWaiting (SingleRowFetcher.fetchRows regs (n + 1) c
              ((WAITING, blk) :: rest)).1 =
              countWaiting (SingleRowFetcher.fetchRows regs n c rest).1 + 1 := by
            simp [SingleRowFetcher.fetchRows, hs, countWaiting]
          have hwn : withoutWaiting ((WAITING, blk) :: rest) = withoutWaiting rest := by
            simp [withoutWaiting]
          rw [hcw, Nat.add_sub_add_right, hwn]
          simp only [SingleRowFetcher.fetchRows, hs, nonWaiting]
          rw [List.filter_cons_of_neg (by simp)]
          exact ih c rest
        · have hnw := returnRow_state_ne_waiting
            ⟨blk.map (fun b => (⟨b, regs⟩ : InputAqlItemBlockShell)), 0, st⟩
          have hs : ∀ rest', SingleRowFetcher.fetchRow regs c ((st, blk) :: rest') =
              ((SingleRowFetcher.returnRow ⟨blk.map (fun b => ⟨b, regs⟩), 0, st⟩).1,
                (SingleRowFetcher.returnRow ⟨blk.map (fun b => ⟨b, regs⟩), 0, st⟩).2,
                rest', 1) := by
            intro rest'
            simp [SingleRowFetcher.fetchRow, hv, Dependency.getSome, hw]
          have hle := countWaiting_le_length (SingleRowFetcher.fetchRows regs n
            (SingleRowFetcher.returnRow ⟨blk.map (fun b => ⟨b, regs⟩), 0, st⟩).2 rest).1
          rw [fetchRows_length] at hle
          have hcw : countWaiting (SingleRowFetcher.fetchRows regs (n + 1) c
              ((st, blk) :: rest)).1 =
              countWaiting (SingleRowFetcher.fetchRows regs n
                (SingleRowFetcher.returnRow ⟨blk.map (fun b => ⟨b, regs⟩), 0, st⟩).2 rest).1 := by
            simp [SingleRowFetcher.fetchRows, hs, countWaiting, hnw]
          have hwn : withoutWaiting ((st, blk) :: rest) = (st, blk) :: withoutWaiting rest := by
            simp [withoutWaiting, hw]
          rw [hcw, Nat.sub_add_comm hle, hwn]
          simp only [SingleRowFetcher.fetchRows, hs, nonWaiting]
          rw [List.filter_cons_of_pos (by simpa using hnw)]
          exact congrArg _ (ih _ rest)

/-- C4 (suspend idempotence): when the low-level fetch for dependency `d`
answers WAITING, `fetchRowForDependency d` returns WAITING with the null row
and leaves every cursor as it was; and for every script, the results other
than WAITING of `n` successive calls are the results of the calls that did not
wait, made on the same script with its WAITING answers removed. -/
theorem C4_suspend_idempotence (bf : BlockFetcher) (d : Nat) (script : Dependency)
    (hd : bf._dependencies[d]? = some script) (n : Nat) :
    (∀ (f : MultiDependencySingleRowFetcher) (c : SingleRowFetcher)
        (blk : Option AqlItemBlock) (rest : Dependency),
        f._upstream[d]? = some c → c.indexIsValid = false →
        f._blockFetcher._dependencies[d]? = some ((WAITING, blk) :: rest) →
        ∃ f', f.fetchRowForDependency d = some ((WAITING, InputAqlItemRow.invalid), f') ∧
          f'._upstream = f._upstream ∧
          f'._blockFetcher._dependencies[d]? = some rest) ∧
    ∃ res f1 res' f2,
      (MultiDependencySingleRowFetcher.create bf).fetchMany (List.replicate n d)
        = some (res, f1) ∧
      (MultiDependencySingleRowFetcher.create
          { bf with _dependencies := bf._dependencies.set d (withoutWaiting script) }).fetchMany
          (List.replicate (n - countWaiting (res.map Prod.snd)) d) = some (res', f2) ∧
      nonWaiting (res.map Prod.snd) = res'.map Prod.snd := by
  have hlt : d < bf._dependencies.length := (List.getElem?_eq_some.mp hd).1
  constructor
  · intro f c blk rest hc hv hdep
    have hlt1 : d < f._upstream.length := (List.getElem?_eq_some.mp hc).1
    have hlt2 : d < f._blockFetcher._dependencies.length := (List.getElem?_eq_some.mp hdep).1
    have hs : SingleRowFetcher.fetchRow f._blockFetcher._inputRegisters c
        ((WAITING, blk) :: rest) = ((WAITING, InputAqlItemRow.invalid), c, rest, 1) := by
      simp [SingleRowFetcher.fetchRow, hv, Dependency.getSome]
    have heq := fetchRowForDependency_eq f d c _ hc hdep
    rw [hs] at heq
    exact ⟨_, heq, set_getElem?_self _ _ _ hc, List.getElem?_set_self hlt2⟩
  · have hc : (MultiDependencySingleRowFetcher.create bf)._upstream[d]? =
        some SingleRowFetcher.init := by
      simp [MultiDependencySingleRowFetcher.create, hlt]
    obtain ⟨f1, hrun, -⟩ := fetchMany_replicate_spec n
      (MultiDependencySingleRowFetcher.create bf) d SingleRowFetcher.init _ hc hd
    have hc' : (MultiDependencySingleRowFetcher.create
        { bf with _dependencies := bf._dependencies.set d (withoutWaiting script) })._upstream[d]?
        = some SingleRowFetcher.init := by
      simp [MultiDependencySingleRowFetcher.create, hlt]
    have hd' : (MultiDependencySingleRowFetcher.create
        { bf with _dependencies := bf._dependencies.set d (withoutWaiting script)
          })._blockFetcher._dependencies[d]? = some (withoutWaiting script) := by
      simp [MultiDependencySingleRowFetcher.create, hlt]
    have hmap : ∀ (l : List RowResult), (l.map (fun r => (d, r))).map Prod.snd = l := by
      intro l; simp [Function.comp_def]
    obtain ⟨f2, hrun2, -⟩ := fetchMany_replicate_spec
      (n - countWaiting (SingleRowFetcher.fetchRows bf._inputRegisters n
        SingleRowFetcher.init script).1)
      (MultiDependencySingleRowFetcher.create
        { bf with _dependencies := bf._dependencies.set d (withoutWaiting script) })
      d SingleRowFetcher.init _ hc' hd'
    have h3 := fetchRows_retry bf._inputRegisters n SingleRowFetcher.init script
    rw [← hmap (SingleRowFetcher.fetchRows bf._inputRegisters n SingleRowFetcher.init script).1]
      at hrun2 h3
    rw [← hmap (SingleRowFetcher.fetchRows bf._inputRegisters _ SingleRowFetcher.init
      (withoutWaiting script)).1] at h3
    exact ⟨_, f1, _, f2, hrun, hrun2, h3⟩

/-- Suspend idempotence on the test scenario with a WAITING before each batch. -/
theorem C4_suspend_idempotence_witness :
    (∀ (f : MultiDependencySingleRowFetcher) (c : SingleRowFetcher)
        (blk : Option AqlItemBlock) (rest : Dependency),
        f._upstream[0]? = some c → c.indexIsValid = false →
        f._blockFetcher._dependencies[0]? = some ((WAITING, blk) :: rest) →
        ∃ f', f.fetchRowForDependency 0 = some ((WAITING, InputAqlItemRow.invalid), f') ∧
          f'._upstream = f._upstream ∧
          f'._blockFetcher._dependencies[0]? = some rest) ∧
    ∃ res f1 res' f2,
      (MultiDependencySingleRowFetcher.create scenarioWait).fetchMany (List.replicate 9 0)
        = some (res, f1) ∧
      (MultiDependencySingleRowFetcher.create
          { scenarioWait with _dependencies := (scenarioWait._dependencies.set 0
              (withoutWaiting [(WAITING, none), (HASMORE, some (buildBlock [1, 2, 3])),
                (WAITING, none), (HASMORE, some (buildBlock [4, 5])), (WAITING, none),
                (DONE, some (buildBlock [6]))])) }).fetchMany
          (List.replicate (9 - countWaiting (res.map Prod.snd)) 0) = some (res', f2) ∧
      nonWaiting (res.map Prod.snd) = res'.map Prod.snd :=
  C4_suspend_idempotence scenarioWait 0 _ rfl 9

theorem countWaiting_expectedResults (regs : List RegisterId) (script : Dependency) :
    countWaiting (expectedResults regs script) =
      (script.filter (fun a => decide (a.1 = WAITING))).length := by
  induction script with
  | nil => simp [expectedResults, countWaiting]
  | cons a rest ih =>
    have happ : ∀ xs ys : List RowResult,
        countWaiting (xs ++ ys) = countWaiting xs + countWaiting ys := by
      intro xs ys; simp [countWaiting]
    rw [expectedResults_cons, happ, ih]
    obtain ⟨st, blk⟩ := a
    by_cases hw : st = WAITING
    · simp [expectedOf, hw, countWaiting, Nat.add_comm]
    · cases blk with
      | none => simp [expectedOf, hw, countWaiting]
      | some b =>
        have h0 : countWaiting (taggedRows regs st b) = 0 := by
          simp only [countWaiting, List.length_eq_zero, List.filter_eq_nil_iff, taggedRows]
          intro r hr
          simp only [List.mem_map, List.mem_range] at hr
          obtain ⟨i, _, rfl⟩ := hr
          by_cases hi : i + 1 = b.size ∧ st = DONE <;> simp [hi]
        simp [expectedOf, hw, taggedRowsFrom_zero, h0]

/-- C6 (fetch-call accounting): a `fetchRowForDependency` call makes at most one
low-level fetch, and none (the block fetcher is untouched) while the current
batch of the dependency has an unread row; when a script of non-empty batches
is used up, the low-level fetcher was called once per scripted answer and the
calls returned WAITING as often as the script answers WAITING. -/
theorem C6_fetch_call_accounting (bf : BlockFetcher) (d : Nat) (script : Dependency)
    (hd : bf._dependencies[d]? = some script) (hne : batchesNonEmpty script = true) :
    (∀ (f f' : MultiDependencySingleRowFetcher) (e : Nat) (r : RowResult),
        f.fetchRowForDependency e = some (r, f') →
        f'._blockFetcher.numFetchBlockCalls ≤ f._blockFetcher.numFetchBlockCalls + 1 ∧
        (∀ c, f._upstream[e]? = some c → c.indexIsValid = true →
          f'._blockFetcher = f._blockFetcher)) ∧
    ∃ res f', (MultiDependencySingleRowFetcher.create bf).fetchMany
        (List.replicate (callsToConsume script) d) = some (res, f') ∧
      f'._blockFetcher.numFetchBlockCalls = bf.numFetchBlockCalls + script.length ∧
      countWaiting (res.map Prod.snd) =
        (script.filter (fun a => decide (a.1 = WAITING))).length ∧
      (validResults (res.map Prod.snd)).length =
        ((deliveredBatches script).map AqlItemBlock.size).sum := by
  constructor
  · intro f f' e r h
    unfold MultiDependencySingleRowFetcher.fetchRowForDependency at h
    cases hc : f._upstream[e]? with
    | none => rw [hc] at h; cases h
    | some c =>
      rw [hc] at h
      by_cases hv : c.indexIsValid = true
      · simp only [hv, if_true, Option.some.injEq, Prod.mk.injEq] at h
        obtain ⟨_, rfl⟩ := h
        exact ⟨Nat.le_succ _, fun _ _ _ => rfl⟩
      · simp only [hv] at h
        unfold BlockFetcher.fetchBlockOfDependency at h
        by_cases hlt : e < f._blockFetcher._dependencies.length
        · rw [dif_pos hlt] at h
          refine ⟨?_, fun c' hc' hv' => ?_⟩
          · cases hb : (Dependency.getSome (f._blockFetcher._dependencies[e])).1.2 <;>
              simp only [hb] at h <;>
              by_cases hw : (Dependency.getSome (f._blockFetcher._dependencies[e])).1.1
                = WAITING <;>
              simp only [hw, if_true, if_false, Option.some.injEq, Prod.mk.injEq] at h <;>
              obtain ⟨_, rfl⟩ := h <;>
              simp
          · rw [Option.some.inj hc'] at hv; exact absurd hv' hv
        · rw [dif_neg hlt] at h; cases h
  · obtain ⟨res, f', hrun, hres, hcnt⟩ :=
      fetchMany_create_consume bf d script hd hne (callsToConsume script) (Nat.le_refl _)
    refine ⟨res, f', hrun, by simpa using hcnt, ?_, ?_⟩
    · rw [hres]; simp [countWaiting_expectedResults]
    · rw [hres, Nat.sub_self, List.replicate_zero, List.append_nil,
        validResults_expectedResults]
      have := congrArg List.length (values_expectedValid bf._inputRegisters script)
      simp only [List.length_map, List.length_flatMap] at this
      rw [this]; rfl

/-- Fetch-call accounting on the test scenario with waiting: 3 WAITING results,
6 rows and 6 low-level fetch calls. -/
theorem C6_fetch_call_accounting_witness :
    (∀ (f f' : MultiDependencySingleRowFetcher) (e : Nat) (r : RowResult),
        f.fetchRowForDependency e = some (r, f') →
        f'._blockFetcher.numFetchBlockCalls ≤ f._blockFetcher.numFetchBlockCalls + 1 ∧
        (∀ c, f._upstream[e]? = some c → c.indexIsValid = true →
          f'._blockFetcher = f._blockFetcher)) ∧
    ∃ res f', (MultiDependencySingleRowFetcher.create scenarioWait).fetchMany
        (List.replicate 9 0) = some (res, f') ∧
      f'._blockFetcher.numFetchBlockCalls = 0 + 6 ∧
      countWaiting (res.map Prod.snd) = 3 ∧
      (validResults (res.map Prod.snd)).length = 6 :=
  C6_fetch_call_accounting scenarioWait 0
    [(WAITING, none), (HASMORE, some (buildBlock [1, 2, 3])), (WAITING, none),
      (HASMORE, some (buildBlock [4, 5])), (WAITING, none), (DONE, some (buildBlock [6]))]
    rfl (by decide)

/-- Two fetchers that agree on dependency `A` (cursor, upstream, input
registers): an interleaved run of the first and the run of the second with
only the calls for `A` give the same results for `A`. -/
theorem fetchMany_filter (A : Nat) (calls : List Nat) :
    ∀ (f g : MultiDependencySingleRowFetcher), f.wellFormed →
      (∀ c ∈ calls, c < f._upstream.length) →
      f._upstream[A]? = g._upstream[A]? →
      f._blockFetcher._dependencies[A]? = g._blockFetcher._dependencies[A]? →
      f._blockFetcher._inputRegisters = g._blockFetcher._inputRegisters →
      ∃ res f1 g1, f.fetchMany calls = some (res, f1) ∧
        g.fetchMany (calls.filter (fun c => decide (c = A))) =
          some (res.filter (fun r => decide (r.1 = A)), g1) := by
  induction calls with
  | nil =>
    intro f g _ _ _ _ _
    exact ⟨[], f, g, rfl, rfl⟩
  | cons e rest ih =>
    intro f g hwf hcalls hu hdep hregs
    have he : e < f._upstream.length := hcalls e (List.mem_cons_self _ _)
    obtain ⟨c, dep, hc, hd, _⟩ := fetchRowForDependency_inRange f e hwf he
    obtain ⟨f1, hstep, hu1, hd1, hr1, hl1, hl2⟩ := fetchRowForDependency_spec f e c dep hc hd
    have hwf1 : f1.wellFormed := by
      unfold MultiDependencySingleRowFetcher.wellFormed at hwf ⊢
      rw [hl1, hl2]; exact hwf
    have hcalls1 : ∀ c ∈ rest, c < f1._upstream.length := by
      intro x hx; rw [hl1]; exact hcalls x (List.mem_cons_of_mem _ hx)
    by_cases hA : e = A
    · subst hA
      obtain ⟨g1, hgstep, hgu1, hgd1, hgr1, _, _⟩ :=
        fetchRowForDependency_spec g e c dep (hu ▸ hc) (hdep ▸ hd)
      rw [← hregs] at hgstep hgu1 hgd1
      obtain ⟨res, f2, g2, hrun, hrun2⟩ := ih f1 g1 hwf1 hcalls1 (hu1.trans hgu1.symm)
        (hd1.trans hgd1.symm) (hr1.trans (hregs.trans hgr1.symm))
      refine ⟨(e, (SingleRowFetcher.fetchRow f._blockFetcher._inputRegisters c dep).1) :: res,
        f2, g2, ?_, ?_⟩
      · simp only [MultiDependencySingleRowFetcher.fetchMany, hstep, hrun]
      · simp only [List.filter_cons_of_pos, decide_True,
          MultiDependencySingleRowFetcher.fetchMany, hgstep, hrun2]
    · obtain ⟨hfu, hfd, hfr, _, _⟩ := fetchRowForDependency_frame f f1 A e _ hA hstep
      obtain ⟨res, f2, g2, hrun, hrun2⟩ := ih f1 g hwf1 hcalls1 (hfu.trans hu)
        (hfd.trans hdep) (hfr.trans hregs)
      refine ⟨(e, (SingleRowFetcher.fetchRow f._blockFetcher._inputRegisters c dep).1) :: res,
        f2, g2, ?_, ?_⟩
      · simp only [MultiDependencySingleRowFetcher.fetchMany, hstep, hrun]
      · simp only [hA, decide_False, Bool.false_eq_true, not_false_eq_true,
          List.filter_cons_of_neg, hrun2]

/-- C8 (fan-in independence): in any interleaving of calls for the
dependencies of a fetcher, the results observed for dependency `A` are those
of the run in which only the calls for `A` are made; and a call for another
dependency changes neither the cursor of `A` nor what the upstream of `A` has
still to answer. -/
theorem C8_fan_in_independence (f : MultiDependencySingleRowFetcher) (hwf : f.wellFormed)
    (A : Nat) (calls : List Nat) (hcalls : ∀ c ∈ calls, c < f._upstream.length) :
    (∃ res f1 f2, f.fetchMany calls = some (res, f1) ∧
      f.fetchMany (calls.filter (fun c => decide (c = A))) =
        some (res.filter (fun r => decide (r.1 = A)), f2)) ∧
    (∀ (g g' : MultiDependencySingleRowFetcher) (B : Nat) (r : RowResult), B ≠ A →
      g.fetchRowForDependency B = some (r, g') →
      g'._upstream[A]? = g._upstream[A]? ∧
      g'._blockFetcher._dependencies[A]? = g._blockFetcher._dependencies[A]?) := by
  refine ⟨fetchMany_filter A calls f f hwf hcalls rfl rfl rfl, ?_⟩
  intro g g' B r hB h
  obtain ⟨h1, h2, _⟩ := fetchRowForDependency_frame g g' A B r hB h
  exact ⟨h1, h2⟩

/-- Fan-in independence on two dependencies with the calls 1,0,1,0,0,1. -/
theorem C8_fan_in_independence_witness :
    (∃ res f1 f2, (MultiDependencySingleRowFetcher.create scenarioTwoDeps).fetchMany
        [1, 0, 1, 0, 0, 1] = some (res, f1) ∧
      (MultiDependencySingleRowFetcher.create scenarioTwoDeps).fetchMany
          ([1, 0, 1, 0, 0, 1].filter (fun c => decide (c = 0))) =
        some (res.filter (fun r => decide (r.1 = 0)), f2)) ∧
    (∀ (g g' : MultiDependencySingleRowFetcher) (B : Nat) (r : RowResult), B ≠ 0 →
      g.fetchRowForDependency B = some (r, g') →
      g'._upstream[0]? = g._upstream[0]? ∧
      g'._blockFetcher._dependencies[0]? = g._blockFetcher._dependencies[0]?) :=
  C8_fan_in_independence (MultiDependencySingleRowFetcher.create scenarioTwoDeps)
    (wellFormed_create scenarioTwoDeps) 0 [1, 0, 1, 0, 0, 1] (by decide)

theorem take_succ_set {α : Type} (l : List α) (i : Nat) (a : α) (h : i < l.length) :
    (l.set i a).take (i + 1) = l.take i ++ [a] := by
  induction l generalizing i with
  | nil => simp at h
  | cons x xs ih =>
    cases i with
    | zero => simp
    | succ j =>
      simp only [List.length_cons, Nat.add_lt_add_iff_right] at h
      simp [ih j h]

/-- One round of the loop on a well-formed cursor that is not full: the cursor
after the round is well-formed, the batch keeps its size, and the committed
rows are those of before followed by the row written in the round. -/
theorem round_spec (o : OutputAqlItemRow) (w : Option (List AqlValue))
    (hwf : o.wellFormed) (hfull : o.isFull = false) :
    let o1 := match w with
      | some row => o.write row
      | none => o
    let o2 := if o1.produced then o1.advanceRow else o1
    o2.wellFormed ∧ o2.block.size = o.block.size ∧ o2.block.nrRegs = o.block.nrRegs ∧
    o2.committedRows = o.committedRows ++ w.toList ∧ 0 < o.block.size := by
  obtain ⟨hp, hb⟩ := hwf
  have hlt : o._baseIndex < o.block.size := by
    simp [OutputAqlItemRow.isFull, OutputAqlItemRow.numRowsWritten, hp] at hfull
    exact hfull
  cases w with
  | none =>
    simp [OutputAqlItemRow.produced, hp, OutputAqlItemRow.wellFormed, hb]
    omega
  | some row =>
    have hlt' : o._baseIndex < o.block.rows.length := hlt
    simp only [OutputAqlItemRow.write, OutputAqlItemRow.produced, if_true,
      OutputAqlItemRow.advanceRow, OutputAqlItemRow.wellFormed, AqlItemBlock.size,
      List.length_set, OutputAqlItemRow.committedRows, Option.toList,
      take_succ_set _ _ _ hlt']
    simp only [AqlItemBlock.size] at hlt
    exact ⟨⟨trivial, hlt⟩, trivial, trivial, trivial, by omega⟩

/-- Finalizing a well-formed cursor: a batch that is handed out holds the
committed rows and has at least one row. -/
theorem stealBlock_spec (o : OutputAqlItemRow) (hwf : o.wellFormed) (b : AqlItemBlock)
    (h : o.stealBlock = some b) :
    b.rows = o.committedRows ∧ 0 < b.size ∧ b.nrRegs = o.block.nrRegs := by
  obtain ⟨hp, hb⟩ := hwf
  unfold OutputAqlItemRow.stealBlock at h
  simp only [OutputAqlItemRow.numRowsWritten, hp, Bool.false_eq_true, if_false] at h
  by_cases h0 : o._baseIndex = 0
  · simp [h0] at h
  · simp only [h0, if_false, Option.some.injEq] at h
    subst h
    simp only [OutputAqlItemRow.committedRows, AqlItemBlock.size, List.length_take] at hb ⊢
    exact ⟨trivial, by omega, trivial⟩

theorem writtenRows_append (xs ys : List Event) :
    writtenRows (xs ++ ys) = writtenRows xs ++ writtenRows ys := by
  simp [writtenRows]

theorem writtenRows_produceRow (st : ExecutionState) (k : Nat)
    (w : Option (List AqlValue)) : writtenRows [Event.produceRow st k w] = w.toList := by
  cases w <;> simp [writtenRows]

/-- What the loop does, from a well-formed cursor `o`: it leaves the batch
manager and the pass-through queue alone and only calls `produceRow`; a batch
it returns comes with DONE or HASMORE, closes the cursor, holds the rows
committed before followed by the rows written meanwhile, and is not empty;
with WAITING it returns no batch and keeps the cursor open on the same
batch. -/
theorem produceLoop_spec {σ : Type} (cfg : Build) (ex : Executor σ) (atMost fuel : Nat) :
    ∀ (s : ExecutionBlockImpl σ) (o : OutputAqlItemRow) (state : ExecutionState)
      (out : Except Error (ExecutionState × Option AqlItemBlock)) (s' : ExecutionBlockImpl σ),
      o.wellFormed → state ≠ WAITING →
      produceLoop cfg ex atMost fuel s o state = some (out, s') →
      s'.wellFormed ∧ s'.itemBlockManager = s.itemBlockManager ∧
      s'._passThroughBlocks = s._passThroughBlocks ∧
      ∃ evs, s'.trace = s.trace ++ evs ∧ onlyProduceRow evs ∧
        (∀ st b, out = Except.ok (st, some b) →
          st ≠ WAITING ∧ s'._outputItemRow = none ∧
          b.rows = o.committedRows ++ writtenRows evs ∧ 0 < b.size ∧
          b.nrRegs = o.block.nrRegs) ∧
        (∀ b, out = Except.ok (WAITING, b) →
          b = none ∧ ∃ o', s'._outputItemRow = some o' ∧ o'.block.size = o.block.size ∧
            o'.block.nrRegs = o.block.nrRegs ∧
            o'.committedRows = o.committedRows ++ writtenRows evs) := by
  induction fuel with
  | zero => intro s o state out s' _ _ h; simp [produceLoop] at h
  | succ fuel ih =>
    intro s o state out s' hwf hst h
    unfold produceLoop at h
    by_cases hfull : o.isFull = true
    · simp only [hfull, if_true] at h
      have hkeep : ({ s with _outputItemRow := some o } : ExecutionBlockImpl σ).wellFormed := by
        intro o' ho'; simp at ho'; subst ho'; exact hwf
      cases h1 : triAssert cfg (decide (state = HASMORE)) with
      | error e =>
        simp only [h1, Option.some.injEq, Prod.mk.injEq] at h
        obtain ⟨rfl, rfl⟩ := h
        exact ⟨hkeep, rfl, rfl, [], by simp, by simp [onlyProduceRow], by simp, by simp⟩
      | ok u =>
        simp only [h1] at h
        cases h2 : triAssert cfg (decide (o.numRowsWritten = atMost)) with
        | error e =>
          simp only [h2, Option.some.injEq, Prod.mk.injEq] at h
          obtain ⟨rfl, rfl⟩ := h
          exact ⟨hkeep, rfl, rfl, [], by simp, by simp [onlyProduceRow], by simp, by simp⟩
        | ok u2 =>
          simp only [h2, Option.some.injEq, Prod.mk.injEq] at h
          obtain ⟨rfl, rfl⟩ := h
          refine ⟨by intro o' ho'; simp at ho', rfl, rfl, [], by simp,
            by simp [onlyProduceRow], ?_, ?_⟩
          · intro st b hb
            simp only [Except.ok.injEq, Prod.mk.injEq] at hb
            obtain ⟨rfl, hb⟩ := hb
            obtain ⟨e1, e2, e3⟩ := stealBlock_spec o hwf b hb
            exact ⟨hst, rfl, by simpa [writtenRows] using e1, e2, e3⟩
          · intro b hb
            simp only [Except.ok.injEq, Prod.mk.injEq] at hb
            exact absurd hb.1 hst
    · have hfull' : o.isFull = false := by simpa using hfull
      simp only [hfull, Bool.false_eq_true, if_false] at h
      obtain ⟨r1, r2, r3, r4, r5⟩ := round_spec o (ex.produceRow s._executor o).written hwf hfull'
      by_cases hw : (ex.produceRow s._executor o).state = WAITING
      · simp only [hw, if_true, Option.some.injEq, Prod.mk.injEq] at h
        obtain ⟨rfl, rfl⟩ := h
        refine ⟨by intro o' ho'; simp at ho'; subst ho'; exact r1, rfl, rfl,
          [Event.produceRow WAITING (ex.produceRow s._executor o).stats
            (ex.produceRow s._executor o).written], by simp [hw],
          by simp [onlyProduceRow], by simp, ?_⟩
        intro b hb
        simp only [Except.ok.injEq, Prod.mk.injEq, true_and] at hb
        exact ⟨hb.symm, _, rfl, r2, r3, by rw [r4, writtenRows_produceRow]⟩
      · by_cases hd : (ex.produceRow s._executor o).state = DONE
        · simp only [hd, if_true, Option.some.injEq, Prod.mk.injEq] at h
          simp only [show (DONE = WAITING) = False by simp, if_false] at h
          obtain ⟨rfl, rfl⟩ := h
          refine ⟨by intro o' ho'; simp at ho', rfl, rfl,
            [Event.produceRow DONE (ex.produceRow s._executor o).stats
              (ex.produceRow s._executor o).written], by simp [hd],
            by simp [onlyProduceRow], ?_, by simp⟩
          intro st b hb
          simp only [Except.ok.injEq, Prod.mk.injEq] at hb
          obtain ⟨rfl, hb⟩ := hb
          obtain ⟨e1, e2, e3⟩ := stealBlock_spec _ r1 b hb
          exact ⟨by simp, rfl, by rw [e1, r4, writtenRows_produceRow], e2, e3.trans r3⟩
        · simp only [hw, hd, if_false] at h
          obtain ⟨i1, i2, i3, evs, i4, i5, i6, i7⟩ := ih _ _ _ out s' r1 hw h
          refine ⟨i1, i2, i3,
            Event.produceRow (ex.produceRow s._executor o).state
              (ex.produceRow s._executor o).stats
              (ex.produceRow s._executor o).written :: evs,
            by simp [i4], ?_, ?_, ?_⟩
          · intro e he
            rcases List.mem_cons.mp he with rfl | he
            · exact ⟨_, _, _, rfl⟩
            · exact i5 e he
          · intro st b hb
            obtain ⟨j1, j2, j3, j4, j5⟩ := i6 st b hb
            refine ⟨j1, j2, ?_, j4, j5.trans r3⟩
            rw [j3, r4, ← List.singleton_append, writtenRows_append, writtenRows_produceRow,
              List.append_assoc]
          · intro b hb
            obtain ⟨j1, o', j2, j3, j4, j5⟩ := i7 b hb
            refine ⟨j1, o', j2, j3.trans r2, j4.trans r3, ?_⟩
            rw [j5, r4, ← List.singleton_append, writtenRows_append, writtenRows_produceRow,
              List.append_assoc]

theorem prefetchBlock_spec {σ : Type} (ex : Executor σ) (s : ExecutionBlockImpl σ) :
    (prefetchBlock ex s).2.trace = s.trace ++ [Event.prefetchBlock (prefetchBlock ex s).1] ∧
    (prefetchBlock ex s).2._outputItemRow = s._outputItemRow ∧
    (prefetchBlock ex s).2.itemBlockManager = s.itemBlockManager ∧
    (prefetchBlock ex s).2._stats = s._stats := by
  unfold prefetchBlock
  by_cases hw : (ex.upstreamGetSome s._executor).1.1 = WAITING
  · simp [hw]
  · cases hb : (ex.upstreamGetSome s._executor).1.2 <;> simp [hw, hb]

/-- Opening an output batch: the open cursor and the statistics are left
alone, `produceRow` is not called, and a state other than HASMORE comes
without a batch, right after the prefetch that reported it. -/
theorem requestWrappedBlock_spec {σ : Type} (cfg : Build) (ex : Executor σ)
    (nrItems nrRegs : Nat) (s : ExecutionBlockImpl σ) :
    (requestWrappedBlock cfg ex nrItems nrRegs s).2._outputItemRow = s._outputItemRow ∧
    (requestWrappedBlock cfg ex nrItems nrRegs s).2._stats = s._stats ∧
    ∃ evs, (requestWrappedBlock cfg ex nrItems nrRegs s).2.trace = s.trace ++ evs ∧
      writtenRows evs = [] ∧
      ∀ st nb, (requestWrappedBlock cfg ex nrItems nrRegs s).1 = Except.ok (st, nb) →
        st ≠ HASMORE → nb = none ∧ evs.getLast? = some (Event.prefetchBlock st) := by
  unfold requestWrappedBlock
  cases hm : s.itemBlockManager.requestBlock nrItems nrRegs with
  | error e => exact ⟨rfl, rfl, [], by simp, rfl, by intro st nb h; cases h⟩
  | ok bm =>
    obtain ⟨block, m⟩ := bm
    simp only []
    by_cases hp : ex.allowsBlockPassthrough = true
    · simp only [hp, if_true]
      by_cases he : s._passThroughBlocks.isEmpty = true
      · simp only [he, if_true]
        obtain ⟨p1, p2, p3, p4⟩ := prefetchBlock_spec ex
          { s with itemBlockManager := m
                   trace := s.trace ++ [Event.requestBlock nrItems nrRegs] }
        generalize prefetchBlock ex
          { s with itemBlockManager := m
                   trace := s.trace ++ [Event.requestBlock nrItems nrRegs] } = p at p1 p2 p3 p4
        obtain ⟨pst, ps⟩ := p
        simp only [] at p1 p2 p3 p4
        have hev : ps.trace = s.trace ++
            [Event.requestBlock nrItems nrRegs, Event.prefetchBlock pst] := by
          rw [p1]; simp
        by_cases hwd : pst = WAITING ∨ pst = DONE
        · simp only [hwd, if_true]
          refine ⟨p2, p4, _, hev, by simp [writtenRows], ?_⟩
          intro st nb h _
          simp only [Except.ok.injEq, Prod.mk.injEq] at h
          obtain ⟨rfl, rfl⟩ := h
          simp
        · have hh : pst = HASMORE := by
            cases pst <;> simp at hwd ⊢
          simp only [hwd, if_false]
          cases hq : ps._passThroughBlocks with
          | nil =>
            refine ⟨p2, p4, _, hev, by simp [writtenRows], ?_⟩
            intro st nb h
            by_cases hmm : cfg.maintainerMode = true <;> simp [hmm] at h
          | cons sh rest =>
            simp only []
            cases ha1 : triAssert cfg (decide ((sh :: rest).length = 1)) with
            | error e =>
              exact ⟨p2, p4, _, hev, by simp [writtenRows], by intro st nb h; cases h⟩
            | ok u =>
              simp only []
              cases ha2 : triAssert cfg (decide (sh.getNrRegs = nrRegs)) with
              | error e =>
                exact ⟨p2, p4, _, hev, by simp [writtenRows], by intro st nb h; cases h⟩
              | ok u2 =>
                refine ⟨p2, p4, _, hev, by simp [writtenRows], ?_⟩
                intro st nb h hne
                simp only [Except.ok.injEq, Prod.mk.injEq] at h
                exact absurd h.1.symm hne
      · simp only [he, Bool.false_eq_true, if_false]
        simp only [show (HASMORE = WAITING ∨ HASMORE = DONE) = False by simp, if_false]
        cases hq : s._passThroughBlocks with
        | nil =>
          refine ⟨rfl, rfl, _, rfl, by simp [writtenRows], ?_⟩
          intro st nb h
          by_cases hmm : cfg.maintainerMode = true <;> simp [hmm] at h
        | cons sh rest =>
          simp only []
          cases ha1 : triAssert cfg (decide ((sh :: rest).length = 1)) with
          | error e =>
            exact ⟨rfl, rfl, _, rfl, by simp [writtenRows], by intro st nb h; cases h⟩
          | ok u =>
            simp only []
            cases ha2 : triAssert cfg (decide (sh.getNrRegs = nrRegs)) with
            | error e =>
              exact ⟨rfl, rfl, _, rfl, by simp [writtenRows], by intro st nb h; cases h⟩
            | ok u2 =>
              refine ⟨rfl, rfl, _, rfl, by simp [writtenRows], ?_⟩
              intro st nb h hne
              simp only [Except.ok.injEq, Prod.mk.injEq] at h
              exact absurd h.1.symm hne
    · have hp' : ex.allowsBlockPassthrough = false := by simpa using hp
      rw [hp']
      refine ⟨rfl, rfl, [Event.requestBlock nrItems nrRegs], rfl, by simp [writtenRows], ?_⟩
      intro st nb h hne
      simp only [Bool.false_eq_true, if_false, Except.ok.injEq, Prod.mk.injEq] at h
      exact absurd h.1.symm hne

theorem wellFormed_create_block {σ : Type} (executor : σ) (m : AqlItemBlockManager) :
    (ExecutionBlockImpl.create executor m).wellFormed := by
  intro o ho; simp [ExecutionBlockImpl.create] at ho

theorem getSomeWithoutTrace_spec {σ : Type} (cfg : Build) (ex : Executor σ)
    (fuel atMost : Nat) (s s' : ExecutionBlockImpl σ)
    (out : Except Error (ExecutionState × Option AqlItemBlock))
    (hwf : s.wellFormed) (h : getSomeWithoutTrace cfg ex fuel atMost s = some (out, s')) :
    GetSomePost s s' out := by
  unfold getSomeWithoutTrace at h
  have herr : ∀ (e : Error) (t : ExecutionBlockImpl σ), t.wellFormed →
      t.trace = s.trace → t.itemBlockManager = s.itemBlockManager →
      t._passThroughBlocks = s._passThroughBlocks →
      some (Except.error e, t) = some (out, s') → GetSomePost s s' out := by
    intro e t ht htr hm hq heq
    simp only [Option.some.injEq, Prod.mk.injEq] at heq
    obtain ⟨rfl, rfl⟩ := heq
    refine ⟨ht, [], ?_, ?_, ?_, ?_⟩
    · simp [htr]
    · intro st b hb; cases hb
    · intro b hb; cases hb
    · exact fun _ _ => ⟨hm, hq, by simp [onlyProduceRow]⟩
  by_cases hf1 : triIfFailure cfg "ExecutionBlock::getOrSkipSome1" = true
  · rw [if_pos hf1] at h; exact herr _ s hwf rfl rfl rfl h
  rw [if_neg hf1] at h
  by_cases hf2 : triIfFailure cfg "ExecutionBlock::getOrSkipSome2" = true
  · rw [if_pos hf2] at h; exact herr _ s hwf rfl rfl rfl h
  rw [if_neg hf2] at h
  by_cases hf3 : triIfFailure cfg "ExecutionBlock::getOrSkipSome3" = true
  · rw [if_pos hf3] at h; exact herr _ s hwf rfl rfl rfl h
  rw [if_neg hf3] at h
  cases ho : s._outputItemRow with
  | some o =>
    simp only [ho] at h
    cases ha : triAssert cfg (decide (0 < atMost)) with
    | error e => simp only [ha] at h; exact herr _ s hwf rfl rfl rfl h
    | ok u =>
      simp only [ha] at h
      obtain ⟨i1, i2, i3, evs, i4, i5, i6, i7⟩ :=
        produceLoop_spec cfg ex atMost fuel s o HASMORE out s' (hwf o ho) (by simp) h
      refine ⟨i1, evs, i4, ?_, ?_, ?_⟩
      · intro st b hb
        obtain ⟨j1, j2, j3, j4, _⟩ := i6 st b hb
        exact ⟨j1, j4, j2, by simpa [ExecutionBlockImpl.openCommitted, ho] using j3⟩
      · intro b hb
        obtain ⟨j1, o', j2, j3, j4, j5⟩ := i7 b hb
        refine ⟨j1, fun _ => ⟨o', j2, by simpa [ExecutionBlockImpl.openCommitted, ho] using j5,
          ?_⟩⟩
        intro o2 ho2
        rw [ho] at ho2
        cases ho2
        exact ⟨j3, j4⟩
      · intro o2 _
        exact ⟨i2, i3, i5⟩
  | none =>
    simp only [ho] at h
    obtain ⟨q1, _, evs0, q3, q4, q5⟩ :=
      requestWrappedBlock_spec cfg ex atMost ex.numberOfOutputRegisters s
    generalize requestWrappedBlock cfg ex atMost ex.numberOfOutputRegisters s = rw at h q1 q3 q5
    obtain ⟨res, s1⟩ := rw
    simp only [] at q1 q3 q5
    have hwf1 : s1.wellFormed := by
      intro o' ho'; rw [q1, ho] at ho'; cases ho'
    have hopen : s.openCommitted = [] := by simp [ExecutionBlockImpl.openCommitted, ho]
    have hfin : ∀ (t : ExecutionBlockImpl σ)
        (r : Except Error (ExecutionState × Option AqlItemBlock)),
        t.wellFormed → t.trace = s1.trace →
        (∀ st b, r ≠ Except.ok (st, some b)) →
        (∀ b, r = Except.ok (WAITING, b) →
          b = none ∧ ¬ ∃ k w, evs0.getLast? = some (Event.produceRow WAITING k w)) →
        some (r, t) = some (out, s') → GetSomePost s s' out := by
      intro t r ht htr hnb hwt heq
      simp only [Option.some.injEq, Prod.mk.injEq] at heq
      obtain ⟨rfl, rfl⟩ := heq
      refine ⟨ht, evs0, by rw [htr, q3], ?_, ?_, ?_⟩
      · intro st b hb; exact absurd hb (hnb st b)
      · intro b hb
        obtain ⟨k1, k2⟩ := hwt b hb
        exact ⟨k1, fun hex => absurd hex k2⟩
      · intro o hso; rw [ho] at hso; cases hso
    cases res with
    | error e =>
      simp only [] at h
      exact hfin s1 _ hwf1 rfl (by intro st b hb; cases hb) (by intro b hb; cases hb) h
    | ok sb =>
      obtain ⟨state, newBlock⟩ := sb
      simp only [] at h
      by_cases hs : state = HASMORE
      · subst hs
        simp only [ne_eq, not_true_eq_false, if_false] at h
        cases newBlock with
        | none =>
          simp only [] at h
          by_cases hmm : cfg.maintainerMode = true
          · simp only [hmm, if_true] at h
            exact hfin s1 _ hwf1 rfl (by intro st b hb; cases hb) (by intro b hb; cases hb) h
          · simp only [hmm, Bool.false_eq_true, if_false] at h
            exact hfin s1 _ hwf1 rfl (by intro st b hb; cases hb) (by intro b hb; cases hb) h
        | some b0 =>
          simp only [] at h
          have hwo : (OutputAqlItemRow.create b0).wellFormed :=
            ⟨rfl, Nat.zero_le _⟩
          cases ha : triAssert cfg (decide (0 < atMost)) with
          | error e =>
            simp only [ha] at h
            refine hfin { s1 with _outputItemRow := some (OutputAqlItemRow.create b0) }
              (Except.error e) ?_ rfl (by intro st b hb; cases hb)
              (by intro b hb; cases hb) h
            intro o' ho'
            cases ho'; exact hwo
          | ok u =>
            simp only [ha] at h
            obtain ⟨i1, _, _, evs, i4, _, i6, i7⟩ :=
              produceLoop_spec cfg ex atMost fuel s1 _ HASMORE out s' hwo (by simp) h
            have hc0 : (OutputAqlItemRow.create b0).committedRows = [] := by
              simp [OutputAqlItemRow.committedRows, OutputAqlItemRow.create]
            have hwr : writtenRows (evs0 ++ evs) = writtenRows evs := by
              rw [writtenRows_append, q4, List.nil_append]
            refine ⟨i1, evs0 ++ evs, by rw [i4, q3, List.append_assoc], ?_, ?_, ?_⟩
            · intro st b hb
              obtain ⟨j1, j2, j3, j4, _⟩ := i6 st b hb
              exact ⟨j1, j4, j2, by rw [j3, hc0, hopen, hwr]⟩
            · intro b hb
              obtain ⟨j1, o', j2, _, _, j5⟩ := i7 b hb
              refine ⟨j1, fun _ => ⟨o', j2, by rw [j5, hc0, hopen, hwr], ?_⟩⟩
              intro o2 ho2; rw [ho] at ho2; cases ho2
            · intro o2 ho2; rw [ho] at ho2; cases ho2
      · simp only [ne_eq, hs, not_false_eq_true, if_true] at h
        obtain ⟨k1, k2⟩ := q5 state newBlock rfl hs
        cases ha : triAssert cfg newBlock.isNone with
        | error e =>
          simp only [ha] at h
          exact hfin s1 _ hwf1 rfl (by intro st b hb; cases hb) (by intro b hb; cases hb) h
        | ok u =>
          simp only [ha] at h
          refine hfin s1 _ hwf1 rfl (by intro st b hb; cases hb) ?_ h
          intro b hb
          simp only [Except.ok.injEq, Prod.mk.injEq] at hb
          refine ⟨hb.2.symm, ?_⟩
          rintro ⟨k, w, hw⟩
          rw [k2] at hw
          cases hw

theorem getSomeMany_nonEmpty {σ : Type} (cfg : Build) (ex : Executor σ)
    (calls : List (Nat × Nat)) :
    ∀ (s s' : ExecutionBlockImpl σ)
      (outs : List (Except Error (ExecutionState × Option AqlItemBlock))),
      s.wellFormed → getSomeMany cfg ex calls s = some (outs, s') →
      ∀ st b, Except.ok (st, some b) ∈ outs → 0 < b.size := by
  induction calls with
  | nil =>
    intro s s' outs _ h st b hmem
    simp only [getSomeMany, Option.some.injEq, Prod.mk.injEq] at h
    rw [← h.1] at hmem; cases hmem
  | cons c rest ih =>
    intro s s' outs hwf h st b hmem
    obtain ⟨fuel, atMost⟩ := c
    simp only [getSomeMany, getSome] at h
    cases hg : getSomeWithoutTrace cfg ex fuel atMost s with
    | none => simp [hg] at h
    | some p =>
      obtain ⟨out, s1⟩ := p
      obtain ⟨hwf1, evs, _, hb, _⟩ := getSomeWithoutTrace_spec cfg ex fuel atMost s s1 out hwf hg
      simp only [hg] at h
      cases hm : getSomeMany cfg ex rest s1 with
      | none => simp [hm] at h
      | some q =>
        obtain ⟨rs, s2⟩ := q
        simp only [hm, Option.some.injEq, Prod.mk.injEq] at h
        obtain ⟨rfl, rfl⟩ := h
        rcases List.mem_cons.mp hmem with heq | hmem'
        · exact (hb st b heq.symm).2.1
        · exact ih s1 s2 rs hwf1 hm st b hmem'

theorem getSome_open_eq {σ : Type} (cfg : Build) (ex : Executor σ) (fuel atMost : Nat)
    (s : ExecutionBlockImpl σ) (o : OutputAqlItemRow) (hnf : noFailurePoint cfg)
    (ho : s._outputItemRow = some o) (hat : cfg.maintainerMode = true → 0 < atMost) :
    getSome cfg ex fuel atMost s = produceLoop cfg ex atMost fuel s o HASMORE := by
  obtain ⟨h1, h2, h3⟩ := hnf
  have ha : triAssert cfg (decide (0 < atMost)) = Except.ok () := by
    unfold triAssert
    by_cases hm : cfg.maintainerMode = true
    · simp [hm, hat hm]
    · simp [hm]
  simp [getSome, getSomeWithoutTrace, h1, h2, h3, ho, ha]

/-- C1 (no-empty-batch law): in every run of `getSome` calls on a block, for
every executor, each batch that is returned has at least one row; and when the
executor reports DONE while no row has been written into the open output
batch, `getSome` returns DONE with a null batch. -/
theorem C1_no_empty_batch {σ : Type} (cfg : Build) (ex : Executor σ) (executor : σ)
    (m : AqlItemBlockManager) (calls : List (Nat × Nat))
    (outs : List (Except Error (ExecutionState × Option AqlItemBlock)))
    (s' : ExecutionBlockImpl σ)
    (h : getSomeMany cfg ex calls (ExecutionBlockImpl.create executor m) = some (outs, s')) :
    (∀ st b, Except.ok (st, some b) ∈ outs → 0 < b.size) ∧
    (∀ (fuel atMost : Nat) (s : ExecutionBlockImpl σ) (o : OutputAqlItemRow),
      noFailurePoint cfg → (cfg.maintainerMode = true → 0 < atMost) →
      s._outputItemRow = some o → o.isFull = false → o.numRowsWritten = 0 →
      (ex.produceRow s._executor o).state = DONE →
      (ex.produceRow s._executor o).written = none →
      ∃ s1, getSome cfg ex (fuel + 1) atMost s = some (Except.ok (DONE, none), s1) ∧
        s1._outputItemRow = none) := by
  refine ⟨getSomeMany_nonEmpty cfg ex calls _ s' outs (wellFormed_create_block executor m) h, ?_⟩
  intro fuel atMost s o hnf hat ho hfull hzero hdone hnone
  rw [getSome_open_eq cfg ex (fuel + 1) atMost s o hnf ho hat]
  have hp : o._produced = false := by
    cases hpp : o._produced
    · rfl
    · simp [OutputAqlItemRow.numRowsWritten, hpp] at hzero
  have hsteal : o.stealBlock = none := by simp [OutputAqlItemRow.stealBlock, hzero]
  have hrun : produceLoop cfg ex atMost (fuel + 1) s o HASMORE =
      some (Except.ok (DONE, none),
        { s with _executor := (ex.produceRow s._executor o).executor
                 _stats := s._stats + (ex.produceRow s._executor o).stats
                 trace := s.trace ++
                   [Event.produceRow DONE (ex.produceRow s._executor o).stats none]
                 _outputItemRow := none }) := by
    simp [produceLoop, hfull, hdone, hnone, OutputAqlItemRow.produced, hp, hsteal]
  exact ⟨_, hrun, rfl⟩

/-- The no-empty-batch law on the suspension example: three pulls return WAITING,
then the batch of three rows with DONE, then DONE with a null batch. -/
theorem C1_no_empty_batch_witness :
    ∃ outs s', getSomeMany releaseBuild (scriptedExecutor false 1) [(10, 5), (10, 5), (10, 5)]
        (ExecutionBlockImpl.create suspendingScript freshManager) = some (outs, s') ∧
      outs = [Except.ok (WAITING, none),
        Except.ok (DONE, some ⟨1, [[some 1], [some 2], [some 3]]⟩), Except.ok (DONE, none)] ∧
      (∀ st b, Except.ok (st, some b) ∈ outs → 0 < b.size) :=
  ⟨_, _, rfl, rfl,
    (C1_no_empty_batch releaseBuild (scriptedExecutor false 1) suspendingScript freshManager
      [(10, 5), (10, 5), (10, 5)] _ _ rfl).1⟩

theorem produceLoop_waiting_null {σ : Type} (cfg : Build) (ex : Executor σ)
    (atMost fuel : Nat) :
    ∀ (s s' : ExecutionBlockImpl σ) (o : OutputAqlItemRow) (state : ExecutionState)
      (b : Option AqlItemBlock), state ≠ WAITING →
      produceLoop cfg ex atMost fuel s o state = some (Except.ok (WAITING, b), s') →
      b = none := by
  induction fuel with
  | zero => intro s s' o state b _ h; simp [produceLoop] at h
  | succ fuel ih =>
    intro s s' o state b hst h
    unfold produceLoop at h
    by_cases hfull : o.isFull = true
    · simp only [hfull, if_true] at h
      cases h1 : triAssert cfg (decide (state = HASMORE)) with
      | error e => simp [h1] at h
      | ok u =>
        simp only [h1] at h
        cases h2 : triAssert cfg (decide (o.numRowsWritten = atMost)) with
        | error e => simp [h2] at h
        | ok u2 =>
          simp only [h2, Option.some.injEq, Prod.mk.injEq, Except.ok.injEq] at h
          exact absurd h.1.1 hst
    · simp only [hfull, Bool.false_eq_true, if_false] at h
      by_cases hw : (ex.produceRow s._executor o).state = WAITING
      · simp only [hw, if_true, Option.some.injEq, Prod.mk.injEq, Except.ok.injEq,
          true_and] at h
        exact h.1.symm
      · by_cases hd : (ex.produceRow s._executor o).state = DONE
        · simp [hd] at h
        · simp only [hw, hd, if_false] at h
          exact ih _ _ _ _ b hw h

theorem getSomeWithoutTrace_waiting_null {σ : Type} (cfg : Build) (ex : Executor σ)
    (fuel atMost : Nat) (s s' : ExecutionBlockImpl σ) (b : Option AqlItemBlock)
    (h : getSomeWithoutTrace cfg ex fuel atMost s = some (Except.ok (WAITING, b), s')) :
    b = none := by
  unfold getSomeWithoutTrace at h
  by_cases hf1 : triIfFailure cfg "ExecutionBlock::getOrSkipSome1" = true
  · rw [if_pos hf1] at h; simp at h
  rw [if_neg hf1] at h
  by_cases hf2 : triIfFailure cfg "ExecutionBlock::getOrSkipSome2" = true
  · rw [if_pos hf2] at h; simp at h
  rw [if_neg hf2] at h
  by_cases hf3 : triIfFailure cfg "ExecutionBlock::getOrSkipSome3" = true
  · rw [if_pos hf3] at h; simp at h
  rw [if_neg hf3] at h
  cases ho : s._outputItemRow with
  | some o =>
    simp only [ho] at h
    cases ha : triAssert cfg (decide (0 < atMost)) with
    | error e => simp [ha] at h
    | ok u =>
      simp only [ha] at h
      exact produceLoop_waiting_null cfg ex atMost fuel s s' o HASMORE b (by simp) h
  | none =>
    simp only [ho] at h
    generalize requestWrappedBlock cfg ex atMost ex.numberOfOutputRegisters s = rw at h
    obtain ⟨res, s1⟩ := rw
    cases res with
    | error e => simp at h
    | ok sb =>
      obtain ⟨state, newBlock⟩ := sb
      simp only [] at h
      by_cases hs : state = HASMORE
      · subst hs
        simp only [ne_eq, not_true_eq_false, if_false] at h
        cases newBlock with
        | none =>
          by_cases hmm : cfg.maintainerMode = true <;> simp [hmm] at h
        | some b0 =>
          simp only [] at h
          cases ha : triAssert cfg (decide (0 < atMost)) with
          | error e => simp [ha] at h
          | ok u =>
            simp only [ha] at h
            exact produceLoop_waiting_null cfg ex atMost fuel s1 s' _ HASMORE b (by simp) h
      · simp only [ne_eq, hs, not_false_eq_true, if_true] at h
        cases ha : triAssert cfg newBlock.isNone with
        | error e => simp [ha] at h
        | ok u =>
          simp only [ha, Option.some.injEq, Prod.mk.injEq, Except.ok.injEq] at h
          exact h.1.2.symm

/-- C9: whenever `getSome`, or `getSomeWithoutTrace`, returns WAITING, the batch
it returns is null, for every executor and from every state of the block; it
does return WAITING with a null batch when the prefetch of a pass-through
block suspends, and when `produceRow` returns WAITING. -/
theorem C9_waiting_carries_no_batch {σ : Type} (cfg : Build) (ex : Executor σ)
    (fuel atMost : Nat) (s : ExecutionBlockImpl σ) :
    (∀ s' b, getSome cfg ex fuel atMost s = some (Except.ok (WAITING, b), s') → b = none) ∧
    (∀ s' b, getSomeWithoutTrace cfg ex fuel atMost s = some (Except.ok (WAITING, b), s') →
      b = none) ∧
    (noFailurePoint cfg → ex.allowsBlockPassthrough = true → s._outputItemRow = none →
      s._passThroughBlocks = [] →
      (∃ bm, s.itemBlockManager.requestBlock atMost ex.numberOfOutputRegisters = Except.ok bm) →
      (ex.upstreamGetSome s._executor).1.1 = WAITING →
      ∃ s', getSome cfg ex fuel atMost s = some (Except.ok (WAITING, none), s') ∧
        s'._outputItemRow = none) ∧
    (∀ o, noFailurePoint cfg → (cfg.maintainerMode = true → 0 < atMost) →
      s._outputItemRow = some o → o.isFull = false →
      (ex.produceRow s._executor o).state = WAITING →
      ∃ s', getSome cfg ex (fuel + 1) atMost s = some (Except.ok (WAITING, none), s') ∧
        s'._outputItemRow.isSome = true) := by
  refine ⟨fun s' b h => getSomeWithoutTrace_waiting_null cfg ex fuel atMost s s' b h,
    fun s' b h => getSomeWithoutTrace_waiting_null cfg ex fuel atMost s s' b h, ?_, ?_⟩
  · intro hnf hp ho hq hreq hw
    obtain ⟨h1, h2, h3⟩ := hnf
    obtain ⟨⟨blk, m⟩, hreq⟩ := hreq
    have hrw : requestWrappedBlock cfg ex atMost ex.numberOfOutputRegisters s =
        (Except.ok (WAITING, none),
          { s with itemBlockManager := m
                   _executor := (ex.upstreamGetSome s._executor).2
                   trace := s.trace ++ [Event.requestBlock atMost ex.numberOfOutputRegisters]
                     ++ [Event.prefetchBlock WAITING] }) := by
      simp [requestWrappedBlock, hreq, hp, hq, prefetchBlock, hw]
    have hta : triAssert cfg true = Except.ok () := by
      simp [triAssert]
    have hrun : getSome cfg ex fuel atMost s = some (Except.ok (WAITING, none),
          { s with itemBlockManager := m
                   _executor := (ex.upstreamGetSome s._executor).2
                   trace := s.trace ++ [Event.requestBlock atMost ex.numberOfOutputRegisters]
                     ++ [Event.prefetchBlock WAITING] }) := by
      simp [getSome, getSomeWithoutTrace, h1, h2, h3, ho, hrw, hta]
    exact ⟨_, hrun, ho⟩
  · intro o hnf hat ho hfull hw
    rw [getSome_open_eq cfg ex (fuel + 1) atMost s o hnf ho hat]
    have hrun : produceLoop cfg ex atMost (fuel + 1) s o HASMORE =
        some (Except.ok (WAITING, none),
          { s with _executor := (ex.produceRow s._executor o).executor
                   _stats := s._stats + (ex.produceRow s._executor o).stats
                   trace := s.trace ++
                     [Event.produceRow WAITING (ex.produceRow s._executor o).stats
                       (ex.produceRow s._executor o).written]
                   _outputItemRow := some
                     (if (match (ex.produceRow s._executor o).written with
                          | some row => o.write row
                          | none => o).produced
                      then (match (ex.produceRow s._executor o).written with
                          | some row => o.write row
                          | none => o).advanceRow
                      else (match (ex.produceRow s._executor o).written with
                          | some row => o.write row
                          | none => o)) }) := by
      simp [produceLoop, hfull, hw]
    exact ⟨_, hrun, rfl⟩

/-- Both WAITING exits on examples: a pass-through block whose upstream first
answers WAITING, and an open output batch whose executor answers WAITING. -/
theorem C9_waiting_carries_no_batch_witness :
    (∃ s', getSome maintainerBuild (scriptedExecutor true 1) 10 5
        (ExecutionBlockImpl.create waitingUpstream freshManager) =
          some (Except.ok (WAITING, none), s') ∧ s'._outputItemRow = none) ∧
    (∃ s', getSome maintainerBuild (scriptedExecutor false 1) (9 + 1) 5
        { ExecutionBlockImpl.create suspendingScript.2 freshManager with
          _executor := ([(WAITING, none)], [])
          _outputItemRow := some (OutputAqlItemRow.create (buildBlock [0, 0])) } =
          some (Except.ok (WAITING, none), s') ∧ s'._outputItemRow.isSome = true) :=
  ⟨(C9_waiting_carries_no_batch maintainerBuild (scriptedExecutor true 1) 10 5
      (ExecutionBlockImpl.create waitingUpstream freshManager)).2.2.1
      ⟨by decide, by decide, by decide⟩ rfl rfl rfl ⟨_, rfl⟩ rfl,
   (C9_waiting_carries_no_batch maintainerBuild (scriptedExecutor false 1) 9 5
      { ExecutionBlockImpl.create suspendingScript.2 freshManager with
          _executor := ([(WAITING, none)], [])
          _outputItemRow := some (OutputAqlItemRow.create (buildBlock [0, 0])) }).2.2.2
      (OutputAqlItemRow.create (buildBlock [0, 0]))
      ⟨by decide, by decide, by decide⟩ (fun _ => by decide) rfl rfl rfl⟩

/-- C10 (suspension keeps the partially filled output batch): when a `getSome`
call ends with a `produceRow` that returned WAITING, the output cursor stays
open on the same batch, which holds the rows committed before the call
followed by the rows written in the call; the next `getSome` call requests and
prefetches nothing, it only calls `produceRow`, and a batch it returns holds
the rows committed before the suspension, then the rows written in the
suspended call, then the rows written after it, in this order. -/
theorem C10_suspension_keeps_open_batch {σ : Type} (cfg : Build) (ex : Executor σ)
    (fuel1 atMost1 : Nat) (s s1 : ExecutionBlockImpl σ) (hwf : s.wellFormed)
    (h1 : getSome cfg ex fuel1 atMost1 s = some (Except.ok (WAITING, none), s1))
    (hlast : ∃ k w, (s1.trace.drop s.trace.length).getLast? =
      some (Event.produceRow WAITING k w)) :
    ∃ o1, s1._outputItemRow = some o1 ∧
      (∀ o, s._outputItemRow = some o →
        o1.block.size = o.block.size ∧ o1.block.nrRegs = o.block.nrRegs) ∧
      o1.committedRows = s.openCommitted ++ writtenRows (s1.trace.drop s.trace.length) ∧
      ∀ (fuel2 atMost2 : Nat) (st : ExecutionState) (b : AqlItemBlock)
        (s2 : ExecutionBlockImpl σ),
        getSome cfg ex fuel2 atMost2 s1 = some (Except.ok (st, some b), s2) →
        s2.itemBlockManager = s1.itemBlockManager ∧
        s2._passThroughBlocks = s1._passThroughBlocks ∧
        onlyProduceRow (s2.trace.drop s1.trace.length) ∧
        s2._outputItemRow = none ∧
        b.rows = s.openCommitted ++ writtenRows (s1.trace.drop s.trace.length) ++
          writtenRows (s2.trace.drop s1.trace.length) := by
  obtain ⟨hwf1, evs1, htr1, _, hW, _⟩ := getSomeWithoutTrace_spec cfg ex fuel1 atMost1 s s1 _ hwf h1
  have hdrop1 : s1.trace.drop s.trace.length = evs1 := by rw [htr1]; simp
  rw [hdrop1] at hlast ⊢
  obtain ⟨_, hopen⟩ := hW none rfl
  obtain ⟨o1, ho1, hc1, hsame⟩ := hopen hlast
  refine ⟨o1, ho1, hsame, hc1, ?_⟩
  intro fuel2 atMost2 st b s2 h2
  obtain ⟨_, evs2, htr2, hB, _, hO⟩ := getSomeWithoutTrace_spec cfg ex fuel2 atMost2 s1 s2 _ hwf1 h2
  have hdrop2 : s2.trace.drop s1.trace.length = evs2 := by rw [htr2]; simp
  rw [hdrop2]
  obtain ⟨_, _, hclosed, hrows⟩ := hB st b rfl
  obtain ⟨hm, hq, honly⟩ := hO o1 ho1
  refine ⟨hm, hq, honly, hclosed, ?_⟩
  have hoc : s1.openCommitted = o1.committedRows := by
    simp [ExecutionBlockImpl.openCommitted, ho1]
  rw [hrows, hoc, hc1]

/-- The suspension example: the first pull writes row 1 and suspends, the second
writes rows 2 and 3 and returns the batch of rows 1, 2, 3 without requesting a
batch. -/
theorem C10_suspension_keeps_open_batch_witness :
    ∃ s1 s2 o1,
      getSome releaseBuild (scriptedExecutor false 1) 10 5
        (ExecutionBlockImpl.create suspendingScript freshManager) =
          some (Except.ok (WAITING, none), s1) ∧
      s1._outputItemRow = some o1 ∧ o1.committedRows = [[some 1]] ∧
      getSome releaseBuild (scriptedExecutor false 1) 10 5 s1 =
        some (Except.ok (DONE, some ⟨1, [[some 1], [some 2], [some 3]]⟩), s2) ∧
      s2.itemBlockManager = s1.itemBlockManager ∧
      onlyProduceRow (s2.trace.drop s1.trace.length) := by
  obtain ⟨o1, h1, _, h3, h4⟩ := C10_suspension_keeps_open_batch releaseBuild
    (scriptedExecutor false 1) 10 5 (ExecutionBlockImpl.create suspendingScript freshManager) _
    (wellFormed_create_block _ _) rfl ⟨1, none, rfl⟩
  obtain ⟨k1, _, k3, _, _⟩ := h4 10 5 DONE ⟨1, [[some 1], [some 2], [some 3]]⟩ _ rfl
  exact ⟨_, _, o1, rfl, h1, h3, rfl, k1, k3⟩

theorem statsOf_append (xs ys : List Event) : statsOf (xs ++ ys) = statsOf xs + statsOf ys := by
  simp [statsOf]

theorem prefetchBlock_eq {σ : Type} (ex : Executor σ) (s : ExecutionBlockImpl σ) :
    (prefetchBlock ex s).2._executor = (ex.upstreamGetSome s._executor).2 ∧
    ((prefetchBlock ex s).1 = WAITING ∨ (prefetchBlock ex s).1 = DONE →
      (prefetchBlock ex s).2._passThroughBlocks = s._passThroughBlocks) := by
  unfold prefetchBlock
  by_cases hw : (ex.upstreamGetSome s._executor).1.1 = WAITING
  · simp [hw]
  · cases hb : (ex.upstreamGetSome s._executor).1.2 <;> simp [hw, hb]

/-- What opening an output batch adds to the trace: nothing when the request
fails, else the request, followed by the prefetch when there was one. -/
theorem requestWrappedBlock_trace {σ : Type} (cfg : Build) (ex : Executor σ)
    (nrItems nrRegs : Nat) (s : ExecutionBlockImpl σ) :
    (requestWrappedBlock cfg ex nrItems nrRegs s).2.trace = s.trace ∨
    (requestWrappedBlock cfg ex nrItems nrRegs s).2.trace =
      s.trace ++ [Event.requestBlock nrItems nrRegs] ∨
    ∃ st, (requestWrappedBlock cfg ex nrItems nrRegs s).2.trace =
      s.trace ++ [Event.requestBlock nrItems nrRegs, Event.prefetchBlock st] := by
  unfold requestWrappedBlock
  cases hm : s.itemBlockManager.requestBlock nrItems nrRegs with
  | error e => exact Or.inl rfl
  | ok bm =>
    obtain ⟨block, m⟩ := bm
    simp only []
    by_cases hp : ex.allowsBlockPassthrough = true
    · simp only [hp, if_true]
      by_cases he : s._passThroughBlocks.isEmpty = true
      · simp only [he, if_true]
        obtain ⟨p1, -⟩ := prefetchBlock_spec ex
          { s with itemBlockManager := m
                   trace := s.trace ++ [Event.requestBlock nrItems nrRegs] }
        generalize prefetchBlock ex
          { s with itemBlockManager := m
                   trace := s.trace ++ [Event.requestBlock nrItems nrRegs] } = p at p1
        obtain ⟨pst, ps⟩ := p
        simp only [] at p1
        have hev : ps.trace = s.trace ++
            [Event.requestBlock nrItems nrRegs, Event.prefetchBlock pst] := by
          rw [p1]; simp
        refine Or.inr (Or.inr ⟨pst, ?_⟩)
        by_cases hwd : pst = WAITING ∨ pst = DONE
        · simp only [hwd, if_true]; exact hev
        · simp only [hwd, if_false]
          cases hq : ps._passThroughBlocks with
          | nil => exact hev
          | cons sh rest =>
            simp only []
            cases ha1 : triAssert cfg (decide ((sh :: rest).length = 1)) with
            | error e => exact hev
            | ok u =>
              simp only []
              cases ha2 : triAssert cfg (decide (sh.getNrRegs = nrRegs)) <;> exact hev
      · simp only [he, Bool.false_eq_true, if_false]
        simp only [show (HASMORE = WAITING ∨ HASMORE = DONE) = False by simp, if_false]
        refine Or.inr (Or.inl ?_)
        cases hq : s._passThroughBlocks with
        | nil => rfl
        | cons sh rest =>
          simp only []
          cases ha1 : triAssert cfg (decide ((sh :: rest).length = 1)) with
          | error e => rfl
          | ok u =>
            simp only []
            cases ha2 : triAssert cfg (decide (sh.getNrRegs = nrRegs)) <;> rfl
    · have hp' : ex.allowsBlockPassthrough = false := by simpa using hp
      rw [hp']
      exact Or.inr (Or.inl rfl)

/-- The trace of the loop: only `produceRow` calls, each counted once in the
statistics, and all of them but the last returned HASMORE; when the loop ends
with DONE the cursor is closed. -/
theorem produceLoop_trace {σ : Type} (cfg : Build) (ex : Executor σ) (atMost fuel : Nat) :
    ∀ (s : ExecutionBlockImpl σ) (o : OutputAqlItemRow) (state : ExecutionState)
      (out : Except Error (ExecutionState × Option AqlItemBlock)) (s' : ExecutionBlockImpl σ),
      state = HASMORE →
      produceLoop cfg ex atMost fuel s o state = some (out, s') →
      ∃ evs, s'.trace = s.trace ++ evs ∧ s'._stats = s._stats + statsOf evs ∧
        onlyProduceRow evs ∧
        (∀ e ∈ evs.dropLast, ∃ k w, e = Event.produceRow HASMORE k w) ∧
        (∀ b, out = Except.ok (DONE, b) → s'._outputItemRow = none) := by
  induction fuel with
  | zero => intro s o state out s' _ h; simp [produceLoop] at h
  | succ fuel ih =>
    intro s o state out s' hst h
    unfold produceLoop at h
    by_cases hfull : o.isFull = true
    · simp only [hfull, if_true] at h
      have hnil : ∀ (t : ExecutionBlockImpl σ) (r : Except Error (ExecutionState × Option AqlItemBlock)),
          t.trace = s.trace → t._stats = s._stats →
          (∀ b, r = Except.ok (DONE, b) → t._outputItemRow = none) →
          some (r, t) = some (out, s') →
          ∃ evs, s'.trace = s.trace ++ evs ∧ s'._stats = s._stats + statsOf evs ∧
            onlyProduceRow evs ∧
            (∀ e ∈ evs.dropLast, ∃ k w, e = Event.produceRow HASMORE k w) ∧
            (∀ b, out = Except.ok (DONE, b) → s'._outputItemRow = none) := by
        intro t r h1 h2 h3 heq
        simp only [Option.some.injEq, Prod.mk.injEq] at heq
        obtain ⟨rfl, rfl⟩ := heq
        exact ⟨[], by simp [h1], by simp [h2, statsOf], by simp [onlyProduceRow], by simp, h3⟩
      cases h1 : triAssert cfg (decide (state = HASMORE)) with
      | error e =>
        simp only [h1] at h
        exact hnil { s with _outputItemRow := some o } (Except.error e) rfl rfl
          (by intro b hb; cases hb) h
      | ok u =>
        simp only [h1] at h
        cases h2 : triAssert cfg (decide (o.numRowsWritten = atMost)) with
        | error e =>
          simp only [h2] at h
          exact hnil { s with _outputItemRow := some o } (Except.error e) rfl rfl
            (by intro b hb; cases hb) h
        | ok u2 =>
          simp only [h2] at h
          exact hnil { s with _outputItemRow := none } (Except.ok (state, o.stealBlock))
            rfl rfl (fun _ _ => rfl) h
    · simp only [hfull, Bool.false_eq_true, if_false] at h
      by_cases hw : (ex.produceRow s._executor o).state = WAITING
      · simp only [hw, if_true, Option.some.injEq, Prod.mk.injEq] at h
        obtain ⟨rfl, rfl⟩ := h
        refine ⟨[Event.produceRow WAITING (ex.produceRow s._executor o).stats
          (ex.produceRow s._executor o).written], by simp [hw], by simp [statsOf],
          ?_, by simp, by intro b hb; simp at hb⟩
        intro e he
        simp only [List.mem_singleton] at he
        exact ⟨_, _, _, he⟩
      · by_cases hd : (ex.produceRow s._executor o).state = DONE
        · simp only [hd, if_true, Option.some.injEq, Prod.mk.injEq] at h
          simp only [show (DONE = WAITING) = False by simp, if_false] at h
          obtain ⟨rfl, rfl⟩ := h
          refine ⟨[Event.produceRow DONE (ex.produceRow s._executor o).stats
            (ex.produceRow s._executor o).written], by simp [hd], by simp [statsOf],
            ?_, by simp, fun _ _ => rfl⟩
          intro e he
          simp only [List.mem_singleton] at he
          exact ⟨_, _, _, he⟩
        · simp only [hw, hd, if_false] at h
          have hh : (ex.produceRow s._executor o).state = HASMORE := by
            cases hs : (ex.produceRow s._executor o).state <;> simp_all
          obtain ⟨evs, i1, i2, i3, i4, i5⟩ := ih _ _ _ out s' hh h
          refine ⟨Event.produceRow (ex.produceRow s._executor o).state
              (ex.produceRow s._executor o).stats
              (ex.produceRow s._executor o).written :: evs, by simp [i1], ?_, ?_, ?_, i5⟩
          · rw [i2]
            simp only [statsOf, List.map_cons, List.sum_cons]
            omega
          · intro e he
            rcases List.mem_cons.mp he with rfl | he
            · exact ⟨_, _, _, rfl⟩
            · exact i3 e he
          · intro e he
            cases evs with
            | nil => simp at he
            | cons e2 rest =>
              rw [List.dropLast_cons₂] at he
              rcases List.mem_cons.mp he with rfl | he
              · exact ⟨_, _, by rw [hh]⟩
              · exact i4 e he

theorem onlyRequestOrPrefetch_of_trace {σ : Type} (cfg : Build) (ex : Executor σ)
    (nrItems nrRegs : Nat) (s : ExecutionBlockImpl σ) :
    ∃ evs0, (requestWrappedBlock cfg ex nrItems nrRegs s).2.trace = s.trace ++ evs0 ∧
      onlyRequestOrPrefetch evs0 := by
  rcases requestWrappedBlock_trace cfg ex nrItems nrRegs s with h | h | ⟨st, h⟩
  · exact ⟨[], by simp [h], by simp [onlyRequestOrPrefetch]⟩
  · refine ⟨_, h, ?_⟩
    intro e he
    simp only [List.mem_singleton] at he
    exact Or.inl ⟨_, _, he⟩
  · refine ⟨_, h, ?_⟩
    intro e he
    simp only [List.mem_cons, List.mem_singleton, List.not_mem_nil, or_false] at he
    rcases he with he | he
    · exact Or.inl ⟨_, _, he⟩
    · exact Or.inr ⟨_, he⟩

theorem getSomeWithoutTrace_trace {σ : Type} (cfg : Build) (ex : Executor σ)
    (fuel atMost : Nat) (s s' : ExecutionBlockImpl σ)
    (out : Except Error (ExecutionState × Option AqlItemBlock))
    (h : getSomeWithoutTrace cfg ex fuel atMost s = some (out, s')) :
    GetSomeTracePost s s' out := by
  unfold getSomeWithoutTrace at h
  have herr : ∀ (e : Error), some (Except.error e, s) = some (out, s') →
      GetSomeTracePost s s' out := by
    intro e heq
    simp only [Option.some.injEq, Prod.mk.injEq] at heq
    obtain ⟨rfl, rfl⟩ := heq
    refine ⟨[], [], ?_, ?_, ?_, ?_, ?_, ?_, ?_⟩
    · simp
    · simp [onlyRequestOrPrefetch]
    · simp [onlyProduceRow]
    · simp [statsOf]
    · simp
    · intro b hb; cases hb
    · exact fun _ => rfl
  by_cases hf1 : triIfFailure cfg "ExecutionBlock::getOrSkipSome1" = true
  · rw [if_pos hf1] at h; exact herr _ h
  rw [if_neg hf1] at h
  by_cases hf2 : triIfFailure cfg "ExecutionBlock::getOrSkipSome2" = true
  · rw [if_pos hf2] at h; exact herr _ h
  rw [if_neg hf2] at h
  by_cases hf3 : triIfFailure cfg "ExecutionBlock::getOrSkipSome3" = true
  · rw [if_pos hf3] at h; exact herr _ h
  rw [if_neg hf3] at h
  cases ho : s._outputItemRow with
  | some o =>
    simp only [ho] at h
    cases ha : triAssert cfg (decide (0 < atMost)) with
    | error e => simp only [ha] at h; exact herr _ h
    | ok u =>
      simp only [ha] at h
      obtain ⟨evs, i1, i2, i3, i4, i5⟩ := produceLoop_trace cfg ex atMost fuel s o HASMORE
        out s' rfl h
      refine ⟨[], evs, ?_, ?_, i3, i2, i4, i5, fun _ => rfl⟩
      · simp [i1]
      · simp [onlyRequestOrPrefetch]
  | none =>
    simp only [ho] at h
    obtain ⟨q1, q2, -⟩ := requestWrappedBlock_spec cfg ex atMost ex.numberOfOutputRegisters s
    obtain ⟨evs0, q3, q4⟩ :=
      onlyRequestOrPrefetch_of_trace cfg ex atMost ex.numberOfOutputRegisters s
    generalize requestWrappedBlock cfg ex atMost ex.numberOfOutputRegisters s = rw at h q1 q2 q3
    obtain ⟨res, s1⟩ := rw
    simp only [] at q1 q2 q3
    have hfin : ∀ (t : ExecutionBlockImpl σ)
        (r : Except Error (ExecutionState × Option AqlItemBlock)),
        t.trace = s1.trace → t._stats = s1._stats →
        (∀ b, r = Except.ok (DONE, b) → t._outputItemRow = none) →
        some (r, t) = some (out, s') → GetSomeTracePost s s' out := by
      intro t r h1 h2 h3 heq
      simp only [Option.some.injEq, Prod.mk.injEq] at heq
      obtain ⟨rfl, rfl⟩ := heq
      refine ⟨evs0, [], ?_, q4, ?_, ?_, ?_, h3, fun hne => absurd ho hne⟩
      · simp [h1, q3]
      · simp [onlyProduceRow]
      · simp [h2, q2, statsOf]
      · simp
    have hclosed : s1._outputItemRow = none := by rw [q1, ho]
    cases res with
    | error e =>
      simp only [] at h
      exact hfin s1 (Except.error e) rfl rfl (by intro b hb; cases hb) h
    | ok sb =>
      obtain ⟨state, newBlock⟩ := sb
      simp only [] at h
      by_cases hs : state = HASMORE
      · subst hs
        simp only [ne_eq, not_true_eq_false, if_false] at h
        cases newBlock with
        | none =>
          simp only [] at h
          by_cases hmm : cfg.maintainerMode = true
          · simp only [hmm, if_true] at h
            exact hfin s1 (Except.error Error.assertion) rfl rfl (by intro b hb; cases hb) h
          · simp only [hmm, Bool.false_eq_true, if_false] at h
            exact hfin s1 (Except.error Error.undefinedBehaviour) rfl rfl
              (by intro b hb; cases hb) h
        | some b0 =>
          simp only [] at h
          cases ha : triAssert cfg (decide (0 < atMost)) with
          | error e =>
            simp only [ha] at h
            exact hfin { s1 with _outputItemRow := some (OutputAqlItemRow.create b0) }
              (Except.error e) rfl rfl (by intro b hb; cases hb) h
          | ok u =>
            simp only [ha] at h
            obtain ⟨evs, i1, i2, i3, i4, i5⟩ := produceLoop_trace cfg ex atMost fuel s1 _
              HASMORE out s' rfl h
            refine ⟨evs0, evs, ?_, q4, i3, ?_, i4, i5, fun hne => absurd ho hne⟩
            · rw [i1, q3, List.append_assoc]
            · rw [i2, q2]
      · simp only [ne_eq, hs, not_false_eq_true, if_true] at h
        cases ha : triAssert cfg newBlock.isNone with
        | error e =>
          simp only [ha] at h
          exact hfin s1 (Except.error e) rfl rfl (by intro b hb; cases hb) h
        | ok u =>
          simp only [ha] at h
          exact hfin s1 (Except.ok (state, none)) rfl rfl (fun _ _ => hclosed) h

/-- C17 (statistics aggregation): after any `getSome` call, whatever it
returns, the engine-wide statistics are their value before the call plus the
sum of the statistics records of the `produceRow` calls made in the call,
those that returned WAITING or DONE included; each record counts once. -/
theorem C17_statistics_aggregation {σ : Type} (cfg : Build) (ex : Executor σ)
    (fuel atMost : Nat) (s s' : ExecutionBlockImpl σ)
    (out : Except Error (ExecutionState × Option AqlItemBlock))
    (h : getSome cfg ex fuel atMost s = some (out, s')) :
    s'._stats = s._stats + statsOf (s'.trace.drop s.trace.length) := by
  obtain ⟨evs0, evs, h1, h2, _, h4, _⟩ := getSomeWithoutTrace_trace cfg ex fuel atMost s s' out h
  have hz : statsOf evs0 = 0 := by
    unfold statsOf
    apply List.sum_eq_zero
    intro x hx
    simp only [List.mem_map] at hx
    obtain ⟨e, he, rfl⟩ := hx
    rcases h2 e he with ⟨n, r, rfl⟩ | ⟨st, rfl⟩ <;> rfl
  rw [h1, List.drop_left' rfl, statsOf_append, hz, h4, Nat.zero_add]

/-- Statistics aggregation on the suspension example: the first pull calls
`produceRow` twice (a row, then WAITING), each call reporting 1. -/
theorem C17_statistics_aggregation_witness :
    ∃ s', getSome releaseBuild (scriptedExecutor false 1) 10 5
        (ExecutionBlockImpl.create suspendingScript freshManager) =
          some (Except.ok (WAITING, none), s') ∧
      s'._stats = 0 + 2 ∧
      s'._stats = (ExecutionBlockImpl.create suspendingScript freshManager)._stats +
        statsOf (s'.trace.drop
          (ExecutionBlockImpl.create suspendingScript freshManager).trace.length) :=
  ⟨_, rfl, rfl, C17_statistics_aggregation releaseBuild (scriptedExecutor false 1) 10 5
    (ExecutionBlockImpl.create suspendingScript freshManager) _ _ rfl⟩

theorem requestBlock_shape (m m' : AqlItemBlockManager) (nrItems nrRegs : Nat)
    (b : AqlItemBlock) (h : m.requestBlock nrItems nrRegs = Except.ok (b, m')) :
    b.size = nrItems ∧ b.nrRegs = nrRegs ∧ m'.memoryUsed = m.memoryUsed + nrItems * nrRegs ∧
    m'.returned = m.returned := by
  unfold AqlItemBlockManager.requestBlock at h
  cases hl : m.memoryLimit with
  | none =>
    simp only [hl, Except.ok.injEq, Prod.mk.injEq] at h
    obtain ⟨rfl, rfl⟩ := h
    simp [AqlItemBlock.size]
  | some limit =>
    simp only [hl] at h
    by_cases hlt : limit < m.memoryUsed + nrItems * nrRegs
    · simp [hlt] at h
    · simp only [hlt, if_false, Except.ok.injEq, Prod.mk.injEq] at h
      obtain ⟨rfl, rfl⟩ := h
      simp [AqlItemBlock.size]

/-- Opening an output batch for an executor that is not pass-through-eligible:
the requested batch becomes the output batch. -/
theorem requestWrappedBlock_fresh {σ : Type} (cfg : Build) (ex : Executor σ)
    (nrItems nrRegs : Nat) (s : ExecutionBlockImpl σ) (b : AqlItemBlock)
    (m : AqlItemBlockManager) (hp : ex.allowsBlockPassthrough = false)
    (hreq : s.itemBlockManager.requestBlock nrItems nrRegs = Except.ok (b, m)) :
    requestWrappedBlock cfg ex nrItems nrRegs s =
      (Except.ok (HASMORE, some b),
        { s with itemBlockManager := m
                 trace := s.trace ++ [Event.requestBlock nrItems nrRegs] }) := by
  simp [requestWrappedBlock, hreq, hp]

theorem triAssert_ok (cfg : Build) (c : Bool) (h : cfg.maintainerMode = true → c = true) :
    triAssert cfg c = Except.ok () := by
  unfold triAssert
  by_cases hm : cfg.maintainerMode = true
  · simp [hm, h hm]
  · simp [hm]

/-- A call on a block without open output batch, once the batch `b` is opened:
the rest of the call is the loop on the new cursor. -/
theorem getSome_closed_eq {σ : Type} (cfg : Build) (ex : Executor σ) (fuel atMost : Nat)
    (s s1 : ExecutionBlockImpl σ) (b : AqlItemBlock) (hnf : noFailurePoint cfg)
    (ho : s._outputItemRow = none)
    (hrw : requestWrappedBlock cfg ex atMost ex.numberOfOutputRegisters s =
      (Except.ok (HASMORE, some b), s1))
    (hat : cfg.maintainerMode = true → 0 < atMost) :
    getSome cfg ex fuel atMost s =
      produceLoop cfg ex atMost fuel s1 (OutputAqlItemRow.create b) HASMORE := by
  obtain ⟨h1, h2, h3⟩ := hnf
  have ha : triAssert cfg (decide (0 < atMost)) = Except.ok () :=
    triAssert_ok cfg _ (fun hm => by simpa using hat hm)
  simp [getSome, getSomeWithoutTrace, h1, h2, h3, ho, hrw, ha]

/-- One round of the loop that ends the call: `produceRow` answers WAITING or
DONE. -/
theorem produceLoop_one_round {σ : Type} (cfg : Build) (ex : Executor σ) (atMost fuel : Nat)
    (s : ExecutionBlockImpl σ) (o : OutputAqlItemRow) (hfull : o.isFull = false)
    (hst : (ex.produceRow s._executor o).state ≠ HASMORE) :
    ∃ out s', produceLoop cfg ex atMost (fuel + 1) s o HASMORE = some (out, s') ∧
      s'.trace = s.trace ++ [Event.produceRow (ex.produceRow s._executor o).state
        (ex.produceRow s._executor o).stats (ex.produceRow s._executor o).written] := by
  unfold produceLoop
  simp only [hfull, Bool.false_eq_true, if_false]
  by_cases hw : (ex.produceRow s._executor o).state = WAITING
  · simp only [hw, if_true]
    exact ⟨_, _, rfl, rfl⟩
  · have hd : (ex.produceRow s._executor o).state = DONE := by
      cases hs : (ex.produceRow s._executor o).state <;> simp_all
    simp only [hd, show (DONE = WAITING) = False by simp, if_false, if_true]
    exact ⟨_, _, rfl, rfl⟩

theorem create_not_full (b : AqlItemBlock) (h : 0 < b.size) :
    (OutputAqlItemRow.create b).isFull = false := by
  simp [OutputAqlItemRow.isFull, OutputAqlItemRow.create, OutputAqlItemRow.numRowsWritten]
  omega

theorem skipSome_trace {σ : Type} (cfg : Build) (ex : Executor σ) (fuel atMost : Nat)
    (s s1 : ExecutionBlockImpl σ) (out : Except Error (ExecutionState × Option AqlItemBlock))
    (h : getSomeWithoutTrace cfg ex fuel atMost s = some (out, s1)) :
    ∃ out2 s2 evs, skipSome cfg ex fuel atMost s = some (out2, s2) ∧
      s2.trace = s1.trace ++ evs := by
  unfold skipSome
  rw [h]
  cases out with
  | error e => exact ⟨_, _, [], rfl, by simp⟩
  | ok r =>
    obtain ⟨st, b⟩ := r
    cases b with
    | none => exact ⟨_, _, [], rfl, by simp⟩
    | some blk => exact ⟨_, _, [Event.returnBlock blk], rfl, rfl⟩

/-- The run that refutes C16 as stated: the first pull ends with a
`produceRow` that returned DONE, and the second pull, in the same generation,
calls `produceRow` again. -/
theorem C16_produceRow_called_after_done :
    (getSomeMany releaseBuild (scriptedExecutor false 1) [(10, 5), (10, 5)]
        (ExecutionBlockImpl.create ([(DONE, some [some 1])], []) freshManager)).map
        (fun r => (r.1, r.2.trace)) =
      some ([Except.ok (DONE, some ⟨1, [[some 1]]⟩), Except.ok (DONE, none)],
        [Event.requestBlock 5 1, Event.produceRow DONE 1 (some [some 1]),
          Event.requestBlock 5 1, Event.produceRow DONE 0 none]) := by
  rfl

/-- The block keeps no record that `produceRow` returned DONE.  Within one
`getSome` call `produceRow` is not called again after it returned DONE (a
`produceRow` that returned DONE is the last event of the call), and the call
leaves no output cursor open; but a later `getSome` or `skipSome` call of a
block that is not pass-through-eligible opens a batch and calls `produceRow`
again, and returns when that call answers WAITING or DONE. -/
theorem getSome_after_done {σ : Type} (cfg : Build) (ex : Executor σ)
    (fuel atMost : Nat) (s s' : ExecutionBlockImpl σ) (b1 : Option AqlItemBlock)
    (h : getSome cfg ex fuel atMost s = some (Except.ok (DONE, b1), s')) :
    (∀ e ∈ (s'.trace.drop s.trace.length).dropLast, ∀ k w, e ≠ Event.produceRow DONE k w) ∧
    s'._outputItemRow = none ∧
    (∀ (fuel2 atMost2 : Nat) (b : AqlItemBlock) (m : AqlItemBlockManager),
      noFailurePoint cfg → ex.allowsBlockPassthrough = false → 0 < atMost2 →
      s'.itemBlockManager.requestBlock atMost2 ex.numberOfOutputRegisters = Except.ok (b, m) →
      (ex.produceRow s'._executor (OutputAqlItemRow.create b)).state ≠ HASMORE →
      (∃ out2 s2 st k w, getSome cfg ex (fuel2 + 1) atMost2 s' = some (out2, s2) ∧
        Event.produceRow st k w ∈ s2.trace.drop s'.trace.length) ∧
      (∃ out3 s3 st k w, skipSome cfg ex (fuel2 + 1) atMost2 s' = some (out3, s3) ∧
        Event.produceRow st k w ∈ s3.trace.drop s'.trace.length)) := by
  obtain ⟨evs0, evs, h1, h2, _, _, h5, h6, _⟩ :=
    getSomeWithoutTrace_trace cfg ex fuel atMost s s' _ h
  have hclosed : s'._outputItemRow = none := h6 b1 rfl
  refine ⟨?_, hclosed, ?_⟩
  · rw [h1, List.drop_left' rfl]
    intro e he k w heq
    subst heq
    by_cases hnil : evs = []
    · subst hnil
      rw [List.append_nil] at he
      rcases h2 _ (List.mem_of_mem_dropLast he) with ⟨n, r, hh⟩ | ⟨st, hh⟩ <;> cases hh
    · rw [List.dropLast_append_of_ne_nil _ hnil] at he
      rcases List.mem_append.mp he with he | he
      · rcases h2 _ he with ⟨n, r, hh⟩ | ⟨st, hh⟩ <;> cases hh
      · obtain ⟨k2, w2, hh⟩ := h5 _ he
        cases hh
  · intro fuel2 atMost2 b m hnf hp hat hreq hst
    obtain ⟨hsz, _⟩ := requestBlock_shape _ _ _ _ _ hreq
    have hrw := requestWrappedBlock_fresh cfg ex atMost2 ex.numberOfOutputRegisters s' b m hp hreq
    have heq := getSome_closed_eq cfg ex (fuel2 + 1) atMost2 s' _ b hnf hclosed hrw (fun _ => hat)
    obtain ⟨out2, s2, hrun, htr⟩ := produceLoop_one_round cfg ex atMost2 fuel2
      { s' with itemBlockManager := m
                trace := s'.trace ++ [Event.requestBlock atMost2 ex.numberOfOutputRegisters] }
      (OutputAqlItemRow.create b) (create_not_full b (by omega)) hst
    rw [← heq] at hrun
    have hmem : Event.produceRow
        (ex.produceRow s'._executor (OutputAqlItemRow.create b)).state
        (ex.produceRow s'._executor (OutputAqlItemRow.create b)).stats
        (ex.produceRow s'._executor (OutputAqlItemRow.create b)).written ∈
          s2.trace.drop s'.trace.length := by
      rw [htr]
      simp
    refine ⟨⟨out2, s2, _, _, _, hrun, hmem⟩, ?_⟩
    obtain ⟨out3, s3, evs3, hskip, htr3⟩ := skipSome_trace cfg ex (fuel2 + 1) atMost2 s' s2 out2 hrun
    have hmem3 : Event.produceRow
        (ex.produceRow s'._executor (OutputAqlItemRow.create b)).state
        (ex.produceRow s'._executor (OutputAqlItemRow.create b)).stats
        (ex.produceRow s'._executor (OutputAqlItemRow.create b)).written ∈
          s3.trace.drop s'.trace.length := by
      rw [htr3, htr]
      simp
    exact ⟨out3, s3, _, _, _, hskip, hmem3⟩

/-- C11, the code at the failing input: a pass-through block is pulled with
`atMost = 1000` while upstream delivers a batch of 3 rows with HASMORE.  The
loop ends because the relabelled batch is full after 3 rows; the build that
checks assertions fails on `numRowsWritten() == atMost`, the build that does
not returns the batch of 3 rows with HASMORE and closes the cursor. -/
theorem C11_full_batch_assertion_fails :
    (getSome maintainerBuild (identityExecutor 1) 10 1000 passThroughExample).map
        (fun r => (r.1, r.2._outputItemRow.map OutputAqlItemRow.numRowsWritten)) =
      some (Except.error Error.assertion, some 3) ∧
    (getSome releaseBuild (identityExecutor 1) 10 1000 passThroughExample).map
        (fun r => (r.1, r.2._outputItemRow)) =
      some (Except.ok (HASMORE, some (buildBlock [7, 8, 9])), none) := by
  constructor <;> rfl

/-- C15, the code at the failing input: `requestWrappedBlock(1000, 1)` for a
pass-through-eligible executor.  The batch handed out is the upstream batch
{7,8,9}, yet a batch of 1000 rows was requested from the batch manager and
charged to the budget, and it is never used nor returned; with a budget of 100
cells the call even fails for lack of memory. -/
theorem C15_passthrough_requests_batch :
    (requestWrappedBlock releaseBuild (identityExecutor 1) 1000 1 passThroughExample).1 =
      Except.ok (HASMORE, some (buildBlock [7, 8, 9])) ∧
    (requestWrappedBlock releaseBuild (identityExecutor 1) 1000 1
        passThroughExample).2.trace =
      [Event.requestBlock 1000 1, Event.prefetchBlock HASMORE] ∧
    (requestWrappedBlock releaseBuild (identityExecutor 1) 1000 1
        passThroughExample).2.itemBlockManager = ⟨none, 1000, []⟩ ∧
    (requestWrappedBlock releaseBuild (identityExecutor 1) 1000 1
        (ExecutionBlockImpl.create passThroughExample._executor ⟨some 100, 0, []⟩)).1 =
      Except.error Error.outOfMemory := by
  refine ⟨rfl, rfl, rfl, rfl⟩

/-- C19, the code at the failing input: a pull writes row 1 and suspends, then
`initializeCursor` is called.  Both variants of `initializeCursor` leave the
output cursor as it is and return nothing to the batch manager, whatever the
state; in the example the cursor is still open with row 1 committed, and the
first pull of the new generation returns a batch that starts with that row. -/
theorem C19_initializeCursor_keeps_open_batch :
    (∀ {σ : Type} (ex : Executor σ) (rb : Rebuild σ) (items : Option AqlItemBlock) (pos : Nat)
        (s : ExecutionBlockImpl σ),
      (initializeCursor rb items pos s).2._outputItemRow = s._outputItemRow ∧
      (initializeCursor rb items pos s).2.itemBlockManager = s.itemBlockManager ∧
      (initializeCursorId ex rb items pos s).2._outputItemRow = s._outputItemRow ∧
      (initializeCursorId ex rb items pos s).2.itemBlockManager.returned =
        s.itemBlockManager.returned) ∧
    ((getSome releaseBuild (scriptedExecutor false 1) 10 5
        (ExecutionBlockImpl.create suspendingScript freshManager)).map
      (fun r =>
        let t := (initializeCursor (scriptedRebuild [(DONE, some [some 9])]) none 0 r.2).2
        (r.1, t._outputItemRow.map OutputAqlItemRow.committedRows,
          t.itemBlockManager.returned,
          (getSome releaseBuild (scriptedExecutor false 1) 10 5 t).map (fun q => q.1)))) =
      some (Except.ok (WAITING, none), some [[some 1]], [],
        some (Except.ok (DONE, some ⟨1, [[some 1], [some 9]]⟩))) := by
  refine ⟨?_, rfl⟩
  intro σ ex rb items pos s
  refine ⟨rfl, rfl, ?_, ?_⟩
  · unfold initializeCursorId
    cases items with
    | some b => rfl
    | none =>
      simp only []
      cases hreq : s.itemBlockManager.requestBlock 1 ex.numberOfOutputRegisters with
      | error e => rfl
      | ok bm => rfl
  · unfold initializeCursorId
    cases items with
    | some b => rfl
    | none =>
      simp only []
      cases hreq : s.itemBlockManager.requestBlock 1 ex.numberOfOutputRegisters with
      | error e => rfl
      | ok bm =>
        obtain ⟨b, m⟩ := bm
        exact (requestBlock_shape _ _ _ _ _ hreq).2.2.2

/-- The answer that refutes C20 as stated: upstream delivers its last batch
together with DONE, and both `fetchBlock` and `fetchBlockOfDependency` return
DONE with that batch, not with null. -/
theorem C20_done_with_batch :
    (BlockFetcher.fetchBlock ⟨[[(DONE, some (buildBlock [42]))]], [0], 0⟩).map
        (fun r => r.1) = some (DONE, some ⟨buildBlock [42], [0]⟩) ∧
    (BlockFetcher.fetchBlockOfDependency ⟨[[(DONE, some (buildBlock [42]))]], [0], 0⟩ 0).map
        (fun r => r.1) = some (DONE, some ⟨buildBlock [42], [0]⟩) := by
  constructor <;> rfl

theorem fetchBlock_eq (bf : BlockFetcher) (dep : Dependency) (rest : List Dependency)
    (h0 : bf._dependencies = dep :: rest) :
    bf.fetchBlock =
      some (((Dependency.getSome dep).1.1,
              (Dependency.getSome dep).1.2.map (fun b => ⟨b, bf._inputRegisters⟩)),
            { bf with _dependencies := (Dependency.getSome dep).2 :: rest
                      numFetchBlockCalls := bf.numFetchBlockCalls + 1 }) := by
  unfold BlockFetcher.fetchBlock
  rw [h0]
  cases h2 : (Dependency.getSome dep).1.2 <;> simp [h2]

/-- C20, amended: `fetchBlock` and `fetchBlockOfDependency` hand on the answer
of the upstream block: the state is the upstream state, and the batch is null
exactly when the upstream batch is null, otherwise it is that batch in its
shell.  So the batch is null with WAITING and not null with HASMORE whenever
the upstream answer is so, and DONE comes with the last batch or with null. -/
theorem C20_fetch_hands_on_upstream_answer (bf : BlockFetcher) (i : Nat)
    (dep dep0 : Dependency) (rest : List Dependency)
    (hd : bf._dependencies[i]? = some dep) (h0 : bf._dependencies = dep0 :: rest) :
    (∃ sh bf', bf.fetchBlockOfDependency i = some (((Dependency.getSome dep).1.1, sh), bf') ∧
      (sh = none ↔ (Dependency.getSome dep).1.2 = none) ∧
      sh = (Dependency.getSome dep).1.2.map (fun b => ⟨b, bf._inputRegisters⟩)) ∧
    (∃ sh bf', bf.fetchBlock = some (((Dependency.getSome dep0).1.1, sh), bf') ∧
      (sh = none ↔ (Dependency.getSome dep0).1.2 = none) ∧
      sh = (Dependency.getSome dep0).1.2.map (fun b => ⟨b, bf._inputRegisters⟩)) := by
  constructor
  · refine ⟨_, _, fetchBlockOfDependency_eq bf i dep hd, ?_, rfl⟩
    cases (Dependency.getSome dep).1.2 <;> simp
  · refine ⟨_, _, fetchBlock_eq bf dep0 rest h0, ?_, rfl⟩
    cases (Dependency.getSome dep0).1.2 <;> simp

/-- The amended C20 on a fetcher with two dependencies: the second, asked by
index, answers HASMORE with a batch; the first, asked by `fetchBlock`, answers
DONE with a batch. -/
theorem C20_fetch_hands_on_upstream_answer_witness :
    (∃ sh bf', BlockFetcher.fetchBlockOfDependency
        ⟨[[(DONE, some (buildBlock [42]))], [(HASMORE, some (buildBlock [1, 2]))]], [0], 0⟩ 1 =
          some ((HASMORE, sh), bf') ∧
      (sh = none ↔ (some (buildBlock [1, 2]) : Option AqlItemBlock) = none) ∧
      sh = some ⟨buildBlock [1, 2], [0]⟩) ∧
    (∃ sh bf', BlockFetcher.fetchBlock
        ⟨[[(DONE, some (buildBlock [42]))], [(HASMORE, some (buildBlock [1, 2]))]], [0], 0⟩ =
          some ((DONE, sh), bf') ∧
      (sh = none ↔ (some (buildBlock [42]) : Option AqlItemBlock) = none) ∧
      sh = some ⟨buildBlock [42], [0]⟩) :=
  C20_fetch_hands_on_upstream_answer
    ⟨[[(DONE, some (buildBlock [42]))], [(HASMORE, some (buildBlock [1, 2]))]], [0], 0⟩ 1
    [(HASMORE, some (buildBlock [1, 2]))] [(DONE, some (buildBlock [42]))]
    [[(HASMORE, some (buildBlock [1, 2]))]] rfl rfl

/-- The pulls that refute C12 as stated.  In the build that checks
assertions, `getSome(0)` fails only after the batch was requested from the
batch manager, and for a pass-through block also after the prefetch from
upstream; in the build that does not, `getSome(0)` is not rejected: it returns
HASMORE with a null batch. -/
theorem C12_zero_rejected_late_or_not_at_all :
    (getSome maintainerBuild (scriptedExecutor false 1) 10 0
        (ExecutionBlockImpl.create suspendingScript freshManager)).map
        (fun r => (r.1, r.2.trace)) =
      some (Except.error Error.assertion, [Event.requestBlock 0 1]) ∧
    (getSome maintainerBuild (identityExecutor 1) 10 0 passThroughExample).map
        (fun r => (r.1, r.2.trace, r.2._executor.1)) =
      some (Except.error Error.assertion,
        [Event.requestBlock 0 1, Event.prefetchBlock HASMORE],
        [(DONE, some (buildBlock [10]))]) ∧
    (getSome releaseBuild (scriptedExecutor false 1) 10 0
        (ExecutionBlockImpl.create suspendingScript freshManager)).map
        (fun r => (r.1, r.2.trace)) =
      some (Except.ok (HASMORE, none), [Event.requestBlock 0 1]) := by
  refine ⟨rfl, rfl, rfl⟩

/-- A pull with `atMost = 0` in a build that checks assertions always ends
without calling `produceRow` and without returning a batch; it fails on
`TRI_ASSERT(atMost > 0)` when an output batch is open, and when none is open
only after the batch has been requested from the batch manager (the request
is in the trace); the only results that are not failures are the WAITING and
DONE of a pass-through prefetch, which come before the check. -/
theorem getSome_zero_maintainer {σ : Type} (cfg : Build) (ex : Executor σ)
    (fuel : Nat) (s : ExecutionBlockImpl σ) (hm : cfg.maintainerMode = true) :
    ∃ out s' evs, getSome cfg ex fuel 0 s = some (out, s') ∧
      s'.trace = s.trace ++ evs ∧ onlyRequestOrPrefetch evs ∧ s'._stats = s._stats ∧
      (∀ st b, out = Except.ok (st, b) → b = none ∧ st ≠ HASMORE) ∧
      (noFailurePoint cfg → s._outputItemRow ≠ none →
        out = Except.error Error.assertion ∧ evs = []) ∧
      (noFailurePoint cfg → s._outputItemRow = none → ex.allowsBlockPassthrough = false →
        (∃ bm, s.itemBlockManager.requestBlock 0 ex.numberOfOutputRegisters = Except.ok bm) →
        out = Except.error Error.assertion ∧
        evs = [Event.requestBlock 0 ex.numberOfOutputRegisters]) := by
  have hassert : triAssert cfg (decide (0 < 0)) = Except.error Error.assertion := by
    simp [triAssert, hm]
  have hnil : onlyRequestOrPrefetch [] := by simp [onlyRequestOrPrefetch]
  unfold getSome getSomeWithoutTrace
  by_cases hf1 : triIfFailure cfg "ExecutionBlock::getOrSkipSome1" = true
  · rw [if_pos hf1]
    refine ⟨_, _, [], rfl, by simp, hnil, rfl, (by intro st b hb; cases hb), ?_, ?_⟩
    · intro hnf; rw [hnf.1] at hf1; cases hf1
    · intro hnf; rw [hnf.1] at hf1; cases hf1
  rw [if_neg hf1]
  by_cases hf2 : triIfFailure cfg "ExecutionBlock::getOrSkipSome2" = true
  · rw [if_pos hf2]
    refine ⟨_, _, [], rfl, by simp, hnil, rfl, (by intro st b hb; cases hb), ?_, ?_⟩
    · intro hnf; rw [hnf.2.1] at hf2; cases hf2
    · intro hnf; rw [hnf.2.1] at hf2; cases hf2
  rw [if_neg hf2]
  by_cases hf3 : triIfFailure cfg "ExecutionBlock::getOrSkipSome3" = true
  · rw [if_pos hf3]
    refine ⟨_, _, [], rfl, by simp, hnil, rfl, (by intro st b hb; cases hb), ?_, ?_⟩
    · intro hnf; rw [hnf.2.2] at hf3; cases hf3
    · intro hnf; rw [hnf.2.2] at hf3; cases hf3
  rw [if_neg hf3]
  cases ho : s._outputItemRow with
  | some o =>
    simp only [hassert]
    refine ⟨_, _, [], rfl, by simp, hnil, rfl, (by intro st b hb; cases hb), ?_, ?_⟩
    · intro _ _; exact ⟨rfl, rfl⟩
    · intro _ h; cases h
  | none =>
    simp only []
    obtain ⟨_, q2, -⟩ := requestWrappedBlock_spec cfg ex 0 ex.numberOfOutputRegisters s
    obtain ⟨evs0, q3, q4⟩ := onlyRequestOrPrefetch_of_trace cfg ex 0 ex.numberOfOutputRegisters s
    have hfresh : ex.allowsBlockPassthrough = false →
        (∃ bm, s.itemBlockManager.requestBlock 0 ex.numberOfOutputRegisters = Except.ok bm) →
        ∃ b t, requestWrappedBlock cfg ex 0 ex.numberOfOutputRegisters s =
          (Except.ok (HASMORE, some b), t) ∧
          t.trace = s.trace ++ [Event.requestBlock 0 ex.numberOfOutputRegisters] := by
      rintro hp ⟨⟨b, m⟩, hreq⟩
      exact ⟨b, _, requestWrappedBlock_fresh cfg ex 0 _ s b m hp hreq, rfl⟩
    generalize requestWrappedBlock cfg ex 0 ex.numberOfOutputRegisters s = rw at q2 q3 hfresh
    obtain ⟨res, s1⟩ := rw
    simp only [] at q2 q3
    cases res with
    | error e =>
      refine ⟨_, _, evs0, rfl, q3, q4, q2, (by intro st b hb; cases hb), ?_, ?_⟩
      · intro _ h; simp at h
      · intro _ _ hp hreq
        obtain ⟨b, t, heq, _⟩ := hfresh hp hreq
        simp only [Prod.mk.injEq] at heq
        cases heq.1
    | ok sb =>
      obtain ⟨state, newBlock⟩ := sb
      simp only []
      by_cases hs : state = HASMORE
      · subst hs
        simp only [ne_eq, not_true_eq_false, if_false]
        cases newBlock with
        | none =>
          simp only [hm, if_true]
          refine ⟨_, _, evs0, rfl, q3, q4, q2, (by intro st b hb; cases hb), ?_, ?_⟩
          · intro _ h; simp at h
          · intro _ _ hp hreq
            obtain ⟨b, t, heq, _⟩ := hfresh hp hreq
            simp only [Prod.mk.injEq, Except.ok.injEq] at heq
            cases heq.1.2
        | some b0 =>
          simp only [hassert]
          refine ⟨_, _, evs0, rfl, q3, q4, q2, (by intro st b hb; cases hb), ?_, ?_⟩
          · intro _ h; simp at h
          · intro _ _ hp hreq
            obtain ⟨b, t, heq, htr⟩ := hfresh hp hreq
            simp only [Prod.mk.injEq] at heq
            refine ⟨rfl, ?_⟩
            rw [← heq.2, q3] at htr
            exact List.append_cancel_left htr
      · simp only [ne_eq, hs, not_false_eq_true, if_true]
        have hcontra : ∀ (P : Prop), noFailurePoint cfg → s._outputItemRow = none →
            ex.allowsBlockPassthrough = false →
            (∃ bm, s.itemBlockManager.requestBlock 0 ex.numberOfOutputRegisters
              = Except.ok bm) → P := by
          intro P _ _ hp hreq
          obtain ⟨b, t, heq, _⟩ := hfresh hp hreq
          simp only [Prod.mk.injEq, Except.ok.injEq] at heq
          exact absurd heq.1.1 hs
        cases ha : triAssert cfg newBlock.isNone with
        | error e =>
          refine ⟨_, _, evs0, rfl, q3, q4, q2, (by intro st b hb; cases hb), ?_, ?_⟩
          · intro _ h; simp at h
          · exact fun hnf _ hp hreq => hcontra _ hnf ho hp hreq
        | ok u =>
          refine ⟨_, _, evs0, rfl, q3, q4, q2, ?_, ?_, ?_⟩
          · intro st b hb
            simp only [Except.ok.injEq, Prod.mk.injEq] at hb
            exact ⟨hb.2.symm, hb.1 ▸ hs⟩
          · intro _ h; simp at h
          · exact fun hnf _ hp hreq => hcontra _ hnf ho hp hreq

/-- C13: for a pass-through-eligible executor with no output batch open and an
empty pass-through queue, when `prefetchBlock` reports WAITING or DONE,
`getSome` returns that state with a null batch; no output cursor is opened,
the queue stays empty, and `produceRow` is not called: the call adds the
batch request and the prefetch to the trace and nothing else. -/
theorem C13_prefetch_waiting_or_done {σ : Type} (cfg : Build) (ex : Executor σ)
    (fuel atMost : Nat) (s : ExecutionBlockImpl σ) (blk : AqlItemBlock)
    (m : AqlItemBlockManager) (st : ExecutionState)
    (hnf : noFailurePoint cfg) (hp : ex.allowsBlockPassthrough = true)
    (ho : s._outputItemRow = none) (hq : s._passThroughBlocks = [])
    (hreq : s.itemBlockManager.requestBlock atMost ex.numberOfOutputRegisters =
      Except.ok (blk, m))
    (hpre : (prefetchBlock ex
      { s with itemBlockManager := m
               trace := s.trace ++ [Event.requestBlock atMost ex.numberOfOutputRegisters] }).1
        = st)
    (hst : st = WAITING ∨ st = DONE) :
    ∃ s', getSome cfg ex fuel atMost s = some (Except.ok (st, none), s') ∧
      s'._outputItemRow = none ∧ s'._passThroughBlocks = [] ∧ s'._stats = s._stats ∧
      s'.trace = s.trace ++
        [Event.requestBlock atMost ex.numberOfOutputRegisters, Event.prefetchBlock st] := by
  obtain ⟨h1, h2, h3⟩ := hnf
  obtain ⟨p1, p2, _, p4⟩ := prefetchBlock_spec ex
    { s with itemBlockManager := m
             trace := s.trace ++ [Event.requestBlock atMost ex.numberOfOutputRegisters] }
  obtain ⟨_, p5⟩ := prefetchBlock_eq ex
    { s with itemBlockManager := m
             trace := s.trace ++ [Event.requestBlock atMost ex.numberOfOutputRegisters] }
  rw [hpre] at p1 p5
  have hne : st ≠ HASMORE := by rcases hst with rfl | rfl <;> simp
  have hrw : requestWrappedBlock cfg ex atMost ex.numberOfOutputRegisters s =
      (Except.ok (st, none), (prefetchBlock ex
        { s with itemBlockManager := m
                 trace := s.trace ++
                   [Event.requestBlock atMost ex.numberOfOutputRegisters] }).2) := by
    have hemp : s._passThroughBlocks.isEmpty = true := by rw [hq]; rfl
    unfold requestWrappedBlock
    rw [hreq]
    simp only [hp, hemp, if_true, hpre, hst]
  have hta : triAssert cfg true = Except.ok () := by simp [triAssert]
  have hrun : getSome cfg ex fuel atMost s = some (Except.ok (st, none), (prefetchBlock ex
      { s with itemBlockManager := m
               trace := s.trace ++
                 [Event.requestBlock atMost ex.numberOfOutputRegisters] }).2) := by
    simp [getSome, getSomeWithoutTrace, h1, h2, h3, ho, hrw, hne, hta]
  refine ⟨_, hrun, ?_, ?_, ?_, ?_⟩
  · rw [p2]; exact ho
  · rw [p5 hst]; exact hq
  · rw [p4]
  · rw [p1]; simp

/-- C13 on the pass-through example whose upstream first answers WAITING. -/
theorem C13_prefetch_waiting_or_done_witness :
    ∃ s', getSome maintainerBuild (scriptedExecutor true 1) 10 5
        (ExecutionBlockImpl.create waitingUpstream freshManager) =
          some (Except.ok (WAITING, none), s') ∧
      s'._outputItemRow = none ∧ s'._passThroughBlocks = [] ∧
      s'._stats = (ExecutionBlockImpl.create waitingUpstream freshManager)._stats ∧
      s'.trace = (ExecutionBlockImpl.create waitingUpstream freshManager).trace ++
        [Event.requestBlock 5 (scriptedExecutor true 1).numberOfOutputRegisters,
          Event.prefetchBlock WAITING] :=
  C13_prefetch_waiting_or_done maintainerBuild (scriptedExecutor true 1) 10 5
    (ExecutionBlockImpl.create waitingUpstream freshManager) _ _ WAITING
    ⟨by decide, by decide, by decide⟩ rfl rfl rfl rfl rfl (Or.inl rfl)

/-- C18 (skip is pull with the batch discarded): `skipSome` fails, or runs out
of fuel, exactly as `getSome` does; when `getSome` returns a state and a
batch, `skipSome` returns the same state and the number of rows of the batch,
0 for the null batch, and leaves the block as `getSome` leaves it, except that
the batch, if there is one, has been returned to the batch manager; from a
block that satisfies the invariant the count is 0 exactly when the batch is
null. -/
theorem C18_skip_is_pull_discarded {σ : Type} (cfg : Build) (ex : Executor σ)
    (fuel atMost : Nat) (s : ExecutionBlockImpl σ) :
    (getSome cfg ex fuel atMost s = none → skipSome cfg ex fuel atMost s = none) ∧
    (∀ e s1, getSome cfg ex fuel atMost s = some (Except.error e, s1) →
      skipSome cfg ex fuel atMost s = some (Except.error e, s1)) ∧
    (∀ st s1, getSome cfg ex fuel atMost s = some (Except.ok (st, none), s1) →
      skipSome cfg ex fuel atMost s = some (Except.ok (st, 0), s1)) ∧
    (∀ st b s1, getSome cfg ex fuel atMost s = some (Except.ok (st, some b), s1) →
      ∃ s2, skipSome cfg ex fuel atMost s = some (Except.ok (st, b.size), s2) ∧
        s2._executor = s1._executor ∧ s2._outputItemRow = s1._outputItemRow ∧
        s2._passThroughBlocks = s1._passThroughBlocks ∧ s2._stats = s1._stats ∧
        s2.itemBlockManager = s1.itemBlockManager.returnBlock b ∧
        s2.itemBlockManager.returned = s1.itemBlockManager.returned ++ [b] ∧
        s2.trace = s1.trace ++ [Event.returnBlock b] ∧
        (s.wellFormed → 0 < b.size)) := by
  refine ⟨?_, ?_, ?_, ?_⟩
  · intro h
    simp only [getSome] at h
    simp [skipSome, h]
  · intro e s1 h
    simp only [getSome] at h
    simp [skipSome, h]
  · intro st s1 h
    simp only [getSome] at h
    simp [skipSome, h]
  · intro st b s1 h
    simp only [getSome] at h
    refine ⟨{ s1 with itemBlockManager := s1.itemBlockManager.returnBlock b
                      trace := s1.trace ++ [Event.returnBlock b] },
      by simp [skipSome, h], rfl, rfl, rfl, rfl, rfl, rfl, rfl, ?_⟩
    intro hwf
    obtain ⟨_, evs, _, hb, _⟩ := getSomeWithoutTrace_spec cfg ex fuel atMost s s1 _ hwf h
    exact (hb st b rfl).2.1

/-- C18 on a pull that fills a batch of two rows: `skipSome` reports HASMORE
and 2, and hands the batch back. -/
theorem C18_skip_is_pull_discarded_witness :
    ∃ s1 s2, getSome releaseBuild (scriptedExecutor false 1) 10 2
        (ExecutionBlockImpl.create
          ([(HASMORE, some [some 1]), (HASMORE, some [some 2])], []) freshManager) =
          some (Except.ok (HASMORE, some ⟨1, [[some 1], [some 2]]⟩), s1) ∧
      skipSome releaseBuild (scriptedExecutor false 1) 10 2
        (ExecutionBlockImpl.create
          ([(HASMORE, some [some 1]), (HASMORE, some [some 2])], []) freshManager) =
          some (Except.ok (HASMORE, 2), s2) ∧
      s2.itemBlockManager.returned =
        s1.itemBlockManager.returned ++ [⟨1, [[some 1], [some 2]]⟩] := by
  obtain ⟨s2, h1, _, _, _, _, _, h7, _⟩ := (C18_skip_is_pull_discarded releaseBuild
    (scriptedExecutor false 1) 10 2
    (ExecutionBlockImpl.create
      ([(HASMORE, some [some 1]), (HASMORE, some [some 2])], []) freshManager)).2.2.2
    HASMORE ⟨1, [[some 1], [some 2]]⟩ _ rfl
  exact ⟨_, s2, rfl, h1, h7⟩

theorem stealBlock_some (o : OutputAqlItemRow) (h : o.numRowsWritten ≠ 0) :
    ∃ b, o.stealBlock = some b :=
  ⟨{ o.block with rows := o.block.rows.take o.numRowsWritten }, by
    unfold OutputAqlItemRow.stealBlock
    rw [if_neg h]⟩

theorem agreeOn_write (keep : List RegisterId) (rows B : List (List AqlValue)) (i : Nat)
    (row : List AqlValue) (hrow : ∀ r, r ∈ keep → row[r]? = cellOf rows i r)
    (hi : i < rows.length) (h : agreeOn keep rows B) : agreeOn keep (rows.set i row) B := by
  obtain ⟨hlen, hcell⟩ := h
  refine ⟨by simpa using hlen, ?_⟩
  intro j r hr
  rw [← hcell j r hr]
  by_cases hj : i = j
  · subst hj
    simp only [cellOf, List.getElem?_set_self hi, Option.some_bind]
    rw [hrow r hr]; rfl
  · simp [cellOf, List.getElem?_set_ne hj]

/-- The loop of a row-wise copying executor keeps the batch it writes into
equal, in the copied registers, to the table `B` it started from; a batch it
returns holds all rows of `B`. -/
theorem produceLoop_conserves {σ : Type} (cfg : Build) (ex : Executor σ)
    (keep : List RegisterId) (B : List (List AqlValue)) (nr : Nat) (atMost fuel : Nat)
    (hex : ex.passesRowsThrough keep) :
    ∀ (s : ExecutionBlockImpl σ) (o : OutputAqlItemRow) (state : ExecutionState)
      (st : ExecutionState) (b' : AqlItemBlock) (s' : ExecutionBlockImpl σ),
      o.wellFormed → agreeOn keep o.block.rows B → o.block.nrRegs = nr →
      produceLoop cfg ex atMost fuel s o state = some (Except.ok (st, some b'), s') →
      agreeOn keep b'.rows B ∧ b'.nrRegs = nr := by
  induction fuel with
  | zero => intro s o state st b' s' _ _ _ h; simp [produceLoop] at h
  | succ fuel ih =>
    intro s o state st b' s' hwf hag hnr h
    unfold produceLoop at h
    by_cases hfull : o.isFull = true
    · simp only [hfull, if_true] at h
      cases h1 : triAssert cfg (decide (state = HASMORE)) with
      | error e => simp [h1] at h
      | ok u =>
        simp only [h1] at h
        cases h2 : triAssert cfg (decide (o.numRowsWritten = atMost)) with
        | error e => simp [h2] at h
        | ok u2 =>
          simp only [h2, Option.some.injEq, Prod.mk.injEq, Except.ok.injEq] at h
          obtain ⟨e1, _, e3⟩ := stealBlock_spec o hwf b' h.1.2
          obtain ⟨hp, hb⟩ := hwf
          have hge : o.block.rows.length ≤ o._baseIndex := by
            simpa [OutputAqlItemRow.isFull, OutputAqlItemRow.numRowsWritten, hp,
              AqlItemBlock.size] using hfull
          rw [e1, OutputAqlItemRow.committedRows, List.take_of_length_le hge]
          exact ⟨hag, e3.trans hnr⟩
    · have hfull' : o.isFull = false := by simpa using hfull
      simp only [hfull, Bool.false_eq_true, if_false] at h
      obtain ⟨⟨row, hw, hrow⟩, hnw, hdone⟩ := hex s._executor o
      obtain ⟨r1, r2, r3, _, _⟩ := round_spec o (ex.produceRow s._executor o).written hwf hfull'
      rw [hw] at r1 r2 r3
      simp only [hw] at h
      have hlt : o._baseIndex < o.block.rows.length := by
        have := hwf.1
        simpa [OutputAqlItemRow.isFull, OutputAqlItemRow.numRowsWritten, this,
          AqlItemBlock.size] using hfull'
      have hag2 : agreeOn keep
          (if (o.write row).produced then (o.write row).advanceRow
            else o.write row).block.rows B := by
        simp only [OutputAqlItemRow.write, OutputAqlItemRow.produced, if_true,
          OutputAqlItemRow.advanceRow]
        exact agreeOn_write keep _ B _ row hrow hlt hag
      simp only [hnw, if_false] at h
      by_cases hd : (ex.produceRow s._executor o).state = DONE
      · simp only [hd, if_true, Option.some.injEq, Prod.mk.injEq, Except.ok.injEq] at h
        obtain ⟨e1, _, e3⟩ := stealBlock_spec _ r1 b' h.1.2
        have hlast := hdone hd
        have hge : (if (o.write row).produced then (o.write row).advanceRow
            else o.write row).block.rows.length ≤
            (if (o.write row).produced then (o.write row).advanceRow
              else o.write row)._baseIndex := by
          simp only [OutputAqlItemRow.write, OutputAqlItemRow.produced, if_true,
            OutputAqlItemRow.advanceRow, List.length_set]
          simp only [AqlItemBlock.size] at hlast
          omega
        rw [e1, OutputAqlItemRow.committedRows, List.take_of_length_le hge]
        exact ⟨hag2, e3.trans (r3.trans hnr)⟩
      · simp only [hd, if_false] at h
        exact ih _ _ _ st b' s' r1 hag2 (r3.trans hnr) h

/-- The loop of a row-wise copying executor comes to an end and returns a
batch: within as many rounds as the batch has uncommitted rows, when the
assertions after the loop, if they are checked, hold. -/
theorem produceLoop_returns {σ : Type} (cfg : Build) (ex : Executor σ)
    (keep : List RegisterId) (atMost : Nat) (hex : ex.passesRowsThrough keep) (n : Nat) :
    ∀ (fuel : Nat) (s : ExecutionBlockImpl σ) (o : OutputAqlItemRow),
      o.wellFormed → 0 < o.block.size → o.block.size - o._baseIndex ≤ n → n < fuel →
      (cfg.maintainerMode = true → o.block.size = atMost) →
      ∃ st b' s', produceLoop cfg ex atMost fuel s o HASMORE =
        some (Except.ok (st, some b'), s') := by
  induction n with
  | zero =>
    intro fuel s o hwf hpos hn hfuel hm
    obtain ⟨f, rfl⟩ : ∃ f, fuel = f + 1 := ⟨fuel - 1, by omega⟩
    obtain ⟨hp, hb⟩ := hwf
    have hbase : o._baseIndex = o.block.size := by omega
    have hfull : o.isFull = true := by
      simp [OutputAqlItemRow.isFull, OutputAqlItemRow.numRowsWritten, hp, hbase]
    have hnum : o.numRowsWritten = o.block.size := by
      simp [OutputAqlItemRow.numRowsWritten, hp, hbase]
    have h1 : triAssert cfg (decide True) = Except.ok () :=
      triAssert_ok cfg _ (fun _ => by simp)
    have h2 : triAssert cfg (decide (o.numRowsWritten = atMost)) = Except.ok () :=
      triAssert_ok cfg _ (fun hmm => by simp [hnum, hm hmm])
    have hsteal : ∃ b', o.stealBlock = some b' :=
      stealBlock_some o (by rw [hnum]; omega)
    obtain ⟨b', hs⟩ := hsteal
    refine ⟨HASMORE, b', { s with _outputItemRow := none }, ?_⟩
    unfold produceLoop
    simp only [hfull, if_true, h1, h2, hs]
  | succ n ih =>
    intro fuel s o hwf hpos hn hfuel hm
    by_cases hbase : o.block.size - o._baseIndex ≤ n
    · exact ih fuel s o hwf hpos hbase (by omega) hm
    obtain ⟨f, rfl⟩ : ∃ f, fuel = f + 1 := ⟨fuel - 1, by omega⟩
    have hp := hwf.1
    have hfull : o.isFull = false := by
      simp [OutputAqlItemRow.isFull, OutputAqlItemRow.numRowsWritten, hp]
      omega
    obtain ⟨⟨row, hw, hrow⟩, hnw, hdone⟩ := hex s._executor o
    obtain ⟨r1, r2, r3, _, _⟩ := round_spec o (ex.produceRow s._executor o).written hwf hfull
    rw [hw] at r1 r2 r3
    have hbase2 : (if (o.write row).produced then (o.write row).advanceRow
        else o.write row)._baseIndex = o._baseIndex + 1 := by
      simp [OutputAqlItemRow.write, OutputAqlItemRow.produced, OutputAqlItemRow.advanceRow]
    unfold produceLoop
    simp only [hfull, Bool.false_eq_true, if_false, hw, hnw]
    by_cases hd : (ex.produceRow s._executor o).state = DONE
    · simp only [hd, if_true]
      have hsteal : ∃ b', (if (o.write row).produced then (o.write row).advanceRow
          else o.write row).stealBlock = some b' := by
        apply stealBlock_some
        simp only [OutputAqlItemRow.numRowsWritten, r1.1, Bool.false_eq_true, if_false, hbase2]
        omega
      obtain ⟨b', hs⟩ := hsteal
      rw [hs]
      exact ⟨DONE, b', _, rfl⟩
    · simp only [hd, if_false]
      have hh : (ex.produceRow s._executor o).state = HASMORE := by
        cases hs : (ex.produceRow s._executor o).state <;> simp_all
      rw [hh]
      exact ih f _ _ r1 (by rw [r2]; exact hpos) (by rw [r2, hbase2]; omega) (by omega)
        (fun hmm => by rw [r2]; exact hm hmm)

/-- Opening an output batch under pass-through, with an empty queue, when the
upstream answers with a batch `b`: the batch handed on is `b` itself; in a
build that checks assertions the call fails when `b` has another number of
registers than asked for. -/
theorem requestWrappedBlock_passthrough {σ : Type} (cfg : Build) (ex : Executor σ)
    (nrItems nrRegs : Nat) (s : ExecutionBlockImpl σ) (blk : AqlItemBlock)
    (m : AqlItemBlockManager) (ust : ExecutionState) (b : AqlItemBlock) (e1 : σ)
    (hp : ex.allowsBlockPassthrough = true) (hq : s._passThroughBlocks = [])
    (hreq : s.itemBlockManager.requestBlock nrItems nrRegs = Except.ok (blk, m))
    (hup : ex.upstreamGetSome s._executor = ((ust, some b), e1)) (hust : ust ≠ WAITING) :
    ∃ t, (requestWrappedBlock cfg ex nrItems nrRegs s = (Except.ok (HASMORE, some b), t) ∨
        ∃ e, requestWrappedBlock cfg ex nrItems nrRegs s = (Except.error e, t)) ∧
      ((cfg.maintainerMode = true → b.getNrRegs = nrRegs) →
        requestWrappedBlock cfg ex nrItems nrRegs s = (Except.ok (HASMORE, some b), t)) := by
  have hemp : s._passThroughBlocks.isEmpty = true := by rw [hq]; rfl
  have hpre : prefetchBlock ex
      { s with itemBlockManager := m
               trace := s.trace ++ [Event.requestBlock nrItems nrRegs] } =
      (HASMORE,
        { s with itemBlockManager := m
                 _executor := e1
                 _passThroughBlocks := [b]
                 trace := s.trace ++ [Event.requestBlock nrItems nrRegs] ++
                   [Event.prefetchBlock HASMORE] }) := by
    unfold prefetchBlock
    simp only [hup, hust, if_false, hq, List.nil_append]
  have hlen : triAssert cfg (decide ([b].length = 1)) = Except.ok () :=
    triAssert_ok cfg _ (fun _ => by simp)
  have hrw : requestWrappedBlock cfg ex nrItems nrRegs s =
      match triAssert cfg (decide (b.getNrRegs = nrRegs)) with
      | Except.error e => (Except.error e,
          { s with itemBlockManager := m
                   _executor := e1
                   _passThroughBlocks := []
                   trace := s.trace ++ [Event.requestBlock nrItems nrRegs] ++
                     [Event.prefetchBlock HASMORE] })
      | Except.ok _ => (Except.ok (HASMORE, some b),
          { s with itemBlockManager := m
                   _executor := e1
                   _passThroughBlocks := []
                   trace := s.trace ++ [Event.requestBlock nrItems nrRegs] ++
                     [Event.prefetchBlock HASMORE] }) := by
    unfold requestWrappedBlock
    rw [hreq]
    simp only [hp, hemp, if_true, hpre]
    simp only [reduceCtorEq, or_self, if_false, hlen]
  refine ⟨{ s with itemBlockManager := m
                   _executor := e1
                   _passThroughBlocks := []
                   trace := s.trace ++ [Event.requestBlock nrItems nrRegs] ++
                     [Event.prefetchBlock HASMORE] }, ?_, ?_⟩
  · rw [hrw]
    cases triAssert cfg (decide (b.getNrRegs = nrRegs)) with
    | error e => exact Or.inr ⟨e, rfl⟩
    | ok u => exact Or.inl rfl
  · intro hm
    rw [hrw, triAssert_ok cfg _ (fun hmm => by simpa using hm hmm)]

/-- The identity executor hands every row on, whatever the registers. -/
theorem identityExecutor_passesRowsThrough (nrRegs : Nat) (keep : List RegisterId) :
    (identityExecutor nrRegs).passesRowsThrough keep := by
  intro st o
  refine ⟨⟨(o.block.rows[o._baseIndex]?).getD [], rfl, ?_⟩, ?_, ?_⟩
  · intro r _
    unfold cellOf
    cases o.block.rows[o._baseIndex]? <;> simp
  · simp only [identityExecutor]
    split <;> simp
  · simp only [identityExecutor]
    intro h
    split at h
    · rename_i hc; exact hc.1
    · simp at h

/-- C14 (pass-through conservation): for a pass-through-eligible executor that
writes one output row per input row and copies the registers `keep`, with no
output batch open and an empty pass-through queue, when the upstream answers
the prefetch with a batch `b`, a batch that `getSome` returns has as many rows
and registers as `b` and holds in every copied register the value of `b`, row
for row; and `getSome` does return a batch when `b` has a row, the fuel
exceeds the rows of `b`, and, in a build that checks assertions, `atMost` is
the number of rows of `b` and `b` has the registers of the executor. -/
theorem C14_pass_through_conservation {σ : Type} (cfg : Build) (ex : Executor σ)
    (keep : List RegisterId) (fuel atMost : Nat) (s : ExecutionBlockImpl σ)
    (blk : AqlItemBlock) (m : AqlItemBlockManager) (ust : ExecutionState) (b : AqlItemBlock)
    (e1 : σ)
    (hex : ex.passesRowsThrough keep) (hnf : noFailurePoint cfg)
    (hp : ex.allowsBlockPassthrough = true)
    (ho : s._outputItemRow = none) (hq : s._passThroughBlocks = [])
    (hreq : s.itemBlockManager.requestBlock atMost ex.numberOfOutputRegisters =
      Except.ok (blk, m))
    (hup : ex.upstreamGetSome s._executor = ((ust, some b), e1)) (hust : ust ≠ WAITING) :
    (∀ st b' s', getSome cfg ex fuel atMost s = some (Except.ok (st, some b'), s') →
      b'.size = b.size ∧ b'.nrRegs = b.nrRegs ∧
      ∀ i r, r ∈ keep → cellOf b'.rows i r = cellOf b.rows i r) ∧
    (0 < b.size → b.size < fuel →
      (cfg.maintainerMode = true →
        b.size = atMost ∧ b.getNrRegs = ex.numberOfOutputRegisters) →
      ∃ st b' s', getSome cfg ex fuel atMost s = some (Except.ok (st, some b'), s')) := by
  obtain ⟨t, hcase, hok⟩ := requestWrappedBlock_passthrough cfg ex atMost
    ex.numberOfOutputRegisters s blk m ust b e1 hp hq hreq hup hust
  have hwf : (OutputAqlItemRow.create b).wellFormed :=
    ⟨rfl, Nat.zero_le _⟩
  constructor
  · intro st b' s' h
    obtain ⟨h1, h2, h3⟩ := hnf
    rcases hcase with hrw | ⟨e, hrw⟩
    · simp only [getSome, getSomeWithoutTrace, h1, h2, h3, ho, hrw, Bool.false_eq_true,
        if_false, ne_eq, not_true_eq_false] at h
      cases ha : triAssert cfg (decide (0 < atMost)) with
      | error e => simp [ha] at h
      | ok u =>
        simp only [ha] at h
        obtain ⟨⟨hlen, hcell⟩, hnr⟩ := produceLoop_conserves cfg ex keep b.rows b.nrRegs
          atMost fuel hex t (OutputAqlItemRow.create b) HASMORE st b' s' hwf
          ⟨rfl, fun _ _ _ => rfl⟩ rfl h
        exact ⟨hlen, hnr, hcell⟩
    · simp [getSome, getSomeWithoutTrace, h1, h2, h3, ho, hrw] at h
  · intro hpos hfuel hm
    have hrw := hok (fun hmm => (hm hmm).2)
    rw [getSome_closed_eq cfg ex fuel atMost s t b hnf ho hrw
      (fun hmm => by rw [← (hm hmm).1]; exact hpos)]
    exact produceLoop_returns cfg ex keep atMost hex b.size fuel t (OutputAqlItemRow.create b)
      hwf hpos (by simp [OutputAqlItemRow.create]) hfuel (fun hmm => (hm hmm).1)

/-- C14 on the pass-through example: the batch that `getSome` returns has the
three rows of the upstream batch {7,8,9} and its values. -/
theorem C14_pass_through_conservation_witness :
    ∃ st b' s', getSome releaseBuild (identityExecutor 1) 10 1000 passThroughExample =
        some (Except.ok (st, some b'), s') ∧
      b'.size = (buildBlock [7, 8, 9]).size ∧ b'.nrRegs = (buildBlock [7, 8, 9]).nrRegs ∧
      ∀ i r, r ∈ [0] → cellOf b'.rows i r = cellOf (buildBlock [7, 8, 9]).rows i r := by
  have h := C14_pass_through_conservation releaseBuild (identityExecutor 1) [0] 10 1000
    passThroughExample _ _ HASMORE (buildBlock [7, 8, 9])
    ([(DONE, some (buildBlock [10]))], HASMORE)
    (identityExecutor_passesRowsThrough 1 [0]) ⟨by decide, by decide, by decide⟩
    rfl rfl rfl rfl rfl (by decide)
  obtain ⟨st, b', s', hrun⟩ := h.2 (by decide) (by decide) (by intro hm; cases hm)
  exact ⟨st, b', s', hrun, h.1 st b' s' hrun⟩

/-- C22 (dependency index precondition): with `i` smaller than the number of
dependencies, `fetchBlockOfDependency(i)` passes its assertion in every build,
finds dependency `i` and asks exactly this one for a batch: its state is the
one returned, it alone has moved on, every other dependency is as before, and
one call is counted.  With `i` out of range nothing is pulled and no state is
returned: a build that checks assertions stops at the assertion, a build that
does not runs into undefined behaviour. -/
theorem C22_dependency_index_precondition (cfg : Build) (bf : BlockFetcher) (i : Nat) :
    (i < bf._dependencies.length →
      ∃ dep r, bf._dependencies[i]? = some dep ∧
        bf.fetchBlockOfDependencyChecked cfg i = Except.ok r ∧
        bf.fetchBlockOfDependency i = some r ∧
        r.1.1 = (Dependency.getSome dep).1.1 ∧
        r.1.2 = (Dependency.getSome dep).1.2.map (fun b => ⟨b, bf._inputRegisters⟩) ∧
        r.2._dependencies = bf._dependencies.set i (Dependency.getSome dep).2 ∧
        (∀ j, j ≠ i → r.2._dependencies[j]? = bf._dependencies[j]?) ∧
        r.2.numFetchBlockCalls = bf.numFetchBlockCalls + 1) ∧
    (¬ i < bf._dependencies.length →
      bf.fetchBlockOfDependency i = none ∧
      (cfg.maintainerMode = true →
        bf.fetchBlockOfDependencyChecked cfg i = Except.error Error.assertion) ∧
      (cfg.maintainerMode = false →
        bf.fetchBlockOfDependencyChecked cfg i = Except.error Error.undefinedBehaviour) ∧
      ∀ r, bf.fetchBlockOfDependencyChecked cfg i ≠ Except.ok r) := by
  constructor
  · intro hlt
    have hd : bf._dependencies[i]? = some bf._dependencies[i] := List.getElem?_eq_getElem hlt
    have heq := fetchBlockOfDependency_eq bf i _ hd
    have ha : triAssert cfg (decide (i < bf._dependencies.length)) = Except.ok () :=
      triAssert_ok cfg _ (fun _ => by simpa using hlt)
    refine ⟨bf._dependencies[i], _, hd, ?_, heq, rfl, rfl, rfl, ?_, rfl⟩
    · unfold BlockFetcher.fetchBlockOfDependencyChecked
      rw [ha, heq]
    · intro j hj
      exact List.getElem?_set_ne (Ne.symm hj)
  · intro hge
    have hnone : bf.fetchBlockOfDependency i = none := by
      unfold BlockFetcher.fetchBlockOfDependency
      rw [dif_neg hge]
    have hdec : decide (i < bf._dependencies.length) = false := by simpa using hge
    refine ⟨hnone, ?_, ?_, ?_⟩
    · intro hm
      simp [BlockFetcher.fetchBlockOfDependencyChecked, triAssert, hm, hdec]
    · intro hm
      simp [BlockFetcher.fetchBlockOfDependencyChecked, triAssert, hm, hnone]
    · intro r
      unfold BlockFetcher.fetchBlockOfDependencyChecked
      cases triAssert cfg (decide (i < bf._dependencies.length)) with
      | error e => simp
      | ok u => simp [hnone]

/-- C22 on the fetcher with two dependencies, asked for the second one: the
first dependency is not touched. -/
theorem C22_dependency_index_precondition_witness :
    ∃ dep r, scenarioTwoDeps._dependencies[1]? = some dep ∧
      scenarioTwoDeps.fetchBlockOfDependencyChecked maintainerBuild 1 = Except.ok r ∧
      r.1.1 = WAITING ∧
      r.2._dependencies[0]? = scenarioTwoDeps._dependencies[0]? ∧
      r.2.numFetchBlockCalls = 1 := by
  obtain ⟨dep, r, h1, h2, _, h4, _, _, h7, h8⟩ :=
    (C22_dependency_index_precondition maintainerBuild scenarioTwoDeps 1).1 (by decide)
  refine ⟨dep, r, h1, h2, ?_, h7 0 (by decide), h8⟩
  have hdep : dep = [(WAITING, none), (DONE, some (buildBlock [7]))] := by
    have : scenarioTwoDeps._dependencies[1]? =
        some [(WAITING, none), (DONE, some (buildBlock [7]))] := rfl
    rw [this] at h1
    exact (Option.some.inj h1).symm
  rw [h4, hdep]
  rfl

theorem slice_shape (b : AqlItemBlock) (row : Nat) (registers : List RegisterId) :
    (b.slice row registers).size = 1 ∧ (b.slice row registers).nrRegs = b.nrRegs ∧
    ∀ r, r < b.nrRegs →
      cellOf (b.slice row registers).rows 0 r =
        some (if r ∈ registers then (cellOf b.rows row r).getD none else none) := by
  refine ⟨rfl, rfl, ?_⟩
  intro r hr
  simp [AqlItemBlock.slice, cellOf, hr]

theorem requestBlock_block (m m' : AqlItemBlockManager) (nrItems nrRegs : Nat)
    (b : AqlItemBlock) (h : m.requestBlock nrItems nrRegs = Except.ok (b, m')) :
    b = ⟨nrRegs, List.replicate nrItems (List.replicate nrRegs none)⟩ := by
  unfold AqlItemBlockManager.requestBlock at h
  cases hl : m.memoryLimit with
  | none =>
    simp only [hl, Except.ok.injEq, Prod.mk.injEq] at h
    exact h.1.symm
  | some limit =>
    simp only [hl] at h
    by_cases hlt : limit < m.memoryUsed + nrItems * nrRegs
    · simp [hlt] at h
    · simp only [hlt, if_false, Except.ok.injEq, Prod.mk.injEq] at h
      exact h.1.symm

theorem injectedShells_append (xs ys : List RebuildOp) :
    injectedShells (xs ++ ys) = injectedShells xs ++ injectedShells ys := by
  simp [injectedShells]

/-- C24 (seeding the identity block): `initializeCursor` of the identity block
rebuilds the block fetcher and the row fetcher, injects one batch into the row
fetcher, then rebuilds the executor and calls the base class.  With `items`
the batch is `items->slice(pos, registersToKeep)`: one row, the registers of
`items`, in every register to keep the value of row `pos` of `items` and
nothing in the others.  Without `items` it is the batch of 1 row and
`numberOfOutputRegisters` registers just requested, with no value written;
when that request fails the call fails and nothing is injected.  The general
`initializeCursor` rebuilds the same three objects and injects nothing.  The
recorded steps show the order and the number of injections. -/
theorem C24_seeding_identity_block {σ : Type} (ex : Executor σ) (rb : Rebuild σ) (pos : Nat)
    (s : ExecutionBlockImpl σ) :
    (∀ items : AqlItemBlock,
      (initializeCursorId ex rb (some items) pos s).2._executor =
        (rb.baseInitializeCursor (rb.recreateExecutor (rb.injectBlock
          (rb.recreateFetcher (rb.recreateBlockFetcher s._executor))
          ⟨items.slice pos rb.registersToKeep, rb.inputRegisters⟩)) (some items) pos).2 ∧
      (items.slice pos rb.registersToKeep).size = 1 ∧
      (items.slice pos rb.registersToKeep).nrRegs = items.nrRegs ∧
      ∀ r, r < items.nrRegs →
        cellOf (items.slice pos rb.registersToKeep).rows 0 r =
          some (if r ∈ rb.registersToKeep then (cellOf items.rows pos r).getD none
            else none)) ∧
    (∀ b m, s.itemBlockManager.requestBlock 1 ex.numberOfOutputRegisters = Except.ok (b, m) →
      (initializeCursorId ex rb none pos s).2._executor =
        (rb.baseInitializeCursor (rb.recreateExecutor (rb.injectBlock
          (rb.recreateFetcher (rb.recreateBlockFetcher s._executor))
          ⟨b, rb.inputRegisters⟩)) none pos).2 ∧
      b = ⟨ex.numberOfOutputRegisters,
        [List.replicate ex.numberOfOutputRegisters none]⟩) ∧
    (∀ e, s.itemBlockManager.requestBlock 1 ex.numberOfOutputRegisters = Except.error e →
      initializeCursorId ex rb none pos s =
        (Except.error e,
          { s with _executor := rb.recreateFetcher (rb.recreateBlockFetcher s._executor) })) ∧
    (∀ items : Option AqlItemBlock,
      (initializeCursor rb items pos s).2._executor =
        (rb.baseInitializeCursor (rb.recreateExecutor
          (rb.recreateFetcher (rb.recreateBlockFetcher s._executor))) items pos).2) ∧
    (∀ (ex : Executor (List RebuildOp)) (t : ExecutionBlockImpl (List RebuildOp))
        (keep regs : List RegisterId) (items : Option AqlItemBlock),
      (∀ b, items = some b →
        (initializeCursorId ex (recordingRebuild keep regs) items pos t).2._executor =
          t._executor ++ [RebuildOp.blockFetcher, RebuildOp.fetcher,
            RebuildOp.injectBlock ⟨b.slice pos keep, regs⟩, RebuildOp.executor,
            RebuildOp.baseInitializeCursor items pos]) ∧
      (items = none → t.itemBlockManager.memoryLimit = none →
        (initializeCursorId ex (recordingRebuild keep regs) items pos t).2._executor =
          t._executor ++ [RebuildOp.blockFetcher, RebuildOp.fetcher,
            RebuildOp.injectBlock ⟨⟨ex.numberOfOutputRegisters,
              [List.replicate ex.numberOfOutputRegisters none]⟩, regs⟩, RebuildOp.executor,
            RebuildOp.baseInitializeCursor items pos]) ∧
      (initializeCursor (recordingRebuild keep regs) items pos t).2._executor =
        t._executor ++ [RebuildOp.blockFetcher, RebuildOp.fetcher, RebuildOp.executor,
          RebuildOp.baseInitializeCursor items pos] ∧
      injectedShells (initializeCursor (recordingRebuild keep regs) items pos t).2._executor =
        injectedShells t._executor) := by
  refine ⟨?_, ?_, ?_, ?_, ?_⟩
  · intro items
    exact ⟨rfl, slice_shape items pos rb.registersToKeep⟩
  · intro b m hreq
    have hb : b = ⟨ex.numberOfOutputRegisters,
        [List.replicate ex.numberOfOutputRegisters none]⟩ :=
      requestBlock_block _ _ _ _ _ hreq
    refine ⟨?_, hb⟩
    unfold initializeCursorId
    simp only [hreq]
  · intro e hreq
    unfold initializeCursorId
    simp only [hreq]
  · intro items
    rfl
  · intro ex t keep regs items
    refine ⟨?_, ?_, ?_, ?_⟩
    · intro b hb
      subst hb
      simp [initializeCursorId, recordingRebuild]
    · intro hi hl
      subst hi
      simp [initializeCursorId, recordingRebuild, AqlItemBlockManager.requestBlock, hl]
    · simp [initializeCursor, recordingRebuild]
    · simp [initializeCursor, recordingRebuild, injectedShells]

/-- C24 on the batch {7,8,9} with `pos = 1` and register 0 to keep: one batch
is injected, the row 8, between the rebuilding of the row fetcher and that of
the executor. -/
theorem C24_seeding_identity_block_witness :
    (initializeCursorId (recordingExecutor 1) (recordingRebuild [0] [0])
        (some (buildBlock [7, 8, 9])) 1
        (ExecutionBlockImpl.create [] freshManager)).2._executor =
      [RebuildOp.blockFetcher, RebuildOp.fetcher,
        RebuildOp.injectBlock ⟨buildBlock [8], [0]⟩, RebuildOp.executor,
        RebuildOp.baseInitializeCursor (some (buildBlock [7, 8, 9])) 1] :=
  ((C24_seeding_identity_block (recordingExecutor 1) (recordingRebuild [0] [0]) 1
    (ExecutionBlockImpl.create [] freshManager)).2.2.2.2 (recordingExecutor 1)
    (ExecutionBlockImpl.create [] freshManager) [0] [0]
    (some (buildBlock [7, 8, 9]))).1 (buildBlock [7, 8, 9]) rfl

/-- C27 (fault injection is atomic, and inert when disabled): with none of the
three failure points of `getSomeWithoutTrace` active, `getSome` is the code
without the hooks; with one of them active, `getSome` fails with the debug
error and leaves the block as it was: output cursor, pass-through queue,
statistics, batch manager and trace are unchanged, so no batch was requested
or prefetched and `produceRow` was not called. -/
theorem C27_fault_injection {σ : Type} (cfg : Build) (ex : Executor σ) (fuel atMost : Nat)
    (s : ExecutionBlockImpl σ) :
    (noFailurePoint cfg →
      getSome cfg ex fuel atMost s = getSomeWithoutHooks cfg ex fuel atMost s) ∧
    ((∃ p, p ∈ getSomeFailurePoints ∧ triIfFailure cfg p = true) →
      getSome cfg ex fuel atMost s = some (Except.error Error.debug, s)) := by
  constructor
  · rintro ⟨h1, h2, h3⟩
    unfold getSome getSomeWithoutTrace getSomeWithoutHooks
    simp only [h1, h2, h3, Bool.false_eq_true, if_false]
  · rintro ⟨p, hp, hact⟩
    unfold getSome getSomeWithoutTrace
    by_cases h1 : triIfFailure cfg "ExecutionBlock::getOrSkipSome1" = true
    · rw [if_pos h1]
    · rw [if_neg h1]
      by_cases h2 : triIfFailure cfg "ExecutionBlock::getOrSkipSome2" = true
      · rw [if_pos h2]
      · rw [if_neg h2]
        by_cases h3 : triIfFailure cfg "ExecutionBlock::getOrSkipSome3" = true
        · rw [if_pos h3]
        · exfalso
          simp only [getSomeFailurePoints, List.mem_cons, List.mem_singleton,
            List.not_mem_nil, or_false] at hp
          rcases hp with rfl | rfl | rfl
          · exact h1 hact
          · exact h2 hact
          · exact h3 hact

/-- C27 on the pass-through example with the second failure point active: the
pull fails with the debug error and the block is as before. -/
theorem C27_fault_injection_witness :
    getSome ⟨true, ["ExecutionBlock::getOrSkipSome2"]⟩ (identityExecutor 1) 10 1000
        passThroughExample = some (Except.error Error.debug, passThroughExample) :=
  (C27_fault_injection ⟨true, ["ExecutionBlock::getOrSkipSome2"]⟩ (identityExecutor 1) 10 1000
    passThroughExample).2 ⟨"ExecutionBlock::getOrSkipSome2", by decide, by decide⟩

/-- What a prefetch does to the pass-through queue: either it leaves the queue
as it is, and then it reports HASMORE only if upstream answered HASMORE
without a batch; or upstream delivered a batch, the prefetch reports HASMORE
and the batch is the one new entry of the queue. -/
theorem prefetchBlock_queue {σ : Type} (ex : Executor σ) (s : ExecutionBlockImpl σ) :
    ((prefetchBlock ex s).2._passThroughBlocks = s._passThroughBlocks ∧
      ((prefetchBlock ex s).1 = HASMORE →
        (ex.upstreamGetSome s._executor).1 = (HASMORE, none))) ∨
    (∃ b, (prefetchBlock ex s).1 = HASMORE ∧
      (prefetchBlock ex s).2._passThroughBlocks = s._passThroughBlocks ++ [b] ∧
      (ex.upstreamGetSome s._executor).1.2 = some b ∧
      (ex.upstreamGetSome s._executor).1.1 ≠ WAITING) := by
  unfold prefetchBlock
  by_cases hw : (ex.upstreamGetSome s._executor).1.1 = WAITING
  · left
    simp [hw]
  · rw [if_neg hw]
    split
    · next hnone =>
      left
      exact ⟨rfl, fun h => Prod.ext h hnone⟩
    · next b hsome =>
      right
      exact ⟨b, rfl, rfl, hsome, hw⟩

theorem requestWrappedBlock_queue {σ : Type} (cfg : Build) (ex : Executor σ)
    (nrItems nrRegs : Nat) (s : ExecutionBlockImpl σ) :
    (s._passThroughBlocks.length ≤ 1 →
      (requestWrappedBlock cfg ex nrItems nrRegs s).2._passThroughBlocks.length ≤ 1) ∧
    (s._passThroughBlocks = [] →
      (requestWrappedBlock cfg ex nrItems nrRegs s).2._passThroughBlocks = []) ∧
    (∀ st, Event.prefetchBlock st ∈
        (requestWrappedBlock cfg ex nrItems nrRegs s).2.trace.drop s.trace.length →
      s._passThroughBlocks = [] ∧ ex.allowsBlockPassthrough = true) ∧
    (∀ b, ex.allowsBlockPassthrough = true → s._passThroughBlocks = [] →
      (requestWrappedBlock cfg ex nrItems nrRegs s).1 = Except.ok (HASMORE, some b) →
      ∃ blk m, s.itemBlockManager.requestBlock nrItems nrRegs = Except.ok (blk, m) ∧
        (prefetchBlock ex { s with itemBlockManager := m
                                   trace := s.trace ++
                                     [Event.requestBlock nrItems nrRegs] }).1 = HASMORE ∧
        (prefetchBlock ex { s with itemBlockManager := m
                                   trace := s.trace ++
                                     [Event.requestBlock nrItems nrRegs] }).2._passThroughBlocks
          = [b] ∧
        (requestWrappedBlock cfg ex nrItems nrRegs s).2._passThroughBlocks = []) := by
  unfold requestWrappedBlock
  cases hm : s.itemBlockManager.requestBlock nrItems nrRegs with
  | error e =>
    refine ⟨fun h => h, fun h => h, ?_, ?_⟩
    · intro st hmem
      simp at hmem
    · intro b _ _ h
      simp at h
  | ok bm =>
    obtain ⟨block, m⟩ := bm
    simp only []
    by_cases hp : ex.allowsBlockPassthrough = true
    · simp only [hp, if_true]
      by_cases he : s._passThroughBlocks.isEmpty = true
      · have hnil : s._passThroughBlocks = [] := List.isEmpty_iff.mp he
        simp only [he, if_true]
        have hq := prefetchBlock_queue ex
          { s with itemBlockManager := m
                   trace := s.trace ++ [Event.requestBlock nrItems nrRegs] }
        obtain ⟨p1, -⟩ := prefetchBlock_spec ex
          { s with itemBlockManager := m
                   trace := s.trace ++ [Event.requestBlock nrItems nrRegs] }
        generalize hpeq : prefetchBlock ex
          { s with itemBlockManager := m
                   trace := s.trace ++ [Event.requestBlock nrItems nrRegs] } = p at hq p1
        obtain ⟨st, t⟩ := p
        simp only [hnil, List.nil_append] at hq
        rcases hq with ⟨hsame, -⟩ | ⟨b0, hst, hpush, -, -⟩
        · by_cases hwd : st = WAITING ∨ st = DONE
          · simp only [hwd, if_true]
            refine ⟨?_, ?_, ?_, ?_⟩
            · intro _; simp [hsame]
            · intro _; exact hsame
            · intro _ _; exact ⟨hnil, by simp [hp]⟩
            · intro b _ _ h
              simp only [Except.ok.injEq, Prod.mk.injEq] at h
              cases h.2
          · simp only [hwd, if_false]
            rw [hsame]
            simp only []
            refine ⟨?_, ?_, ?_, ?_⟩
            · intro _; simp [hsame]
            · intro _; exact hsame
            · intro _ _; exact ⟨hnil, by simp [hp]⟩
            · intro b _ _ h
              cases hmm : cfg.maintainerMode <;> simp [hmm] at h
        · subst hst
          simp only [reduceCtorEq, or_self, if_false]
          rw [hpush]
          have hlen : triAssert cfg (decide ([b0].length = 1)) = Except.ok () :=
            triAssert_ok cfg _ (fun _ => by simp)
          simp only [hlen]
          cases hr : triAssert cfg (decide (b0.getNrRegs = nrRegs)) with
          | error e =>
            simp only []
            refine ⟨?_, ?_, ?_, ?_⟩
            · intro _; simp
            · intro _; trivial
            · intro _ _; exact ⟨hnil, by simp [hp]⟩
            · intro b _ _ h
              cases h
          | ok u =>
            simp only []
            refine ⟨?_, ?_, ?_, ?_⟩
            · intro _; simp
            · intro _; trivial
            · intro _ _; exact ⟨hnil, by simp [hp]⟩
            · intro b _ _ h
              simp only [Except.ok.injEq, Prod.mk.injEq, Option.some.injEq, true_and] at h
              subst h
              refine ⟨block, m, rfl, ?_, ?_, trivial⟩
              · rw [hpeq]
              · rw [hpeq]; exact hpush
      · have hne : s._passThroughBlocks ≠ [] := fun h => he (by rw [h]; rfl)
        simp only [he, Bool.false_eq_true, if_false, reduceCtorEq, or_self]
        have htr : ∀ (st : ExecutionState),
            Event.prefetchBlock st ∉
              (s.trace ++ [Event.requestBlock nrItems nrRegs]).drop s.trace.length := by
          intro st hmem
          simp at hmem
        cases hq : s._passThroughBlocks with
        | nil => exact absurd hq hne
        | cons x rest =>
          simp only []
          cases hl : triAssert cfg (decide ((x :: rest).length = 1)) with
          | error e =>
            simp only []
            refine ⟨?_, ?_, ?_, ?_⟩
            · intro h; simpa [hq] using h
            · intro h; cases h
            · intro st hmem; exact absurd hmem (htr st)
            · intro b _ h; cases h
          | ok u =>
            simp only []
            cases hr : triAssert cfg (decide (x.getNrRegs = nrRegs)) with
            | error e =>
              simp only []
              refine ⟨?_, ?_, ?_, ?_⟩
              · intro h; simp only [List.length_cons] at h; show rest.length ≤ 1; omega
              · intro h; cases h
              · intro st hmem; exact absurd hmem (htr st)
              · intro b _ h; cases h
            | ok u2 =>
              simp only []
              refine ⟨?_, ?_, ?_, ?_⟩
              · intro h; simp only [List.length_cons] at h; show rest.length ≤ 1; omega
              · intro h; cases h
              · intro st hmem; exact absurd hmem (htr st)
              · intro b _ h; cases h
    · simp only [hp, Bool.false_eq_true, if_false]
      refine ⟨fun h => h, fun h => h, ?_, ?_⟩
      · intro st hmem
        simp at hmem
      · intro b h
        exact h.elim

theorem produceLoop_queue {σ : Type} (cfg : Build) (ex : Executor σ) (atMost fuel : Nat) :
    ∀ (s : ExecutionBlockImpl σ) (o : OutputAqlItemRow) (state : ExecutionState)
      (out : Except Error (ExecutionState × Option AqlItemBlock)) (s' : ExecutionBlockImpl σ),
      produceLoop cfg ex atMost fuel s o state = some (out, s') →
      s'._passThroughBlocks = s._passThroughBlocks := by
  induction fuel with
  | zero => intro s o state out s' h; simp [produceLoop] at h
  | succ fuel ih =>
    intro s o state out s' h
    unfold produceLoop at h
    by_cases hfull : o.isFull = true
    · simp only [hfull, if_true] at h
      cases h1 : triAssert cfg (decide (state = HASMORE)) with
      | error e =>
        simp only [h1, Option.some.injEq, Prod.mk.injEq] at h
        rw [← h.2]
      | ok u =>
        simp only [h1] at h
        cases h2 : triAssert cfg (decide (o.numRowsWritten = atMost)) with
        | error e =>
          simp only [h2, Option.some.injEq, Prod.mk.injEq] at h
          rw [← h.2]
        | ok u2 =>
          simp only [h2, Option.some.injEq, Prod.mk.injEq] at h
          rw [← h.2]
    · simp only [hfull, Bool.false_eq_true, if_false] at h
      by_cases hw : (ex.produceRow s._executor o).state = WAITING
      · simp only [hw, if_true, Option.some.injEq, Prod.mk.injEq] at h
        rw [← h.2]
      · simp only [hw, if_false] at h
        by_cases hd : (ex.produceRow s._executor o).state = DONE
        · simp only [hd, if_true, Option.some.injEq, Prod.mk.injEq] at h
          rw [← h.2]
        · simp only [hd, if_false] at h
          rw [ih _ _ _ out s' h]

theorem getSomeWithoutTrace_queue {σ : Type} (cfg : Build) (ex : Executor σ)
    (fuel atMost : Nat) (s s' : ExecutionBlockImpl σ)
    (out : Except Error (ExecutionState × Option AqlItemBlock))
    (h : getSomeWithoutTrace cfg ex fuel atMost s = some (out, s')) :
    (s._passThroughBlocks.length ≤ 1 → s'._passThroughBlocks.length ≤ 1) ∧
    (s._passThroughBlocks = [] → s'._passThroughBlocks = []) ∧
    (s._outputItemRow ≠ none → s'._passThroughBlocks = s._passThroughBlocks) := by
  have hsame : ∀ (P : Prop) (t : ExecutionBlockImpl σ),
      t._passThroughBlocks = s._passThroughBlocks →
      (s._passThroughBlocks.length ≤ 1 → t._passThroughBlocks.length ≤ 1) ∧
      (s._passThroughBlocks = [] → t._passThroughBlocks = []) ∧
      (P → t._passThroughBlocks = s._passThroughBlocks) :=
    fun _ t ht => ⟨fun hl => by rw [ht]; exact hl, fun hn => by rw [ht]; exact hn, fun _ => ht⟩
  unfold getSomeWithoutTrace at h
  by_cases hf1 : triIfFailure cfg "ExecutionBlock::getOrSkipSome1" = true
  · rw [if_pos hf1] at h
    simp only [Option.some.injEq, Prod.mk.injEq] at h
    exact hsame _ s' (by rw [← h.2])
  rw [if_neg hf1] at h
  by_cases hf2 : triIfFailure cfg "ExecutionBlock::getOrSkipSome2" = true
  · rw [if_pos hf2] at h
    simp only [Option.some.injEq, Prod.mk.injEq] at h
    exact hsame _ s' (by rw [← h.2])
  rw [if_neg hf2] at h
  by_cases hf3 : triIfFailure cfg "ExecutionBlock::getOrSkipSome3" = true
  · rw [if_pos hf3] at h
    simp only [Option.some.injEq, Prod.mk.injEq] at h
    exact hsame _ s' (by rw [← h.2])
  rw [if_neg hf3] at h
  cases ho : s._outputItemRow with
  | some o =>
    simp only [ho] at h
    cases ha : triAssert cfg (decide (0 < atMost)) with
    | error e =>
      simp only [ha, Option.some.injEq, Prod.mk.injEq] at h
      exact hsame _ s' (by rw [← h.2])
    | ok u =>
      simp only [ha] at h
      exact hsame _ s' (produceLoop_queue cfg ex atMost fuel _ _ _ out s' h)
  | none =>
    simp only [ho] at h
    obtain ⟨q1, q2, -, -⟩ := requestWrappedBlock_queue cfg ex atMost ex.numberOfOutputRegisters s
    generalize requestWrappedBlock cfg ex atMost ex.numberOfOutputRegisters s = rw at h q1 q2
    have hfrom : ∀ t : ExecutionBlockImpl σ, t._passThroughBlocks = rw.2._passThroughBlocks →
        (s._passThroughBlocks.length ≤ 1 → t._passThroughBlocks.length ≤ 1) ∧
        (s._passThroughBlocks = [] → t._passThroughBlocks = []) ∧
        (none ≠ (none : Option OutputAqlItemRow) →
          t._passThroughBlocks = s._passThroughBlocks) :=
      fun t ht => ⟨fun hl => by rw [ht]; exact q1 hl, fun hn => by rw [ht]; exact q2 hn,
        fun hx => absurd rfl hx⟩
    obtain ⟨r, s1⟩ := rw
    cases r with
    | error e =>
      simp only [Option.some.injEq, Prod.mk.injEq] at h
      exact hfrom s' (by rw [← h.2])
    | ok v =>
      obtain ⟨state, newBlock⟩ := v
      simp only [] at h
      by_cases hst : state = HASMORE
      · simp only [hst, ne_eq, not_true_eq_false, if_false] at h
        cases newBlock with
        | none =>
          simp only [Option.some.injEq, Prod.mk.injEq] at h
          exact hfrom s' (by rw [← h.2])
        | some b =>
          simp only [] at h
          cases ha : triAssert cfg (decide (0 < atMost)) with
          | error e =>
            simp only [ha, Option.some.injEq, Prod.mk.injEq] at h
            exact hfrom s' (by rw [← h.2])
          | ok u =>
            simp only [ha] at h
            exact hfrom s' (produceLoop_queue cfg ex atMost fuel _ _ _ out s' h)
      · simp only [hst, ne_eq, not_false_eq_true, if_true] at h
        cases hn : triAssert cfg newBlock.isNone with
        | error e =>
          simp only [hn, Option.some.injEq, Prod.mk.injEq] at h
          exact hfrom s' (by rw [← h.2])
        | ok u =>
          simp only [hn, Option.some.injEq, Prod.mk.injEq] at h
          exact hfrom s' (by rw [← h.2])

theorem skipSome_queue {σ : Type} (cfg : Build) (ex : Executor σ) (fuel atMost : Nat)
    (s s' : ExecutionBlockImpl σ) (out : Except Error (ExecutionState × Nat))
    (h : skipSome cfg ex fuel atMost s = some (out, s')) :
    (s._passThroughBlocks.length ≤ 1 → s'._passThroughBlocks.length ≤ 1) ∧
    (s._passThroughBlocks = [] → s'._passThroughBlocks = []) := by
  unfold skipSome at h
  cases hg : getSomeWithoutTrace cfg ex fuel atMost s with
  | none => simp [hg] at h
  | some r =>
    obtain ⟨out1, s1⟩ := r
    obtain ⟨q1, q2, -⟩ := getSomeWithoutTrace_queue cfg ex fuel atMost s s1 out1 hg
    have hs : s'._passThroughBlocks = s1._passThroughBlocks := by
      rw [hg] at h
      cases out1 with
      | error e =>
        simp only [Option.some.injEq, Prod.mk.injEq] at h
        rw [← h.2]
      | ok v =>
        obtain ⟨st, b⟩ := v
        cases b with
        | none =>
          simp only [Option.some.injEq, Prod.mk.injEq] at h
          rw [← h.2]
        | some blk =>
          simp only [Option.some.injEq, Prod.mk.injEq] at h
          rw [← h.2]
    rw [hs]
    exact ⟨q1, q2⟩

theorem initializeCursor_queue {σ : Type} (ex : Executor σ) (rb : Rebuild σ)
    (items : Option AqlItemBlock) (pos : Nat) (s : ExecutionBlockImpl σ) :
    (initializeCursor rb items pos s).2._passThroughBlocks = s._passThroughBlocks ∧
    (initializeCursorId ex rb items pos s).2._passThroughBlocks = s._passThroughBlocks := by
  refine ⟨rfl, ?_⟩
  unfold initializeCursorId
  cases items with
  | some b => rfl
  | none =>
    simp only []
    cases hreq : s.itemBlockManager.requestBlock 1 ex.numberOfOutputRegisters with
    | error e => rfl
    | ok bm => rfl

/-- C26 (one-slot pass-through queue): between two calls the pass-through
queue of a block is empty, in every state reached from the constructor by
`getSome`, `skipSome` and `initializeCursor` calls; `requestWrappedBlock` calls
`prefetchBlock` only for a pass-through-eligible executor with an empty queue;
a prefetch on an empty queue leaves at most one batch in it, and exactly one
when it reports HASMORE and upstream did not answer HASMORE without a batch;
and when `requestWrappedBlock` hands out a batch under pass-through, that
batch was the one entry of the queue after the prefetch and the queue is empty
afterwards, also while the batch is the open output batch. -/
theorem C26_one_slot_queue {σ : Type} (cfg : Build) (ex : Executor σ) :
    (∀ (rb : Rebuild σ) (s : ExecutionBlockImpl σ),
      Reachable cfg ex rb s → s._passThroughBlocks = []) ∧
    (∀ (fuel atMost : Nat) (s s' : ExecutionBlockImpl σ)
        (out : Except Error (ExecutionState × Option AqlItemBlock)),
      getSome cfg ex fuel atMost s = some (out, s') →
      (s._passThroughBlocks.length ≤ 1 → s'._passThroughBlocks.length ≤ 1) ∧
      (s._passThroughBlocks = [] → s'._passThroughBlocks = [])) ∧
    (∀ (nrItems nrRegs : Nat) (s : ExecutionBlockImpl σ) (st : ExecutionState),
      Event.prefetchBlock st ∈
        (requestWrappedBlock cfg ex nrItems nrRegs s).2.trace.drop s.trace.length →
      s._passThroughBlocks = [] ∧ ex.allowsBlockPassthrough = true) ∧
    (∀ s : ExecutionBlockImpl σ, s._passThroughBlocks = [] →
      (prefetchBlock ex s).2._passThroughBlocks.length ≤ 1 ∧
      ((prefetchBlock ex s).1 = HASMORE →
        (ex.upstreamGetSome s._executor).1 ≠ (HASMORE, none) →
        ∃ b, (prefetchBlock ex s).2._passThroughBlocks = [b])) ∧
    (∀ (nrItems nrRegs : Nat) (s : ExecutionBlockImpl σ) (b : AqlItemBlock),
      ex.allowsBlockPassthrough = true → s._passThroughBlocks = [] →
      (requestWrappedBlock cfg ex nrItems nrRegs s).1 = Except.ok (HASMORE, some b) →
      ∃ blk m, s.itemBlockManager.requestBlock nrItems nrRegs = Except.ok (blk, m) ∧
        (prefetchBlock ex { s with itemBlockManager := m
                                   trace := s.trace ++
                                     [Event.requestBlock nrItems nrRegs] }).1 = HASMORE ∧
        (prefetchBlock ex { s with itemBlockManager := m
                                   trace := s.trace ++
                                     [Event.requestBlock nrItems nrRegs] }).2._passThroughBlocks
          = [b] ∧
        (requestWrappedBlock cfg ex nrItems nrRegs s).2._passThroughBlocks = []) := by
  refine ⟨?_, ?_, ?_, ?_, ?_⟩
  · intro rb s hr
    induction hr with
    | constructed e m => rfl
    | afterGetSome s s1 fuel atMost out _ h ih =>
      exact (getSomeWithoutTrace_queue cfg ex fuel atMost s s1 out h).2.1 ih
    | afterSkipSome s s1 fuel atMost out _ h ih =>
      exact (skipSome_queue cfg ex fuel atMost s s1 out h).2 ih
    | afterInitializeCursor s items pos _ ih =>
      rw [(initializeCursor_queue ex rb items pos s).1]; exact ih
    | afterInitializeCursorId s items pos _ ih =>
      rw [(initializeCursor_queue ex rb items pos s).2]; exact ih
  · intro fuel atMost s s' out h
    obtain ⟨q1, q2, -⟩ := getSomeWithoutTrace_queue cfg ex fuel atMost s s' out h
    exact ⟨q1, q2⟩
  · intro nrItems nrRegs s st
    exact (requestWrappedBlock_queue cfg ex nrItems nrRegs s).2.2.1 st
  · intro s hnil
    rcases prefetchBlock_queue ex s with ⟨hsame, hno⟩ | ⟨b, _, hpush, _, _⟩
    · refine ⟨by rw [hsame, hnil]; simp, ?_⟩
      intro hst hne
      exact absurd (hno hst) hne
    · rw [hnil, List.nil_append] at hpush
      exact ⟨by rw [hpush]; simp, fun _ _ => ⟨b, hpush⟩⟩
  · intro nrItems nrRegs s b
    exact (requestWrappedBlock_queue cfg ex nrItems nrRegs s).2.2.2 b

/-- C26 on the pass-through example: after a pull that hands on the upstream
batch {7,8,9} the queue is empty again. -/
theorem C26_one_slot_queue_witness :
    ∃ s', getSome releaseBuild (identityExecutor 1) 10 1000 passThroughExample =
        some (Except.ok (HASMORE, some (buildBlock [7, 8, 9])), s') ∧
      s'._passThroughBlocks = [] :=
  ⟨_, rfl, ((C26_one_slot_queue releaseBuild (identityExecutor 1)).2.1 10 1000
    passThroughExample _ _ rfl).2 rfl⟩

/-- The fuel `roundsLeft` always suffices for the loop of `produceRow`, also
when upstream delivers empty batches. -/
theorem produceRow_isSome (infos : CountCollectExecutorInfos) :
    ∀ (fuel : Nat) (e : CountCollectExecutor), e.roundsLeft ≤ fuel →
      ∃ r, CountCollectExecutor.produceRow infos fuel e = some r := by
  intro fuel
  induction fuel with
  | zero =>
    intro e hM
    unfold CountCollectExecutor.roundsLeft at hM
    omega
  | succ fuel ih =>
    intro e hM
    obtain ⟨⟨blk, idx, st⟩, dep, cnt⟩ := e
    unfold CountCollectExecutor.produceRow
    simp only []
    split
    · exact ⟨_, rfl⟩
    · split
      · exact ⟨_, rfl⟩
      · split
        · exact ⟨_, rfl⟩
        · rename_i hw hinit hd
          apply ih
          simp only [CountCollectExecutor.roundsLeft, CountCollectExecutor.incrCount] at hM ⊢
          cases blk with
          | none =>
            cases dep with
            | nil =>
              simp [SingleRowFetcher.fetchRow, SingleRowFetcher.indexIsValid, Dependency.getSome,
                SingleRowFetcher.returnRow, InputAqlItemRow.invalid,
                InputAqlItemRow.isInitialized] at hinit
            | cons a rest =>
              obtain ⟨ast, ab⟩ := a
              by_cases hwa : ast = WAITING
              · simp [SingleRowFetcher.fetchRow, SingleRowFetcher.indexIsValid,
                  Dependency.getSome, hwa] at hw
              · cases ab with
                | none =>
                  simp [SingleRowFetcher.fetchRow, SingleRowFetcher.indexIsValid,
                    Dependency.getSome, hwa, SingleRowFetcher.returnRow,
                    InputAqlItemRow.invalid, InputAqlItemRow.isInitialized] at hinit
                | some b =>
                  simp only [SingleRowFetcher.fetchRow, SingleRowFetcher.indexIsValid,
                    Dependency.getSome, hwa, SingleRowFetcher.returnRow, Option.map_some',
                    SingleRowFetcher.rowsLeft, callsToConsume_cons, List.length_cons,
                    Bool.false_eq_true, if_false] at hM ⊢
                  omega
          | some sh =>
            by_cases hlt : idx < sh.block.size
            · simp only [SingleRowFetcher.fetchRow, SingleRowFetcher.indexIsValid, hlt,
                decide_True, if_true, SingleRowFetcher.returnRow,
                SingleRowFetcher.rowsLeft] at hM ⊢
              omega
            · cases dep with
              | nil =>
                simp [SingleRowFetcher.fetchRow, SingleRowFetcher.indexIsValid, hlt,
                  Dependency.getSome, SingleRowFetcher.returnRow, InputAqlItemRow.invalid,
                  InputAqlItemRow.isInitialized] at hinit
              | cons a rest =>
                obtain ⟨ast, ab⟩ := a
                by_cases hwa : ast = WAITING
                · simp [SingleRowFetcher.fetchRow, SingleRowFetcher.indexIsValid, hlt,
                    Dependency.getSome, hwa] at hw
                · cases ab with
                  | none =>
                    simp [SingleRowFetcher.fetchRow, SingleRowFetcher.indexIsValid, hlt,
                      Dependency.getSome, hwa, SingleRowFetcher.returnRow,
                      InputAqlItemRow.invalid, InputAqlItemRow.isInitialized] at hinit
                  | some b =>
                    simp only [SingleRowFetcher.fetchRow, SingleRowFetcher.indexIsValid, hlt,
                      decide_False, Dependency.getSome, hwa, SingleRowFetcher.returnRow,
                      Option.map_some', SingleRowFetcher.rowsLeft, callsToConsume_cons,
                      List.length_cons, Bool.false_eq_true, if_false] at hM ⊢
                    omega

/-- A `TRI_ASSERT` that fails, fails with the assertion failure. -/
theorem triAssert_error (cfg : Build) (c : Bool) (e : Error)
    (h : triAssert cfg c = Except.error e) : e = Error.assertion := by
  unfold triAssert at h
  split at h
  · simp only [Except.error.injEq] at h; exact h.symm
  · cases h

/-- In a build that does not check assertions the loop of `getSomeWithoutTrace`
does not look at `atMost`. -/
theorem produceLoop_release_atMost {σ : Type} (cfg : Build) (ex : Executor σ) (a b : Nat)
    (hm : cfg.maintainerMode = false) :
    ∀ (fuel : Nat) (s : ExecutionBlockImpl σ) (o : OutputAqlItemRow) (st : ExecutionState),
      produceLoop cfg ex a fuel s o st = produceLoop cfg ex b fuel s o st := by
  intro fuel
  induction fuel with
  | zero => intro s o st; rfl
  | succ f ih =>
    intro s o st
    simp only [produceLoop, triAssert, hm, Bool.false_and, Bool.false_eq_true, if_false, ih]

/-- In a build that does not check assertions a pull on an open output batch
does not look at `atMost`. -/
theorem getSome_release_open_atMost {σ : Type} (cfg : Build) (ex : Executor σ)
    (fuel a b : Nat) (s : ExecutionBlockImpl σ) (hm : cfg.maintainerMode = false)
    (ho : s._outputItemRow ≠ none) :
    getSome cfg ex fuel a s = getSome cfg ex fuel b s := by
  unfold getSome getSomeWithoutTrace
  cases hc : s._outputItemRow with
  | none => exact absurd hc ho
  | some o =>
    simp only [triAssert, hm, Bool.false_and, Bool.false_eq_true, if_false,
      produceLoop_release_atMost cfg ex a b hm]

/-- In a build that does not check assertions a pull with `atMost = 0` on a
block that is not pass-through-eligible and has no output batch open requests
a batch of 0 rows, which is full at once, and returns HASMORE with a null
batch. -/
theorem getSome_zero_release_fresh {σ : Type} (cfg : Build) (ex : Executor σ)
    (fuel : Nat) (s : ExecutionBlockImpl σ) (blk : AqlItemBlock) (m : AqlItemBlockManager)
    (hm : cfg.maintainerMode = false) (hnf : noFailurePoint cfg)
    (ho : s._outputItemRow = none) (hp : ex.allowsBlockPassthrough = false)
    (hreq : s.itemBlockManager.requestBlock 0 ex.numberOfOutputRegisters = Except.ok (blk, m)) :
    getSome cfg ex (fuel + 1) 0 s = some (Except.ok (HASMORE, none),
      { s with itemBlockManager := m
               trace := s.trace ++ [Event.requestBlock 0 ex.numberOfOutputRegisters]
               _outputItemRow := none }) := by
  obtain ⟨h1, h2, h3⟩ := hnf
  have hblk : blk = ⟨ex.numberOfOutputRegisters, []⟩ := by
    have := requestBlock_block _ _ _ _ _ hreq
    simpa using this
  subst hblk
  have hrw : requestWrappedBlock cfg ex 0 ex.numberOfOutputRegisters s =
      (Except.ok (HASMORE, some ⟨ex.numberOfOutputRegisters, []⟩),
        { s with itemBlockManager := m
                 trace := s.trace ++ [Event.requestBlock 0 ex.numberOfOutputRegisters] }) := by
    unfold requestWrappedBlock
    rw [hreq]
    simp only [hp, Bool.false_eq_true, if_false]
  simp only [getSome, getSomeWithoutTrace, h1, h2, h3, ho, hrw, Bool.false_eq_true, if_false,
    triAssert, hm, Bool.false_and, ne_eq, not_true_eq_false, produceLoop]
  rfl

/-- Opening an output batch under pass-through with an empty queue: a WAITING
or DONE of the prefetch is returned with a null batch right after the batch
request and the prefetch; `produceRow` is not called. -/
theorem getSome_prefetch_not_hasmore {σ : Type} (cfg : Build) (ex : Executor σ)
    (fuel atMost : Nat) (s : ExecutionBlockImpl σ) (blk : AqlItemBlock)
    (m : AqlItemBlockManager)
    (hnf : noFailurePoint cfg) (hp : ex.allowsBlockPassthrough = true)
    (ho : s._outputItemRow = none) (hq : s._passThroughBlocks = [])
    (hreq : s.itemBlockManager.requestBlock atMost ex.numberOfOutputRegisters =
      Except.ok (blk, m))
    (hst : (prefetchBlock ex
        { s with itemBlockManager := m
                 trace := s.trace ++
                   [Event.requestBlock atMost ex.numberOfOutputRegisters] }).1 = WAITING ∨
      (prefetchBlock ex
        { s with itemBlockManager := m
                 trace := s.trace ++
                   [Event.requestBlock atMost ex.numberOfOutputRegisters] }).1 = DONE) :
    ∃ s', getSome cfg ex fuel atMost s = some (Except.ok ((prefetchBlock ex
        { s with itemBlockManager := m
                 trace := s.trace ++
                   [Event.requestBlock atMost ex.numberOfOutputRegisters] }).1, none), s') ∧
      s'.trace = s.trace ++
        [Event.requestBlock atMost ex.numberOfOutputRegisters, Event.prefetchBlock (prefetchBlock ex
          { s with itemBlockManager := m
                   trace := s.trace ++
                     [Event.requestBlock atMost ex.numberOfOutputRegisters] }).1] := by
  obtain ⟨h1, h2, h3⟩ := hnf
  obtain ⟨p1, _, _, _⟩ := prefetchBlock_spec ex
    { s with itemBlockManager := m
             trace := s.trace ++ [Event.requestBlock atMost ex.numberOfOutputRegisters] }
  have hemp : s._passThroughBlocks.isEmpty = true := by rw [hq]; rfl
  have hrw0 : requestWrappedBlock cfg ex atMost ex.numberOfOutputRegisters s =
      (Except.ok ((prefetchBlock ex
          { s with itemBlockManager := m
                   trace := s.trace ++
                     [Event.requestBlock atMost ex.numberOfOutputRegisters] }).1, none),
        (prefetchBlock ex
          { s with itemBlockManager := m
                   trace := s.trace ++
                     [Event.requestBlock atMost ex.numberOfOutputRegisters] }).2) := by
    unfold requestWrappedBlock
    rw [hreq]
    simp only [hp, hemp, if_true, hst]
  generalize prefetchBlock ex
    { s with itemBlockManager := m
             trace := s.trace ++ [Event.requestBlock atMost ex.numberOfOutputRegisters] } = p
    at hst p1 hrw0
  obtain ⟨st, t⟩ := p
  simp only [] at hst p1 hrw0
  have hne : st ≠ HASMORE := by rcases hst with rfl | rfl <;> simp
  have hta : triAssert cfg true = Except.ok () := by simp [triAssert]
  refine ⟨t, ?_, ?_⟩
  · simp [getSome, getSomeWithoutTrace, h1, h2, h3, ho, hrw0, hne, hta]
  · rw [p1]; simp

/-- A pull with `atMost = 0` under pass-through, with no output batch open and
an empty queue, in a build that checks assertions: when the prefetch reports
neither WAITING nor DONE the pull fails on an assertion, after the batch
request and the prefetch. -/
theorem getSome_zero_maintainer_passthrough {σ : Type} (cfg : Build) (ex : Executor σ)
    (fuel : Nat) (s : ExecutionBlockImpl σ) (blk : AqlItemBlock) (m : AqlItemBlockManager)
    (hm : cfg.maintainerMode = true) (hnf : noFailurePoint cfg)
    (hp : ex.allowsBlockPassthrough = true)
    (ho : s._outputItemRow = none) (hq : s._passThroughBlocks = [])
    (hreq : s.itemBlockManager.requestBlock 0 ex.numberOfOutputRegisters = Except.ok (blk, m))
    (hst : ¬ ((prefetchBlock ex
        { s with itemBlockManager := m
                 trace := s.trace ++
                   [Event.requestBlock 0 ex.numberOfOutputRegisters] }).1 = WAITING ∨
      (prefetchBlock ex
        { s with itemBlockManager := m
                 trace := s.trace ++
                   [Event.requestBlock 0 ex.numberOfOutputRegisters] }).1 = DONE)) :
    ∃ s', getSome cfg ex fuel 0 s = some (Except.error Error.assertion, s') ∧
      s'.trace = s.trace ++
        [Event.requestBlock 0 ex.numberOfOutputRegisters, Event.prefetchBlock HASMORE] := by
  obtain ⟨h1, h2, h3⟩ := hnf
  obtain ⟨p1, _, _, _⟩ := prefetchBlock_spec ex
    { s with itemBlockManager := m
             trace := s.trace ++ [Event.requestBlock 0 ex.numberOfOutputRegisters] }
  have hemp : s._passThroughBlocks.isEmpty = true := by rw [hq]; rfl
  have hrw0 : requestWrappedBlock cfg ex 0 ex.numberOfOutputRegisters s =
      (match (prefetchBlock ex
          { s with itemBlockManager := m
                   trace := s.trace ++
                     [Event.requestBlock 0 ex.numberOfOutputRegisters] }).2._passThroughBlocks with
        | [] => (Except.error Error.assertion, (prefetchBlock ex
          { s with itemBlockManager := m
                   trace := s.trace ++
                     [Event.requestBlock 0 ex.numberOfOutputRegisters] }).2)
        | blockShell :: rest =>
          match triAssert cfg (decide ((prefetchBlock ex
            { s with itemBlockManager := m
                     trace := s.trace ++
                       [Event.requestBlock 0 ex.numberOfOutputRegisters] }).2._passThroughBlocks.length
                = 1)) with
          | Except.error e => (Except.error e, (prefetchBlock ex
            { s with itemBlockManager := m
                     trace := s.trace ++
                       [Event.requestBlock 0 ex.numberOfOutputRegisters] }).2)
          | Except.ok _ =>
            match triAssert cfg (decide (blockShell.getNrRegs = ex.numberOfOutputRegisters)) with
            | Except.error e => (Except.error e, { (prefetchBlock ex
              { s with itemBlockManager := m
                       trace := s.trace ++
                         [Event.requestBlock 0 ex.numberOfOutputRegisters] }).2 with
                _passThroughBlocks := rest })
            | Except.ok _ => (Except.ok (HASMORE, some blockShell), { (prefetchBlock ex
              { s with itemBlockManager := m
                       trace := s.trace ++
                         [Event.requestBlock 0 ex.numberOfOutputRegisters] }).2 with
                _passThroughBlocks := rest })) := by
    unfold requestWrappedBlock
    rw [hreq]
    simp only [hp, hemp, if_true, hst, if_false, hm]
    try rfl
  generalize prefetchBlock ex
    { s with itemBlockManager := m
             trace := s.trace ++ [Event.requestBlock 0 ex.numberOfOutputRegisters] } = p
    at hst p1 hrw0
  obtain ⟨st, t⟩ := p
  simp only [] at hst p1 hrw0
  have hst2 : st = HASMORE := by
    cases st <;>
      first | rfl | exact absurd (Or.inl rfl) hst | exact absurd (Or.inr rfl) hst
  subst hst2
  have htr : t.trace = s.trace ++
      [Event.requestBlock 0 ex.numberOfOutputRegisters, Event.prefetchBlock HASMORE] := by
    rw [p1]; simp
  have h0 : triAssert cfg false = Except.error Error.assertion := by
    simp [triAssert, hm]
  cases hqq : t._passThroughBlocks with
  | nil =>
    rw [hqq] at hrw0
    simp only [] at hrw0
    refine ⟨t, ?_, htr⟩
    simp [getSome, getSomeWithoutTrace, h1, h2, h3, ho, hrw0]
  | cons x rest =>
    rw [hqq] at hrw0
    simp only [] at hrw0
    cases ha : triAssert cfg (decide ((x :: rest).length = 1)) with
    | error e =>
      have he := triAssert_error _ _ _ ha
      subst he
      rw [ha] at hrw0
      simp only [] at hrw0
      refine ⟨t, ?_, htr⟩
      simp [getSome, getSomeWithoutTrace, h1, h2, h3, ho, hrw0]
    | ok u =>
      rw [ha] at hrw0
      simp only [] at hrw0
      cases hb : triAssert cfg (decide (x.getNrRegs = ex.numberOfOutputRegisters)) with
      | error e =>
        have he := triAssert_error _ _ _ hb
        subst he
        rw [hb] at hrw0
        simp only [] at hrw0
        refine ⟨{ t with _passThroughBlocks := rest }, ?_, htr⟩
        simp [getSome, getSomeWithoutTrace, h1, h2, h3, ho, hrw0]
      | ok u2 =>
        rw [hb] at hrw0
        simp only [] at hrw0
        refine ⟨{ t with _passThroughBlocks := rest
                         _outputItemRow := some (OutputAqlItemRow.create x) }, ?_, htr⟩
        simp [getSome, getSomeWithoutTrace, h1, h2, h3, ho, hrw0, h0]

/-- C12, amended: a pull with `atMost = 0`, by build.  In a build that checks
assertions it always ends without calling `produceRow` and without returning
a batch: with an output batch open it fails on `TRI_ASSERT(atMost > 0)` at
once; with none open it fails only after the batch of 0 rows has been
requested from the batch manager and, for a pass-through-eligible executor
with an empty queue, after the prefetch from upstream, whose WAITING or DONE
is returned instead of the failure.  In a build that does not check
assertions `atMost = 0` is not rejected: with an output batch open the pull
does what a pull with any other `atMost` does, and with none open a block that
is not pass-through-eligible requests a batch of 0 rows and returns HASMORE
with a null batch. -/
theorem C12_zero_atMost_by_build {σ : Type} (cfg : Build) (ex : Executor σ)
    (fuel : Nat) (s : ExecutionBlockImpl σ) :
    (cfg.maintainerMode = true →
      ∃ out s' evs, getSome cfg ex fuel 0 s = some (out, s') ∧
        s'.trace = s.trace ++ evs ∧ onlyRequestOrPrefetch evs ∧ s'._stats = s._stats ∧
        (∀ st b, out = Except.ok (st, b) → b = none ∧ st ≠ HASMORE) ∧
        (noFailurePoint cfg → s._outputItemRow ≠ none →
          out = Except.error Error.assertion ∧ evs = []) ∧
        (noFailurePoint cfg → s._outputItemRow = none → ex.allowsBlockPassthrough = false →
          (∃ bm, s.itemBlockManager.requestBlock 0 ex.numberOfOutputRegisters = Except.ok bm) →
          out = Except.error Error.assertion ∧
          evs = [Event.requestBlock 0 ex.numberOfOutputRegisters]) ∧
        (noFailurePoint cfg → s._outputItemRow = none → ex.allowsBlockPassthrough = true →
          s._passThroughBlocks = [] →
          ∀ blk m, s.itemBlockManager.requestBlock 0 ex.numberOfOutputRegisters =
              Except.ok (blk, m) →
            evs = [Event.requestBlock 0 ex.numberOfOutputRegisters,
              Event.prefetchBlock (prefetchBlock ex
            { s with itemBlockManager := m
                     trace := s.trace ++
                       [Event.requestBlock 0 ex.numberOfOutputRegisters] }).1] ∧
            out = (if (prefetchBlock ex
            { s with itemBlockManager := m
                     trace := s.trace ++
                       [Event.requestBlock 0 ex.numberOfOutputRegisters] }).1 = WAITING ∨ (prefetchBlock ex
            { s with itemBlockManager := m
                     trace := s.trace ++
                       [Event.requestBlock 0 ex.numberOfOutputRegisters] }).1 = DONE then Except.ok ((prefetchBlock ex
            { s with itemBlockManager := m
                     trace := s.trace ++
                       [Event.requestBlock 0 ex.numberOfOutputRegisters] }).1, none)
              else Except.error Error.assertion))) ∧
    (cfg.maintainerMode = false →
      (s._outputItemRow ≠ none →
        ∀ atMost, getSome cfg ex fuel 0 s = getSome cfg ex fuel atMost s) ∧
      (noFailurePoint cfg → s._outputItemRow = none → ex.allowsBlockPassthrough = false →
        ∀ blk m, s.itemBlockManager.requestBlock 0 ex.numberOfOutputRegisters =
            Except.ok (blk, m) →
          getSome cfg ex (fuel + 1) 0 s = some (Except.ok (HASMORE, none),
            { s with itemBlockManager := m
                     trace := s.trace ++ [Event.requestBlock 0 ex.numberOfOutputRegisters]
                     _outputItemRow := none }))) := by
  refine ⟨?_, ?_⟩
  · intro hm
    obtain ⟨out, s', evs, hrun, htr, hev, hstats, hok, hopen, hclosed⟩ :=
      getSome_zero_maintainer cfg ex fuel s hm
    refine ⟨out, s', evs, hrun, htr, hev, hstats, hok, hopen, hclosed, ?_⟩
    intro hnf ho hp hq blk m hreq
    by_cases hst : (prefetchBlock ex
            { s with itemBlockManager := m
                     trace := s.trace ++
                       [Event.requestBlock 0 ex.numberOfOutputRegisters] }).1 = WAITING ∨ (prefetchBlock ex
            { s with itemBlockManager := m
                     trace := s.trace ++
                       [Event.requestBlock 0 ex.numberOfOutputRegisters] }).1 = DONE
    · obtain ⟨s2, h1, h2⟩ := getSome_prefetch_not_hasmore cfg ex fuel 0 s blk m hnf hp ho hq
        hreq hst
      rw [hrun] at h1
      simp only [Option.some.injEq, Prod.mk.injEq] at h1
      rw [if_pos hst]
      refine ⟨?_, h1.1⟩
      rw [← h1.2, htr] at h2
      exact List.append_cancel_left h2
    · obtain ⟨s2, h1, h2⟩ := getSome_zero_maintainer_passthrough cfg ex fuel s blk m hm hnf
        hp ho hq hreq hst
      rw [hrun] at h1
      simp only [Option.some.injEq, Prod.mk.injEq] at h1
      rw [if_neg hst]
      refine ⟨?_, h1.1⟩
      have hhas : (prefetchBlock ex
            { s with itemBlockManager := m
                     trace := s.trace ++
                       [Event.requestBlock 0 ex.numberOfOutputRegisters] }).1 = HASMORE := by
        generalize (prefetchBlock ex
            { s with itemBlockManager := m
                     trace := s.trace ++
                       [Event.requestBlock 0 ex.numberOfOutputRegisters] }).1 = st0 at hst
        cases st0 <;>
          first | rfl | exact absurd (Or.inl rfl) hst | exact absurd (Or.inr rfl) hst
      rw [← h1.2, htr] at h2
      rw [hhas]
      exact List.append_cancel_left h2
  · intro hm
    refine ⟨fun ho atMost => getSome_release_open_atMost cfg ex fuel 0 atMost s hm ho, ?_⟩
    intro hnf ho hp blk m hreq
    exact getSome_zero_release_fresh cfg ex fuel s blk m hm hnf ho hp hreq

/-- The amended C12 on the first pull of the suspension example with
`atMost = 0`: the failure after the batch request in the build that checks
assertions, HASMORE with a null batch in the build that does not. -/
theorem C12_zero_atMost_by_build_witness :
    (∃ out s' evs, getSome maintainerBuild (scriptedExecutor false 1) 10 0
        (ExecutionBlockImpl.create suspendingScript freshManager) = some (out, s') ∧
      s'.trace = (ExecutionBlockImpl.create suspendingScript freshManager).trace ++ evs ∧
      out = Except.error Error.assertion ∧ evs = [Event.requestBlock 0 1]) ∧
    getSome releaseBuild (scriptedExecutor false 1) (9 + 1) 0
        (ExecutionBlockImpl.create suspendingScript freshManager) =
      some (Except.ok (HASMORE, none),
        { ExecutionBlockImpl.create suspendingScript freshManager with
          itemBlockManager := freshManager
          trace := [] ++ [Event.requestBlock 0 1]
          _outputItemRow := none }) := by
  refine ⟨?_, ?_⟩
  · obtain ⟨out, s', evs, h1, h2, _, _, _, _, h7, _⟩ := (C12_zero_atMost_by_build
      maintainerBuild (scriptedExecutor false 1) 10
      (ExecutionBlockImpl.create suspendingScript freshManager)).1 rfl
    obtain ⟨h8, h9⟩ := h7 ⟨by decide, by decide, by decide⟩ rfl rfl ⟨_, rfl⟩
    exact ⟨out, s', evs, h1, h2, h8, h9⟩
  · exact ((C12_zero_atMost_by_build releaseBuild (scriptedExecutor false 1) 9
      (ExecutionBlockImpl.create suspendingScript freshManager)).2 rfl).2
      ⟨by decide, by decide, by decide⟩ rfl rfl _ _ rfl

/-- The loop on a cursor whose batch is not full starts with a `produceRow`
call. -/
theorem produceLoop_calls_produceRow {σ : Type} (cfg : Build) (ex : Executor σ)
    (atMost fuel : Nat) (s s' : ExecutionBlockImpl σ) (o : OutputAqlItemRow)
    (out : Except Error (ExecutionState × Option AqlItemBlock))
    (hfull : o.isFull = false)
    (h : produceLoop cfg ex atMost fuel s o HASMORE = some (out, s')) :
    ∃ st k w evs, s'.trace = s.trace ++ Event.produceRow st k w :: evs := by
  cases fuel with
  | zero => simp [produceLoop] at h
  | succ f =>
    unfold produceLoop at h
    simp only [hfull, Bool.false_eq_true, if_false] at h
    by_cases hw : (ex.produceRow s._executor o).state = WAITING
    · simp only [hw, if_true, Option.some.injEq, Prod.mk.injEq] at h
      refine ⟨WAITING, (ex.produceRow s._executor o).stats,
        (ex.produceRow s._executor o).written, [], ?_⟩
      rw [← h.2]
    · simp only [hw, if_false] at h
      by_cases hd : (ex.produceRow s._executor o).state = DONE
      · simp only [hd, if_true, Option.some.injEq, Prod.mk.injEq] at h
        refine ⟨DONE, (ex.produceRow s._executor o).stats,
          (ex.produceRow s._executor o).written, [], ?_⟩
        rw [← h.2]
      · simp only [hd, if_false] at h
        have hh : (ex.produceRow s._executor o).state = HASMORE := by
          cases hs : (ex.produceRow s._executor o).state <;> simp_all
        obtain ⟨evs, h1, _⟩ := produceLoop_trace cfg ex atMost f _ _ _ out s' hh h
        refine ⟨(ex.produceRow s._executor o).state, (ex.produceRow s._executor o).stats,
          (ex.produceRow s._executor o).written, evs, ?_⟩
        rw [h1]
        simp

/-- A call that opens a batch that is not empty calls `produceRow`, when it
returns. -/
theorem getSome_closed_calls_produceRow {σ : Type} (cfg : Build) (ex : Executor σ)
    (fuel atMost : Nat) (s s1 s2 : ExecutionBlockImpl σ) (b : AqlItemBlock)
    (out : Except Error (ExecutionState × Option AqlItemBlock))
    (hnf : noFailurePoint cfg) (ho : s._outputItemRow = none)
    (hrw : requestWrappedBlock cfg ex atMost ex.numberOfOutputRegisters s =
      (Except.ok (HASMORE, some b), s1))
    (hb : 0 < b.size) (hat : cfg.maintainerMode = true → 0 < atMost)
    (h : getSome cfg ex fuel atMost s = some (out, s2)) :
    ∃ st k w, Event.produceRow st k w ∈ s2.trace.drop s.trace.length := by
  rw [getSome_closed_eq cfg ex fuel atMost s s1 b hnf ho hrw hat] at h
  obtain ⟨st, k, w, evs, h1⟩ :=
    produceLoop_calls_produceRow cfg ex atMost fuel s1 s2 _ out (create_not_full b hb) h
  obtain ⟨_, _, evs0, h2, _⟩ :=
    requestWrappedBlock_spec cfg ex atMost ex.numberOfOutputRegisters s
  rw [hrw] at h2
  simp only [] at h2
  refine ⟨st, k, w, ?_⟩
  rw [h1, h2, List.append_assoc, List.drop_left' rfl]
  simp

/-- A `skipSome` call that returns is a `getSome` call that returns, followed
at most by the return of the batch. -/
theorem skipSome_of_getSome {σ : Type} (cfg : Build) (ex : Executor σ) (fuel atMost : Nat)
    (s s3 : ExecutionBlockImpl σ) (out3 : Except Error (ExecutionState × Nat))
    (h : skipSome cfg ex fuel atMost s = some (out3, s3)) :
    ∃ out2 s2 evs, getSome cfg ex fuel atMost s = some (out2, s2) ∧
      s3.trace = s2.trace ++ evs := by
  cases hg : getSomeWithoutTrace cfg ex fuel atMost s with
  | none => simp [skipSome, hg] at h
  | some r =>
    obtain ⟨out2, s2⟩ := r
    obtain ⟨out3', s3', evs, h1, h2⟩ := skipSome_trace cfg ex fuel atMost s s2 out2 hg
    rw [h] at h1
    simp only [Option.some.injEq, Prod.mk.injEq] at h1
    refine ⟨out2, s2, evs, hg, ?_⟩
    rw [h1.2]
    exact h2

/-- A `skipSome` call that returns has called `produceRow` when the `getSome`
calls that return have. -/
theorem skipSome_calls_produceRow {σ : Type} (cfg : Build) (ex : Executor σ)
    (fuel atMost : Nat) (s s3 : ExecutionBlockImpl σ)
    (out3 : Except Error (ExecutionState × Nat))
    (hget : ∀ out2 s2, getSome cfg ex fuel atMost s = some (out2, s2) →
      ∃ st k w, Event.produceRow st k w ∈ s2.trace.drop s.trace.length)
    (h : skipSome cfg ex fuel atMost s = some (out3, s3)) :
    ∃ st k w, Event.produceRow st k w ∈ s3.trace.drop s.trace.length := by
  obtain ⟨out2, s2, evs, h1, h2⟩ := skipSome_of_getSome cfg ex fuel atMost s s3 out3 h
  obtain ⟨st, k, w, hmem⟩ := hget out2 s2 h1
  refine ⟨st, k, w, ?_⟩
  rw [h2]
  obtain ⟨a, b, hab, _⟩ := getSomeWithoutTrace_trace cfg ex fuel atMost s s2 out2 h1
  rw [hab, List.drop_left' rfl] at hmem
  rw [hab, List.append_assoc, List.drop_left' rfl]
  exact List.mem_append_left _ hmem

/-- C16, amended: the block keeps no record that `produceRow` returned DONE.
Within one `getSome` call `produceRow` is not called again after it returned
DONE (a `produceRow` that returned DONE is the last event of the call), and
the call leaves no output cursor open.  A later `getSome` or `skipSome` call
of a block that is not pass-through-eligible, when it returns, has opened a
batch and called `produceRow` again, and it does return when that
`produceRow` answers WAITING or DONE.  A later call of a pass-through-eligible
block with an empty queue first prefetches: a WAITING or DONE of the prefetch
is returned with a null batch and without a `produceRow` call; when the
upstream delivers a batch that is not empty, the call, when it returns, has
called `produceRow` again. -/
theorem C16_no_record_of_exhaustion {σ : Type} (cfg : Build) (ex : Executor σ)
    (fuel atMost : Nat) (s s' : ExecutionBlockImpl σ) (b1 : Option AqlItemBlock)
    (h : getSome cfg ex fuel atMost s = some (Except.ok (DONE, b1), s')) :
    (∀ e ∈ (s'.trace.drop s.trace.length).dropLast, ∀ k w, e ≠ Event.produceRow DONE k w) ∧
    s'._outputItemRow = none ∧
    (∀ (fuel2 atMost2 : Nat) (b : AqlItemBlock) (m : AqlItemBlockManager),
      noFailurePoint cfg → ex.allowsBlockPassthrough = false → 0 < atMost2 →
      s'.itemBlockManager.requestBlock atMost2 ex.numberOfOutputRegisters = Except.ok (b, m) →
      (∀ out2 s2, getSome cfg ex fuel2 atMost2 s' = some (out2, s2) →
        ∃ st k w, Event.produceRow st k w ∈ s2.trace.drop s'.trace.length) ∧
      (∀ out3 s3, skipSome cfg ex fuel2 atMost2 s' = some (out3, s3) →
        ∃ st k w, Event.produceRow st k w ∈ s3.trace.drop s'.trace.length) ∧
      ((ex.produceRow s'._executor (OutputAqlItemRow.create b)).state ≠ HASMORE →
        (∃ out2 s2, getSome cfg ex (fuel2 + 1) atMost2 s' = some (out2, s2)) ∧
        (∃ out3 s3, skipSome cfg ex (fuel2 + 1) atMost2 s' = some (out3, s3)))) ∧
    (∀ (fuel2 atMost2 : Nat) (blk : AqlItemBlock) (m : AqlItemBlockManager),
      noFailurePoint cfg → ex.allowsBlockPassthrough = true → s'._passThroughBlocks = [] →
      s'.itemBlockManager.requestBlock atMost2 ex.numberOfOutputRegisters =
        Except.ok (blk, m) →
      ((prefetchBlock ex
            { s' with itemBlockManager := m
                      trace := s'.trace ++
                        [Event.requestBlock atMost2 ex.numberOfOutputRegisters] }).1 = WAITING ∨ (prefetchBlock ex
            { s' with itemBlockManager := m
                      trace := s'.trace ++
                        [Event.requestBlock atMost2 ex.numberOfOutputRegisters] }).1 = DONE →
        ∃ s2, getSome cfg ex fuel2 atMost2 s' = some (Except.ok ((prefetchBlock ex
            { s' with itemBlockManager := m
                      trace := s'.trace ++
                        [Event.requestBlock atMost2 ex.numberOfOutputRegisters] }).1, none), s2) ∧
          skipSome cfg ex fuel2 atMost2 s' = some (Except.ok ((prefetchBlock ex
            { s' with itemBlockManager := m
                      trace := s'.trace ++
                        [Event.requestBlock atMost2 ex.numberOfOutputRegisters] }).1, 0), s2) ∧
          s2.trace = s'.trace ++ [Event.requestBlock atMost2 ex.numberOfOutputRegisters,
            Event.prefetchBlock (prefetchBlock ex
            { s' with itemBlockManager := m
                      trace := s'.trace ++
                        [Event.requestBlock atMost2 ex.numberOfOutputRegisters] }).1]) ∧
      (∀ (ust : ExecutionState) (b2 : AqlItemBlock) (e1 : σ),
        ex.upstreamGetSome s'._executor = ((ust, some b2), e1) → ust ≠ WAITING →
        0 < b2.size →
        (cfg.maintainerMode = true →
          0 < atMost2 ∧ b2.getNrRegs = ex.numberOfOutputRegisters) →
        (∀ out2 s2, getSome cfg ex fuel2 atMost2 s' = some (out2, s2) →
          ∃ st k w, Event.produceRow st k w ∈ s2.trace.drop s'.trace.length) ∧
        (∀ out3 s3, skipSome cfg ex fuel2 atMost2 s' = some (out3, s3) →
          ∃ st k w, Event.produceRow st k w ∈ s3.trace.drop s'.trace.length))) := by
  obtain ⟨hlast, hclosed, hlive⟩ := getSome_after_done cfg ex fuel atMost s s' b1 h
  refine ⟨hlast, hclosed, ?_, ?_⟩
  · intro fuel2 atMost2 b m hnf hp hat hreq
    obtain ⟨hsz, _⟩ := requestBlock_shape _ _ _ _ _ hreq
    have hrw := requestWrappedBlock_fresh cfg ex atMost2 ex.numberOfOutputRegisters s' b m hp hreq
    have hget : ∀ fuel3 out2 s2, getSome cfg ex fuel3 atMost2 s' = some (out2, s2) →
        ∃ st k w, Event.produceRow st k w ∈ s2.trace.drop s'.trace.length :=
      fun fuel3 out2 s2 hrun => getSome_closed_calls_produceRow cfg ex fuel3 atMost2 s' _ s2 b
        out2 hnf hclosed hrw (by omega) (fun _ => hat) hrun
    refine ⟨hget fuel2, ?_, ?_⟩
    · intro out3 s3 hskip
      exact skipSome_calls_produceRow cfg ex fuel2 atMost2 s' s3 out3 (hget fuel2) hskip
    · intro hst
      obtain ⟨⟨out2, s2, _, _, _, hrun, _⟩, ⟨out3, s3, _, _, _, hskip, _⟩⟩ :=
        hlive fuel2 atMost2 b m hnf hp hat hreq hst
      exact ⟨⟨out2, s2, hrun⟩, ⟨out3, s3, hskip⟩⟩
  · intro fuel2 atMost2 blk m hnf hp hq hreq
    refine ⟨?_, ?_⟩
    · intro hst
      obtain ⟨s2, hrun, htr⟩ := getSome_prefetch_not_hasmore cfg ex fuel2 atMost2 s' blk m hnf
        hp hclosed hq hreq hst
      refine ⟨s2, hrun, ?_, htr⟩
      unfold getSome at hrun
      simp only [skipSome, hrun]
    · intro ust b2 e1 hup hust hb2 hmm
      obtain ⟨t, _, hrw⟩ := requestWrappedBlock_passthrough cfg ex atMost2
        ex.numberOfOutputRegisters s' blk m ust b2 e1 hp hq hreq hup hust
      have hrw2 := hrw (fun hm => (hmm hm).2)
      have hget : ∀ out2 s2, getSome cfg ex fuel2 atMost2 s' = some (out2, s2) →
          ∃ st k w, Event.produceRow st k w ∈ s2.trace.drop s'.trace.length :=
        fun out2 s2 hrun => getSome_closed_calls_produceRow cfg ex fuel2 atMost2 s' t s2 b2
          out2 hnf hclosed hrw2 hb2 (fun hm => (hmm hm).1) hrun
      exact ⟨hget, fun out3 s3 hskip =>
        skipSome_calls_produceRow cfg ex fuel2 atMost2 s' s3 out3 hget hskip⟩

/-- The amended C16 on two runs whose first pull ends with DONE: the scripted
executor that is not pass-through-eligible is called again by the second pull,
and the pass-through-eligible one, whose upstream is exhausted, is not: the
second pull returns the DONE of the prefetch. -/
theorem C16_no_record_of_exhaustion_witness :
    (∃ s', getSome releaseBuild (scriptedExecutor false 1) 10 5
        (ExecutionBlockImpl.create ([(DONE, some [some 1])], []) freshManager) =
          some (Except.ok (DONE, some ⟨1, [[some 1]]⟩), s') ∧
      s'._outputItemRow = none ∧
      (∃ out2 s2, getSome releaseBuild (scriptedExecutor false 1) (9 + 1) 5 s' =
          some (out2, s2)) ∧
      (∀ out2 s2, getSome releaseBuild (scriptedExecutor false 1) (9 + 1) 5 s' =
          some (out2, s2) →
        ∃ st k w, Event.produceRow st k w ∈ s2.trace.drop s'.trace.length)) ∧
    (∃ s', getSome maintainerBuild (scriptedExecutor true 1) 10 5
        (ExecutionBlockImpl.create
          ([(DONE, some [some 7])], [(DONE, some (buildBlock [7]))]) freshManager) =
          some (Except.ok (DONE, some ⟨1, [[some 7]]⟩), s') ∧
      ∃ s2, getSome maintainerBuild (scriptedExecutor true 1) 10 5 s' =
          some (Except.ok (DONE, none), s2) ∧
        s2.trace = s'.trace ++ [Event.requestBlock 5 1, Event.prefetchBlock DONE]) := by
  refine ⟨?_, ?_⟩
  · obtain ⟨_, h2, h3, _⟩ := C16_no_record_of_exhaustion releaseBuild
      (scriptedExecutor false 1) 10 5
      (ExecutionBlockImpl.create ([(DONE, some [some 1])], []) freshManager) _ _ rfl
    obtain ⟨k1, _, k3⟩ := h3 (9 + 1) 5 _ _ ⟨by decide, by decide, by decide⟩ rfl (by decide) rfl
    obtain ⟨_, _, k4⟩ := h3 9 5 _ _ ⟨by decide, by decide, by decide⟩ rfl (by decide) rfl
    exact ⟨_, rfl, h2, (k4 (by decide)).1, k1⟩
  · obtain ⟨_, _, _, h4⟩ := C16_no_record_of_exhaustion maintainerBuild
      (scriptedExecutor true 1) 10 5
      (ExecutionBlockImpl.create
        ([(DONE, some [some 7])], [(DONE, some (buildBlock [7]))]) freshManager) _ _ rfl
    obtain ⟨s2, k1, _, k3⟩ :=
      (h4 10 5 _ _ ⟨by decide, by decide, by decide⟩ rfl rfl rfl).1 (Or.inr rfl)
    exact ⟨_, rfl, s2, k1, k3⟩

end arangodb.aql
